import Mathlib

/-!
# jcc: a single-pass compiler from a small C subset to x86-64 assembly

A shallow embedding of `src/main.c` and a verification of its lexer, its register/stack model
and its label bookkeeping.

Modelling conventions.

* The global variables of the C program are the fields of `State`; every C function that
  touches them is a function in the state-and-error monad `M`.
* `struct value` objects live in `State.heap`, a map from addresses to records. A pointer is an
  `Option Nat` (`none` is `NULL`); `calloc` hands out the fresh address `State.brk`. `free` is not
  modelled: addresses are never reused, so a dangling pointer is never mistaken for a live one.
* Every `printf` of the program appends one `Line` to `State.out`; `Line.render` is the text
  that the format string produces.
* The source file is a list of bytes. `Lexer.look` is the lookahead byte (`EOF` is -1) and
  `Lexer.source` the bytes not yet read; `fgetc` at the end of the list gives `EOF`.
* `error(...)` and a failed `assert` end the run with `Err.error` and `Err.assert`. Behaviour that
  is undefined in C (dereferencing `NULL`, an index outside an array) ends it with `Err.fault`.
* The recursive-descent functions take a recursion budget (`fuel`); `Err.fuel` means that the
  budget was too small, not that the program aborted.
* `stack_size` and `stack_pos` are `size_t` in the source. They are natural numbers here: the
  counter grows by at most 8 per emitted `push`/`sub`, so a wrap at `2^64` is out of reach of any
  source text that can be stored. The one subtraction of the two (`asm_operand`) is the `size_t`
  subtraction, which wraps below zero. `token_value` (`unsigned long`) wraps at `2^64`.
-/

namespace Jcc

/-! ## Errors, tokens, types, registers -/

/-- Ways in which a run ends without a result. -/
inductive Err where
  | error (msg : String)
  | assert
  | fault
  | fuel
deriving DecidableEq, Repr

deriving instance DecidableEq for Except

/-- End-of-file value of `fgetc`. -/
abbrev EOF : Int := -1
abbrev TOK_WHILE : Int := 1000
abbrev TOK_IF : Int := 1001
abbrev TOK_FOR : Int := 1002
abbrev TOK_RETURN : Int := 1003
abbrev TOK_CHAR : Int := 1004
abbrev TOK_INT : Int := 1005
abbrev TOK_VOID : Int := 1006
abbrev TOK_IDENTIFIER : Int := 1007
abbrev TOK_NUMBER : Int := 1008
abbrev TOK_STRING : Int := 1009
abbrev TOK_ELLIPSIS : Int := 1010

/-- The `TYPE_*` enumeration. `calloc` yields `TYPE_VOID`, the first constant. -/
inductive Ty where
  | void
  | function
  | pointer
  | char
  | int
deriving DecidableEq, Repr, Inhabited

abbrev RAX : Nat := 0
abbrev RBX : Nat := 1
abbrev RCX : Nat := 2
abbrev RDX : Nat := 3
abbrev RSI : Nat := 4
abbrev RDI : Nat := 5
abbrev MAX_REG : Nat := 6

/-- The table `reg_names[]`. -/
def reg_names : Nat → String
  | 0 => "%rax"
  | 1 => "%rbx"
  | 2 => "%rcx"
  | 3 => "%rdx"
  | 4 => "%rsi"
  | 5 => "%rdi"
  | _ => ""

/-- The table `reg_byte_names[]`. -/
def reg_byte_names : Nat → String
  | 0 => "%al"
  | 1 => "%bl"
  | 2 => "%cl"
  | 3 => "%dl"
  | 4 => "%sil"
  | 5 => "%dil"
  | _ => ""

/-! ## Data model -/

/-- The record `struct value`. -/
structure Value where
  next : Option Nat := none
  ident : Option String := none
  type : Ty := Ty.void
  constant : Bool := false
  return_type : Ty := Ty.void
  value : Nat := 0
  stack_pos : Nat := 0
  varargs : Bool := false
  args : Option Nat := none
deriving DecidableEq, Repr, Inhabited

/-- One constructor per `printf` format of the code generator, with the format's arguments. -/
inductive Line where
  | push (r : String)
  | mov (src dst : String)
  | sub_rsp (n : Nat)
  | call (f : String)
  | neg (r : String)
  | mov_label (l : Nat) (r : String)
  | add (src dst : String)
  | sub (src dst : String)
  | imul (src dst : String)
  | cmp (src dst : String)
  | setl (r : String)
  | setg (r : String)
  | movzx (src dst : String)
  | add_rsp (n : Nat)
  | or (a b : String)
  | jz (l : Nat)
  | jmp (l : Nat)
  | label (l : Nat)
  | mov_slot (r : String) (off : Nat)
  | pop_rbx
  | ret
  | push_rbx
  | global (f : String)
  | entry (f : String)
  | text
  | data
  | string (l : Nat) (s : String)
deriving DecidableEq, Repr

/-- The text written by the `printf` call that a `Line` records. -/
def Line.render : Line → String
  | Line.push r => "\tpush " ++ r ++ "\n"
  | Line.mov a b => "\tmov " ++ a ++ ", " ++ b ++ "\n"
  | Line.sub_rsp n => "\tsub $" ++ toString n ++ ", %rsp\n"
  | Line.call f => "\tcall " ++ f ++ "\n"
  | Line.neg r => "\tneg " ++ r ++ "\n"
  | Line.mov_label l r => "\tmov $l" ++ toString l ++ ", " ++ r ++ "\n"
  | Line.add a b => "\tadd " ++ a ++ ", " ++ b ++ "\n"
  | Line.sub a b => "\tsub " ++ a ++ ", " ++ b ++ "\n"
  | Line.imul a b => "\timul " ++ a ++ ", " ++ b ++ "\n"
  | Line.cmp a b => "\tcmp " ++ a ++ ", " ++ b ++ "\n"
  | Line.setl r => "\tsetl " ++ r ++ "\n"
  | Line.setg r => "\tsetg " ++ r ++ "\n"
  | Line.movzx a b => "\tmovzx " ++ a ++ ", " ++ b ++ "\n"
  | Line.add_rsp n => "\tadd $" ++ toString n ++ ", %rsp\n"
  | Line.or a b => "\tor " ++ a ++ ", " ++ b ++ "\n"
  | Line.jz l => "\tjz l" ++ toString l ++ "\n"
  | Line.jmp l => "\tjmp l" ++ toString l ++ "\n"
  | Line.label l => "l" ++ toString l ++ ":\n"
  | Line.mov_slot r off => "\tmov " ++ r ++ ", " ++ toString off ++ "(%rsp)\n"
  | Line.pop_rbx => "\tpop %rbx\n"
  | Line.ret => "\tret\n"
  | Line.push_rbx => "\tpush %rbx\n"
  | Line.global f => "\t.global " ++ f ++ "\n"
  | Line.entry f => f ++ ":\n"
  | Line.text => "\t.text\n"
  | Line.data => "\t.data\n"
  | Line.string l s => "l" ++ toString l ++ ": .string \"" ++ s ++ "\"\n"

/-- The lexer's globals: the unread rest of `source`, `look`, `token`, `token_value`,
`token_str`. -/
structure Lexer where
  source : List Nat
  look : Int
  token : Int
  token_value : Nat
  token_str : Option String
deriving DecidableEq, Repr

/-- The global variables of the compiler. -/
structure State where
  lx : Lexer
  heap : Nat → Value
  brk : Nat
  next_label : Nat
  symtab : Option Nat
  stringtab : List (Nat × String)
  stack_size : Nat
  registers : Nat → Option Nat
  reg_locked : Nat → Bool
  out : List Line

/-- State-and-error monad of the compiler's functions. -/
def M (α : Type) : Type := State → Except Err (α × State)

instance : Monad M where
  pure a := fun s => Except.ok (a, s)
  bind m f := fun s =>
    match m s with
    | Except.ok (a, s1) => f a s1
    | Except.error e => Except.error e

/-- Read the globals. -/
def getS : M State := fun s => Except.ok (s, s)

/-- Update the globals. -/
def modifyS (f : State → State) : M Unit := fun s => Except.ok ((), f s)

/-- End the run. -/
def fail {α : Type} (e : Err) : M α := fun _ => Except.error e

/-- One `printf`. -/
def emit (l : Line) : M Unit := modifyS fun s => { s with out := s.out ++ [l] }

/-- A fresh zeroed `struct value` (`calloc(1, sizeof(struct value))`). -/
def calloc : M Nat := fun s =>
  Except.ok (s.brk, { s with heap := Function.update s.heap s.brk default, brk := s.brk + 1 })

/-- Assignment through a `struct value *`. -/
def setValue (p : Nat) (f : Value → Value) : M Unit :=
  modifyS fun s => { s with heap := Function.update s.heap p (f (s.heap p)) }

/-! ## Lexer -/

/-- C library `isspace` in the "C" locale. -/
def isspace (c : Int) : Bool := c == 32 || (9 ≤ c && c ≤ 13)

/-- C library `isdigit`. -/
def isdigit (c : Int) : Bool := 48 ≤ c && c ≤ 57

/-- C library `isalpha` in the "C" locale. -/
def isalpha (c : Int) : Bool := (65 ≤ c && c ≤ 90) || (97 ≤ c && c ≤ 122)

/-- C library `isalnum` in the "C" locale. -/
def isalnum (c : Int) : Bool := isalpha c || isdigit c

/-- The store `buf[len++] = look` into a growing buffer (`none` is the `NULL` buffer). -/
def bufPush (buf : Option String) (look : Int) : Option String :=
  some ((buf.getD "").push (Char.ofNat look.toNat))

/-- The loop `while (isspace(look)) look = fgetc(source);` of `lex`. -/
def skip_space : Int → List Nat → Int × List Nat
  | look, [] => if isspace look then (EOF, []) else (look, [])
  | look, b :: rest => if isspace look then skip_space (b : Int) rest else (look, b :: rest)

/-- The loop of `parse_alnum`: buffer, lookahead and unread source after it. -/
def parse_alnum_loop : Option String → Int → List Nat → Option String × Int × List Nat
  | buf, look, [] =>
    if isalnum look || look == 95 then (bufPush buf look, EOF, []) else (buf, look, [])
  | buf, look, b :: rest =>
    if isalnum look || look == 95 then parse_alnum_loop (bufPush buf look) (b : Int) rest
    else (buf, look, b :: rest)

/-- The loop of `parse_string`. At end of file the C loop never meets the closing quote and
grows the buffer until `realloc` fails its `assert`. -/
def parse_string_loop : Option String → Int → List Nat → Except Err (Option String × List Nat)
  | buf, look, [] => if look != 34 then Except.error Err.assert else Except.ok (buf, [])
  | buf, look, b :: rest =>
    if look != 34 then parse_string_loop (bufPush buf look) (b : Int) rest
    else Except.ok (buf, b :: rest)

/-- The digit loop of `lex`; `token_value` is an `unsigned long`. -/
def number_loop : Nat → Int → List Nat → Nat × Int × List Nat
  | v, look, [] =>
    if isdigit look then ((v * 10 + (look - 48).toNat) % 2 ^ 64, EOF, []) else (v, look, [])
  | v, look, b :: rest =>
    if isdigit look then number_loop ((v * 10 + (look - 48).toNat) % 2 ^ 64) (b : Int) rest
    else (v, look, b :: rest)

/-- The call `fgetc(source)`: next byte and the rest. -/
def fgetc : List Nat → Int × List Nat
  | [] => (EOF, [])
  | b :: rest => ((b : Int), rest)

/-- The keyword comparisons of `lex` (`strcmp` chain). -/
def keyword (buf : String) : Option Int :=
  if buf = "while" then some TOK_WHILE
  else if buf = "if" then some TOK_IF
  else if buf = "for" then some TOK_FOR
  else if buf = "return" then some TOK_RETURN
  else if buf = "char" then some TOK_CHAR
  else if buf = "int" then some TOK_INT
  else if buf = "void" then some TOK_VOID
  else none

/-- The function `lex` on the lexer globals. -/
def Lexer.lex (l : Lexer) : Except Err Lexer :=
  let p := skip_space l.look l.source
  if isalpha p.1 || p.1 == 95 then
    match parse_alnum_loop none p.1 p.2 with
    | (none, _, _) => Except.error Err.fault
    | (some buf, look, src) =>
      match keyword buf with
      | some t => Except.ok { l with source := src, look := look, token := t, token_str := none }
      | none =>
        Except.ok { l with source := src, look := look, token := TOK_IDENTIFIER,
                           token_str := some buf }
  else if isdigit p.1 then
    let r := number_loop 0 p.1 p.2
    Except.ok { l with source := r.2.2, look := r.2.1, token := TOK_NUMBER, token_value := r.1,
                       token_str := none }
  else if p.1 == 34 then
    let q := fgetc p.2
    match parse_string_loop none q.1 q.2 with
    | Except.error e => Except.error e
    | Except.ok (none, _) => Except.error Err.fault
    | Except.ok (some buf, src) =>
      let q2 := fgetc src
      Except.ok { l with source := q2.2, look := q2.1, token := TOK_STRING, token_str := some buf }
  else if p.1 == 46 then
    let q := fgetc p.2
    if q.1 == 46 then
      let q2 := fgetc q.2
      Except.ok { l with source := q2.2, look := q2.1, token := TOK_ELLIPSIS, token_str := none }
    else
      Except.ok { l with source := q.2, look := q.1, token := 46, token_str := none }
  else
    let q := fgetc p.2
    Except.ok { l with source := q.2, look := q.1, token := p.1, token_str := none }

/-- Takes the next token from the source. -/
def lex : M Unit := fun s =>
  match s.lx.lex with
  | Except.ok l => Except.ok ((), { s with lx := l })
  | Except.error e => Except.error e

/-- Checks if the current token matches and skips it. -/
def check (c : Int) : M Bool := do
  let s ← getS
  if s.lx.token = c then do
    lex
    pure true
  else pure false

/-- Verifies that the current token matches and skips over it. -/
def expect (c : Int) : M Unit := do
  let b ← check c
  if b then pure () else fail (Err.error "expected")

/-! ## Register and stack model -/

/-- Subtraction of two `size_t` values. -/
def size_sub (a b : Nat) : Nat := if b ≤ a then a - b else 2 ^ 64 - (b - a)

/-- Search for the register where the value is stored (`none` is the result `-1`). -/
def search_reg (s : State) (val : Nat) : Option Nat :=
  (List.range MAX_REG).find? fun i => s.registers i == some val

/-- Called when a value is no longer needed. -/
def drop (val : Nat) : M Unit := modifyS fun s =>
  if (s.heap val).stack_pos > 0 ∨ (s.heap val).ident ≠ none then s
  else { s with registers := fun i =>
           if i < MAX_REG ∧ s.registers i = some val then none else s.registers i }

/-- Number of places that hold the value. -/
def copies (s : State) (val : Nat) : Nat :=
  if (s.heap val).constant = true ∨ (s.heap val).ident ≠ none then 999
  else
    (if (s.heap val).stack_pos > 0 then 1 else 0) +
      ((List.range MAX_REG).filter fun i => s.registers i == some val).length

/-- Looks up a symbol by the identifier, walking the `next` chain from `p`. `strcmp` on a
`NULL` identifier is a fault. -/
def lookup_from (s : State) (ident : Option String) : Nat → Option Nat → Except Err (Option Nat)
  | _, none => Except.ok none
  | 0, some _ => Except.error Err.fuel
  | n + 1, some p =>
    match (s.heap p).ident, ident with
    | some a, some b => if a = b then Except.ok (some p) else lookup_from s ident n (s.heap p).next
    | _, _ => Except.error Err.fault

/-- Looks up a symbol by the identifier. -/
def lookup (fuel : Nat) (ident : Option String) : M (Option Nat) := fun s =>
  match lookup_from s ident fuel s.symtab with
  | Except.ok r => Except.ok (r, s)
  | Except.error e => Except.error e

/-- Moves a value from a register to stack. -/
def push (reg : Nat) : M Unit := do
  let s ← getS
  match s.registers reg with
  | none => fail Err.fault
  | some val => do
    if copies s val = 1 then do
      emit (Line.push (reg_names reg))
      modifyS fun s => { s with stack_size := s.stack_size + 8 }
      modifyS fun s =>
        { s with heap := Function.update s.heap val { s.heap val with stack_pos := s.stack_size } }
    else pure ()
    modifyS fun s => { s with registers := Function.update s.registers reg none }

/-- Allocates an unused register. -/
def alloc_register : M Nat := do
  let s ← getS
  match (List.range MAX_REG).find? fun i => s.registers i == none with
  | some i => pure i
  | none =>
    match (List.range MAX_REG).reverse.find? fun i => !s.reg_locked i with
    | some i => do
      push i
      pure i
    | none => fail (Err.error "unable to allocate a register")

/-- Returns operand for printing. -/
def asm_operand (s : State) (val : Nat) : Except Err String :=
  if (s.heap val).type = Ty.void ∨ (s.heap val).type = Ty.function then
    Except.error (Err.error "non-numeric type for expression")
  else
    match search_reg s val with
    | some reg => Except.ok (reg_names reg)
    | none =>
      if (s.heap val).constant = true then Except.ok ("$" ++ toString (s.heap val).value)
      else if (s.heap val).stack_pos > 0 then
        Except.ok (toString (size_sub s.stack_size (s.heap val).stack_pos) ++ "(%rsp)")
      else
        match (s.heap val).ident with
        | none => Except.error Err.assert
        | some id => Except.ok id

/-- The call `asm_operand(val)` inside a `printf`. -/
def operand (val : Nat) : M String := fun s =>
  match asm_operand s val with
  | Except.ok t => Except.ok (t, s)
  | Except.error e => Except.error e

/-- The assignment `reg_locked[reg] = b`. -/
def set_locked (reg : Nat) (b : Bool) : M Unit :=
  modifyS fun s => { s with reg_locked := Function.update s.reg_locked reg b }

/-- The assignment `registers[reg] = p`. -/
def set_register (reg : Nat) (p : Option Nat) : M Unit :=
  modifyS fun s => { s with registers := Function.update s.registers reg p }

/-- The part of `load` that follows the choice of the register (from `if (registers[reg] == val)`
to the end). -/
def load_into (val reg : Nat) : M Nat := do
  let s ← getS
  if s.registers reg = some val then do
    set_locked reg true
    pure reg
  else do
    if s.registers reg ≠ none then push reg else pure ()
    let op ← operand val
    emit (Line.mov op (reg_names reg))
    set_register reg (some val)
    set_locked reg true
    pure reg

/-- Loads a value into the given register; `none` (the source's `-1`) means any register. -/
def load (val : Nat) (reg : Option Nat) : M Nat := do
  let s ← getS
  if (s.heap val).type = Ty.void ∨ (s.heap val).type = Ty.function then
    fail (Err.error "non-numeric type for expression")
  else
    match reg with
    | some r => load_into val r
    | none =>
      match search_reg s val with
      | some r => do
        set_locked r true
        pure r
      | none => do
        let r ← alloc_register
        load_into val r

/-! ## Declarations -/

/-- The `switch (token)` of `parse_declaration`. -/
def decl_type (token : Int) : Option Ty :=
  if token = TOK_VOID then some Ty.void
  else if token = TOK_CHAR then some Ty.char
  else if token = TOK_INT then some Ty.int
  else none

mutual
/-- Parses a C declaration; `none` is the result `NULL`. -/
def parse_declaration : Nat → M (Option Nat)
  | 0 => fail Err.fuel
  | fuel + 1 => do
    let s ← getS
    match decl_type s.lx.token with
    | none => pure none
    | some ty => do
      lex
      let val ← calloc
      setValue val fun v => { v with type := ty }
      let s ← getS
      if s.lx.token = TOK_IDENTIFIER then do
        setValue val fun v => { v with ident := s.lx.token_str }
        modifyS fun s => { s with lx := { s.lx with token_str := none } }
        lex
      else pure ()
      let b ← check 40
      if b then do
        setValue val fun v => { v with return_type := v.type, type := Ty.function }
        parse_params fuel val none
      else pure ()
      pure (some val)
/-- The parameter loop `while (!check(')'))` of `parse_declaration`. -/
def parse_params : Nat → Nat → Option Nat → M Unit
  | 0, _, _ => fail Err.fuel
  | fuel + 1, val, last_arg => do
    let b ← check 41
    if b then pure ()
    else do
      let s ← getS
      if s.lx.token = TOK_ELLIPSIS then do
        lex
        setValue val fun v => { v with varargs := true }
        expect 41
      else do
        let arg ← parse_declaration fuel
        match last_arg with
        | none => setValue val fun v => { v with args := arg }
        | some l => setValue l fun v => { v with next := arg }
        let s ← getS
        if s.lx.token ≠ 41 then expect 44 else pure ()
        parse_params fuel val arg
end

/-! ## Expressions -/

/-- One step of the loop that arranges the values for the call convention. -/
def arrange_step (values : Nat → Option Nat) (i : Nat) : M Unit := do
  match values i with
  | some v => do
    let _ ← load v (some (RDI - i))
    pure ()
  | none => do
    let s ← getS
    if s.registers (RDI - i) ≠ none then push (RDI - i) else pure ()

/-- The loop `for (i = 0; i < MAX_REG; ++i)` that arranges the values for the call
convention. -/
def arrange (values : Nat → Option Nat) : M Unit :=
  (List.range MAX_REG).forM (arrange_step values)

/-- The stack must be aligned to 16 after call: the alignment step of `function_call`. -/
def align_stack : M Unit := do
  let s ← getS
  let align := (s.stack_size + 8) % 16
  if align > 0 then do
    emit (Line.sub_rsp (16 - align))
    modifyS fun s => { s with stack_size := s.stack_size + (16 - align) }
  else pure ()

/-- The loop of `function_call` that drops the argument values after the call. -/
def drop_values (values : Nat → Option Nat) : M Unit :=
  (List.range MAX_REG).forM fun i =>
    match values i with
    | some v => drop v
    | none => pure ()

/-- The tail of `function_call`, from the arrangement of the values on. -/
def emit_call (fn : Nat) (values : Nat → Option Nat) : M Unit := do
  arrange values
  align_stack
  let s ← getS
  match (s.heap fn).ident with
  | none => fail Err.fault
  | some id => emit (Line.call id)
  drop_values values

/-- The fresh value bound to `reg` that holds the result of an operator. -/
def new_result (ty : Ty) (reg : Nat) : M Nat := do
  let result ← calloc
  setValue result fun v => { v with type := ty }
  set_register reg (some result)
  pure result

/-- The `switch (oper)` of `binop_expr`: the instructions of one operator, with the right
operand `rhs` as source and the register of the left operand as destination. -/
def emit_binop (oper : Int) (rhs reg : Nat) : M Unit := do
  let op ← operand rhs
  if oper = 43 then emit (Line.add op (reg_names reg))
  else if oper = 45 then emit (Line.sub op (reg_names reg))
  else if oper = 42 then emit (Line.imul op (reg_names reg))
  else if oper = 60 then do
    emit (Line.cmp op (reg_names reg))
    emit (Line.setl (reg_byte_names reg))
    emit (Line.movzx (reg_byte_names reg) (reg_names reg))
  else if oper = 62 then do
    emit (Line.cmp op (reg_names reg))
    emit (Line.setg (reg_byte_names reg))
    emit (Line.movzx (reg_byte_names reg) (reg_names reg))
  else fail Err.assert

mutual
/-- The argument loop `while (!check(')'))` of `function_call`; `values[i++] = val` with
`i` outside the array is a fault. -/
def call_args : Nat → Nat → Option Nat → Nat → (Nat → Option Nat) → M (Nat → Option Nat)
  | 0, _, _, _, _ => fail Err.fuel
  | fuel + 1, fn, arg, i, values => do
    let b ← check 41
    if b then pure values
    else do
      let s ← getS
      if arg = none ∧ (s.heap fn).varargs = false then
        fail (Err.error "too many arguments")
      else do
        let val ← expr fuel
        if MAX_REG ≤ i then fail Err.fault
        else do
          let s ← getS
          if s.lx.token ≠ 41 then expect 44 else pure ()
          let s ← getS
          let arg1 := match arg with
            | some a => (s.heap a).next
            | none => none
          call_args fuel fn arg1 (i + 1) (Function.update values i (some val))
/-- Handles a function call inside an expression. -/
def function_call : Nat → Nat → M Unit
  | 0, _ => fail Err.fuel
  | fuel + 1, fn => do
    let s ← getS
    if (s.heap fn).type ≠ Ty.function then fail (Err.error "calling a non-function")
    else do
      let values ← call_args fuel fn (s.heap fn).args 0 (fun _ => none)
      emit_call fn values
/-- Parses a term, which is a part of an expression. -/
def term : Nat → M Nat
  | 0 => fail Err.fuel
  | fuel + 1 => do
    let s ← getS
    if s.lx.token = 40 then do
      lex
      let cast ← parse_declaration fuel
      if cast ≠ none then fail (Err.error "TODO: typecasting")
      else do
        let result ← expr fuel
        expect 41
        pure result
    else if s.lx.token = 45 then do
      lex
      let val ← term fuel
      let reg ← load val none
      emit (Line.neg (reg_names reg))
      set_locked reg false
      drop val
      let s ← getS
      new_result (s.heap val).type reg
    else if s.lx.token = TOK_IDENTIFIER then do
      let r ← lookup fuel s.lx.token_str
      match r with
      | none => fail (Err.error "undefined")
      | some result => do
        lex
        let b ← check 40
        if b then do
          function_call fuel result
          let res ← calloc
          let s ← getS
          setValue res fun v => { v with type := (s.heap result).return_type }
          if (s.heap result).return_type ≠ Ty.void then set_register RAX (some res) else pure ()
          pure res
        else pure result
    else if s.lx.token = TOK_NUMBER then do
      let result ← calloc
      setValue result fun v =>
        { v with type := Ty.int, value := s.lx.token_value, constant := true }
      lex
      pure result
    else if s.lx.token = TOK_STRING then do
      modifyS fun s =>
        { s with stringtab := (s.next_label, s.lx.token_str.getD "") :: s.stringtab,
                 next_label := s.next_label + 1,
                 lx := { s.lx with token_str := none } }
      lex
      let result ← calloc
      setValue result fun v => { v with type := Ty.pointer }
      let reg ← alloc_register
      emit (Line.mov_label s.next_label (reg_names reg))
      set_register reg (some result)
      pure result
    else fail (Err.error "syntax error in expression")
/-- The operator loop `while (1)` of `binop_expr`. -/
def binop_loop : Nat → Nat → M Nat
  | 0, _ => fail Err.fuel
  | fuel + 1, result => do
    let s ← getS
    if s.lx.token = 43 ∨ s.lx.token = 45 ∨ s.lx.token = 42 ∨ s.lx.token = 60 ∨
        s.lx.token = 62 then do
      lex
      let rhs ← term fuel
      let reg ← load result none
      emit_binop s.lx.token rhs reg
      set_locked reg false
      drop result
      drop rhs
      let s1 ← getS
      let res ← new_result (s1.heap result).type reg
      binop_loop fuel res
    else pure result
/-- Handles arithmetic binary operations. -/
def binop_expr : Nat → M Nat
  | 0 => fail Err.fuel
  | fuel + 1 => do
    let result ← term fuel
    binop_loop fuel result
/-- Process an expression. -/
def expr : Nat → M Nat
  | 0 => fail Err.fuel
  | fuel + 1 => do
    let result ← binop_expr fuel
    let s ← getS
    if s.lx.token = 61 then do
      lex
      let val ← expr fuel
      let reg ← load val none
      let op ← operand result
      emit (Line.mov (reg_names reg) op)
      set_locked reg false
      pure val
    else pure result
end

/-! ## Statements -/

/-- The loop of `end_block` that removes unreachable stack positions, from `val` on. -/
def clear_stack_pos : Nat → Option Nat → M Unit
  | _, none => pure ()
  | 0, some _ => fail Err.fuel
  | n + 1, some val => do
    let s ← getS
    if (s.heap val).stack_pos > s.stack_size then setValue val fun v => { v with stack_pos := 0 }
    else pure ()
    clear_stack_pos n (s.heap val).next

/-- Cleans up allocated stack space, forgets unreachable stack positions, resets the
registers. -/
def end_block (fuel : Nat) (old_stack : Nat) : M Unit := do
  let s ← getS
  if s.stack_size > old_stack then do
    emit (Line.add_rsp (s.stack_size - old_stack))
    modifyS fun s => { s with stack_size := old_stack }
  else pure ()
  let s ← getS
  clear_stack_pos fuel s.symtab
  modifyS fun s => { s with registers := fun _ => none }

/-- Pops the symbol table down to `position`. -/
def close_scope (position : Option Nat) : Nat → M Unit
  | 0 => do
    let s ← getS
    if s.symtab = position then pure () else fail Err.fuel
  | n + 1 => do
    let s ← getS
    if s.symtab = position then pure ()
    else
      match s.symtab with
      | none => fail Err.fault
      | some val => do
        modifyS fun s => { s with symtab := (s.heap val).next }
        close_scope position n

/-- The compare-against-zero sequence shared by `if`, `while` and `for`: takes a label, loads
the condition, emits `or` and `jz`, drops the condition. Returns the label. -/
def test_condition (condition : Nat) : M Nat := do
  let s ← getS
  modifyS fun s => { s with next_label := s.next_label + 1 }
  let reg ← load condition none
  emit (Line.or (reg_names reg) (reg_names reg))
  emit (Line.jz s.next_label)
  drop condition
  pure s.next_label

/-- The statement `return E;`. -/
def return_statement (fuel : Nat) : M Unit := do
  let val ← expr fuel
  expect 59
  let _ ← load val (some RAX)
  let s ← getS
  if s.stack_size > 8 then emit (Line.add_rsp (s.stack_size - 8)) else pure ()
  emit Line.pop_rbx
  emit Line.ret

/-- The branch `if (var != NULL)` of `statement`: a variable declaration with its optional
initialization. -/
def local_declaration (fuel : Nat) (var : Nat) : M Unit := do
  modifyS fun s => { s with stack_size := s.stack_size + 8 }
  let s ← getS
  setValue var fun v => { v with stack_pos := s.stack_size, next := s.symtab }
  modifyS fun s => { s with symtab := some var }
  emit (Line.sub_rsp 8)
  let b ← check 61
  if b then do
    let init ← expr fuel
    let reg ← load init none
    let s ← getS
    emit (Line.mov_slot (reg_names reg) (size_sub s.stack_size (s.heap var).stack_pos))
    drop init
  else pure ()

mutual
/-- The statement `if (E) B`, after the keyword. -/
def if_statement : Nat → M Unit
  | 0 => fail Err.fuel
  | fuel + 1 => do
    expect 40
    let s ← getS
    let old_stack := s.stack_size
    let condition ← expr fuel
    expect 41
    let skip_label ← test_condition condition
    end_block fuel old_stack
    block fuel
    emit (Line.label skip_label)
/-- The statement `while (E) B`, after the keyword. -/
def while_statement : Nat → M Unit
  | 0 => fail Err.fuel
  | fuel + 1 => do
    expect 40
    let s ← getS
    let test_label := s.next_label
    modifyS fun s => { s with next_label := s.next_label + 1 }
    emit (Line.label test_label)
    let old_stack := s.stack_size
    let condition ← expr fuel
    expect 41
    let end_label ← test_condition condition
    end_block fuel old_stack
    block fuel
    emit (Line.jmp test_label)
    emit (Line.label end_label)
/-- The statement `for (I; C; S) B`, after the keyword. -/
def for_statement : Nat → M Unit
  | 0 => fail Err.fuel
  | fuel + 1 => do
    expect 40
    let s ← getS
    let old_stack := s.stack_size
    let initial ← expr fuel
    drop initial
    expect 59
    end_block fuel old_stack
    let s ← getS
    let test_label := s.next_label
    modifyS fun s => { s with next_label := s.next_label + 1 }
    emit (Line.label test_label)
    let old_stack := s.stack_size
    let condition ← expr fuel
    expect 59
    let end_label ← test_condition condition
    let s ← getS
    let begin_label := s.next_label
    modifyS fun s => { s with next_label := s.next_label + 1 }
    emit (Line.jmp begin_label)
    end_block fuel old_stack
    let s ← getS
    let step_label := s.next_label
    modifyS fun s => { s with next_label := s.next_label + 1 }
    emit (Line.label step_label)
    let old_stack := s.stack_size
    let step ← expr fuel
    drop step
    expect 41
    emit (Line.jmp test_label)
    end_block fuel old_stack
    emit (Line.label begin_label)
    block fuel
    emit (Line.jmp step_label)
    emit (Line.label end_label)
/-- One statement. -/
def statement : Nat → M Unit
  | 0 => fail Err.fuel
  | fuel + 1 => do
    let s ← getS
    if s.lx.token = TOK_IF then do
      lex
      if_statement fuel
    else if s.lx.token = TOK_WHILE then do
      lex
      while_statement fuel
    else if s.lx.token = TOK_FOR then do
      lex
      for_statement fuel
    else if s.lx.token = TOK_RETURN then do
      lex
      return_statement fuel
    else do
      let d ← parse_declaration fuel
      match d with
      | some var => local_declaration fuel var
      | none => do
        let result ← expr fuel
        drop result
      expect 59
/-- The loop `while (!check('}')) statement();` of `block`. -/
def block_loop : Nat → M Unit
  | 0 => fail Err.fuel
  | fuel + 1 => do
    let b ← check 125
    if b then pure ()
    else do
      statement fuel
      block_loop fuel
/-- A braced block or a single statement, in a scope of its own. -/
def block : Nat → M Unit
  | 0 => fail Err.fuel
  | fuel + 1 => do
    let s ← getS
    let old_sym := s.symtab
    let old_stack := s.stack_size
    let b ← check 123
    if b then block_loop fuel else statement fuel
    close_scope old_sym fuel
    end_block fuel old_stack
end

/-! ## Function definitions and the driver -/

/-- The loop of `function_body` that creates values for the arguments; returns `values`.
A store to `registers[reg]` with `reg` below zero is a fault. -/
def bind_params : Nat → Option Nat → Int → Option Nat → M (Option Nat)
  | _, none, _, values => pure values
  | 0, some _, _, _ => fail Err.fuel
  | n + 1, some arg, reg, values => do
    let val ← calloc
    let s ← getS
    setValue val fun _ => s.heap arg
    if reg < 0 then fail Err.fault
    else do
      set_register reg.toNat (some val)
      setValue val fun v => { v with next := values }
      let s ← getS
      setValue val fun v => { v with next := s.symtab }
      modifyS fun s => { s with symtab := some val }
      bind_params n (s.heap arg).next (reg - 1) (some val)

/-- The loop of `function_body` that cleans up the arguments, walking `next` from `values`. -/
def drop_params : Nat → Option Nat → M Unit
  | _, none => pure ()
  | 0, some _ => fail Err.fuel
  | n + 1, some arg => do
    let s ← getS
    drop arg
    drop_params n (s.heap arg).next

/-- Process a function body. -/
def function_body (fuel : Nat) (fn : Nat) : M Unit := do
  let s ← getS
  if (s.heap fn).type ≠ Ty.function then fail (Err.error "not a function")
  else do
    let old_sym := s.symtab
    let values ← bind_params fuel (s.heap fn).args RDI none
    match (s.heap fn).ident with
    | none => fail Err.fault
    | some id => do
      emit (Line.global id)
      emit (Line.entry id)
    emit Line.push_rbx
    modifyS fun s => { s with stack_size := 8 }
    block fuel
    drop_params fuel values
    emit Line.pop_rbx
    emit Line.ret
    close_scope old_sym fuel

/-- The loop `while (token != EOF)` of `main`. -/
def toplevel : Nat → M Unit
  | 0 => fail Err.fuel
  | fuel + 1 => do
    let s ← getS
    if s.lx.token = EOF then pure ()
    else do
      let d ← parse_declaration fuel
      match d with
      | none => fail (Err.error "expected a declaration")
      | some val => do
        let s ← getS
        let r ← lookup fuel (s.heap val).ident
        if r ≠ none then fail (Err.error "already defined")
        else do
          setValue val fun v => { v with next := s.symtab }
          modifyS fun s => { s with symtab := some val }
          let s ← getS
          if s.lx.token = 123 then function_body fuel val else expect 59
          toplevel fuel

/-- The compiler after the source file is open: `main` from `look = fgetc(source)` on. -/
def main (fuel : Nat) : M Unit := do
  modifyS fun s =>
    { s with lx := { s.lx with look := (fgetc s.lx.source).1, source := (fgetc s.lx.source).2 } }
  lex
  emit Line.text
  toplevel fuel
  emit Line.data
  modifyS fun s =>
    { s with out := s.out ++ s.stringtab.map (fun e => Line.string e.1 e.2), stringtab := [] }
  close_scope none fuel

/-- The globals at program start, with the bytes of the source file. -/
def State.init (src : List Nat) : State where
  lx := { source := src, look := 0, token := 0, token_value := 0, token_str := none }
  heap := fun _ => default
  brk := 0
  next_label := 100
  symtab := none
  stringtab := []
  stack_size := 0
  registers := fun _ => none
  reg_locked := fun _ => false
  out := []

/-- The bytes of a source text. -/
def bytes (src : String) : List Nat := src.toList.map Char.toNat

/-- The lines printed by a run of the compiler on a source text, or the way it ended. -/
def compile (fuel : Nat) (src : String) : Except Err (List Line) :=
  match main fuel (State.init (bytes src)) with
  | Except.ok (_, s) => Except.ok s.out
  | Except.error e => Except.error e

/-! ## Concrete states used as inputs -/

/-- The final state of a run, if it has one. -/
def final {α : Type} (r : Except Err (α × State)) : Option State :=
  match r with
  | Except.ok (_, s) => some s
  | Except.error _ => none

/-- The value of a run, if it has one. -/
def result {α : Type} (r : Except Err (α × State)) : Option α :=
  match r with
  | Except.ok (a, _) => some a
  | Except.error _ => none

/-- The lexer globals after the first two steps of `main` (`look = fgetc(source); lex();`) on
the given source text. -/
def Lexer.start (src : String) : Lexer :=
  match ({ source := (fgetc (bytes src)).2, look := (fgetc (bytes src)).1, token := 0,
           token_value := 0, token_str := none } : Lexer).lex with
  | Except.ok l => l
  | Except.error _ => { source := [], look := EOF, token := EOF, token_value := 0,
                        token_str := none }

/-- A state inside a function body in which `%rax` holds the local variable at address 0,
which also has its stack slot (`stack_pos = 16`), as after a `load` of the variable. -/
def st_local_in_rax : State :=
  { State.init [] with
    heap := Function.update (fun _ => default) 0 { type := Ty.int, stack_pos := 16 }
    brk := 1
    symtab := some 0
    stack_size := 16
    registers := Function.update (fun _ => none) RAX (some 0) }

/-- A state inside a function body in which `%rax` holds the temporary at address 0 and
nothing else holds it, as after the evaluation of `-1`. -/
def st_temp_in_rax : State :=
  { State.init [] with
    heap := Function.update (fun _ => default) 0 { type := Ty.int }
    brk := 1
    stack_size := 8
    registers := Function.update (fun _ => none) RAX (some 0) }

/-- A state in which all six registers hold distinct temporaries (addresses 0 to 5) and
`%rdi`, `%rsi` are locked. -/
def st_full : State :=
  { State.init [] with
    heap := fun _ => { type := Ty.int }
    brk := 6
    stack_size := 8
    registers := fun i => if i < MAX_REG then some i else none
    reg_locked := fun i => i == RDI || i == RSI }

/-- A state in which the `int` temporary at address 0 is held nowhere: in no register, not
constant, without stack slot and without identifier. -/
def st_temp_nowhere : State :=
  { State.init [] with
    heap := Function.update (fun _ => default) 0 { type := Ty.int }
    brk := 1
    stack_size := 8 }

/-- The positional table `values[]` of a call with the argument values `args`. -/
def values_of (args : List Nat) : Nat → Option Nat := fun i => args.get? i

/-- A state at a call `f(7, t)` inside a function with one parameter: `%rdi` holds the
parameter (address 0, named `a`), `%rsi` holds a temporary (address 1), `%rax` holds the
temporary `t` (address 2); the constant 7 is at address 3. -/
def st_call : State :=
  { State.init [] with
    heap := fun p =>
      if p = 0 then { type := Ty.int, ident := some "a" }
      else if p = 3 then { type := Ty.int, constant := true, value := 7 }
      else { type := Ty.int }
    brk := 4
    symtab := some 0
    stack_size := 8
    registers := fun i => if i = RDI then some 0 else if i = RSI then some 1
      else if i = RAX then some 2 else none }

/-- A state at the entry of a block inside the body of `main`, with the functions
`int f();` (address 0) and `int main()` (address 1) in the symbol table, `stack_size = 8`, and
the lexer at the start of the source text `src`. -/
def st_body (src : String) : State :=
  { State.init [] with
    lx := Lexer.start src
    heap := fun p =>
      if p = 0 then { type := Ty.function, return_type := Ty.int, ident := some "f" }
      else if p = 1 then
        { type := Ty.function, return_type := Ty.int, ident := some "main", next := some 0 }
      else default
    brk := 2
    symtab := some 1
    stack_size := 8 }

/-! ## Measuring a run: stack pointer along a path, statement boundaries -/

/-- Net adjustment of `%rsp` by a sequence of emitted lines: `push` counts -8, `sub $n, %rsp`
counts -n, `add $n, %rsp` counts +n; other lines do not move the stack pointer. -/
def sp_adjust : List Line → Int
  | [] => 0
  | Line.push _ :: ls => sp_adjust ls - 8
  | Line.push_rbx :: ls => sp_adjust ls - 8
  | Line.sub_rsp n :: ls => sp_adjust ls - n
  | Line.add_rsp n :: ls => sp_adjust ls + n
  | _ :: ls => sp_adjust ls

/-- The lines executed before control reaches the label `l` when the `jz l` is taken: the
lines up to that jump. -/
def path_taken (ls : List Line) (l : Nat) : List Line :=
  ls.takeWhile fun x => x != Line.jz l

/-- The lines executed before control reaches the label `l` when the `jz l` falls through:
the lines up to the label. -/
def path_through (ls : List Line) (l : Nat) : List Line :=
  ls.takeWhile fun x => x != Line.label l

/-- The function `m` relates every state it is started in to the state it returns, by `R`. -/
def Pres (R : State → State → Prop) {α : Type} (m : M α) : Prop :=
  ∀ s a s1, m s = Except.ok (a, s1) → R s s1

/-- The stack depth does not shrink. -/
def Mono (s s1 : State) : Prop := s.stack_size ≤ s1.stack_size

/-- The function `m` never takes the stack depth below `k` when started at or above `k`. -/
def Keeps (k : Nat) {α : Type} (m : M α) : Prop :=
  ∀ s a s1, k ≤ s.stack_size → m s = Except.ok (a, s1) → k ≤ s1.stack_size

/-- The value at address `v` can be loaded: its type is pointer, `char` or `int`, and it is
held somewhere (`copies` is not zero). -/
def Loadable (s : State) (v : Nat) : Prop :=
  ((s.heap v).type = Ty.pointer ∨ (s.heap v).type = Ty.char ∨ (s.heap v).type = Ty.int) ∧
    1 ≤ copies s v

/-! ## Measuring a run: locked registers -/

/-- The registers whose `reg_locked` flag is set. -/
def locked (s : State) : List Nat := (List.range MAX_REG).filter fun r => s.reg_locked r

/-! ## Source texts as byte lists -/

/-- The string made of the given bytes. -/
def word (w : List Nat) : String := String.mk (w.map Char.ofNat)

/-- The lexer globals with the lookahead on the first byte of `input` (as `look = fgetc(source)`
leaves them); the token fields are those of `l`. -/
def Lexer.before (l : Lexer) (input : List Nat) : Lexer :=
  { l with look := (fgetc input).1, source := (fgetc input).2 }

/-! ## The symbol table as a list -/

/-- The `next` chain that starts at `p` consists of the addresses `l`, in this order, and ends
with `NULL`. -/
def symbols (heap : Nat → Value) : Option Nat → List Nat → Bool
  | none, [] => true
  | some v, w :: l => v == w && symbols heap (heap v).next l
  | _, _ => false

/-- A state inside a nested block: the local at address 0 is declared in the outer block
(`stack_pos = 16`), the local at address 1 in the inner block (`stack_pos = 24`), the depth is
24, and `%rax` holds the inner local. -/
def st_two_locals : State :=
  { State.init [] with
    heap := fun p =>
      if p = 0 then { type := Ty.int, stack_pos := 16 }
      else if p = 1 then { type := Ty.int, stack_pos := 24, next := some 0 }
      else default
    brk := 2
    symtab := some 1
    stack_size := 24
    registers := Function.update (fun _ => none) RAX (some 1) }

/-! ## Chains of operators and literals -/

/-- The binary operators that `binop_expr` accepts: `+`, `-`, `*`, `<`, `>`. -/
def is_binop (t : Int) : Bool := t == 43 || t == 45 || t == 42 || t == 60 || t == 62

/-- Reads `op1 t1 op2 t2 ...` with the lexer: the current token is the operator `op1`, the
next one the numeric literal `t1`, and so on; after the last literal comes a token that is
no operator. Returns the lexer globals at that token. -/
def lex_chain : Lexer → List (Int × Nat) → Option Lexer
  | l, [] => if is_binop l.token then none else some l
  | l, (op, t) :: rest =>
    if l.token = op ∧ is_binop op = true then
      match l.lex with
      | Except.ok l1 =>
        if l1.token = TOK_NUMBER ∧ l1.token_value = t then
          match l1.lex with
          | Except.ok l2 => lex_chain l2 rest
          | Except.error _ => none
        else none
      | Except.error _ => none
    else none

/-- The instruction of one binary operator with destination `%rax`, as the specification
lists it: `add`, `sub`, `imul`, or `cmp` followed by `setl` or `setg` on `%al` and `movzx`. -/
def spec_binop_lines (oper : Int) (src : String) : List Line :=
  if oper = 43 then [Line.add src "%rax"]
  else if oper = 45 then [Line.sub src "%rax"]
  else if oper = 42 then [Line.imul src "%rax"]
  else if oper = 60 then [Line.cmp src "%rax", Line.setl "%al", Line.movzx "%al" "%rax"]
  else if oper = 62 then [Line.cmp src "%rax", Line.setg "%al", Line.movzx "%al" "%rax"]
  else []

/-! ## Labels in the output -/

/-- The label id that a line defines: `l<id>:` and `l<id>: .string "..."`. -/
def Line.defines : Line → Option Nat
  | Line.label l => some l
  | Line.string l _ => some l
  | _ => none

/-- The label id that a line refers to: `jz l<id>`, `jmp l<id>` and `mov $l<id>, <reg>`. -/
def Line.refers : Line → Option Nat
  | Line.jz l => some l
  | Line.jmp l => some l
  | Line.mov_label l _ => some l
  | _ => none

/-- The label ids defined by a sequence of lines, one entry per defining line. -/
def label_defs (ls : List Line) : List Nat := ls.filterMap Line.defines

/-- The label ids referred to by a sequence of lines. -/
def label_refs (ls : List Line) : List Nat := ls.filterMap Line.refers

/-- Label bookkeeping of a run from `s` to `s1`. The run only appends to the output and to
the string table and only raises `next_label`. The ids defined by the new lines and the new
string table entries, together with the ids `Q` still waiting for their definition, are the
ids `P` that were waiting before together with the ids taken from the counter during the run,
each once. Every id referred to by a new line is one of `K` or was taken during the run. -/
def LabP (K P Q : List Nat) (s s1 : State) : Prop :=
  s.next_label ≤ s1.next_label ∧
  ∃ new newtab, s1.out = s.out ++ new ∧ s1.stringtab = newtab ++ s.stringtab ∧
    List.Perm (label_defs new ++ newtab.map Prod.fst ++ Q)
      (P ++ List.range' s.next_label (s1.next_label - s.next_label)) ∧
    ∀ r ∈ label_refs new, r ∈ K ∨ (s.next_label ≤ r ∧ r < s1.next_label)

/-- Label bookkeeping of a complete construct: every id taken from the counter during the
run is defined exactly once in the new lines or string table entries, and every id referred to
was taken during the run. -/
def Lab (s s1 : State) : Prop := LabP [] [] [] s s1
/-! ## The lines printed by a run -/

/-- Nothing is printed and no label is taken between `s` and `s1`. -/
def Quiet (s s1 : State) : Prop :=
  s1.out = s.out ∧ s1.next_label = s.next_label ∧ s1.stringtab = s.stringtab

/-- Some returning run of `m` prints exactly the lines `ls`. -/
def Emits {α : Type} (m : M α) (ls : List Line) : Prop :=
  ∃ a x b, m a = Except.ok (x, b) ∧ b.out = a.out ++ ls

/-! ## Labels as text -/

set_option linter.unusedTactic false
set_option linter.unreachableTactic false
set_option linter.unusedVariables false

@[simp] theorem pure_apply {α : Type} (a : α) (s : State) :
    (pure a : M α) s = Except.ok (a, s) := rfl

theorem bind_apply {α β : Type} (m : M α) (f : α → M β) (s : State) :
    (m >>= f) s = match m s with
      | Except.ok (a, s1) => f a s1
      | Except.error e => Except.error e := rfl

@[simp] theorem bind_ok {α β : Type} (m : M α) (f : α → M β) (s s1 : State) (a : α)
    (h : m s = Except.ok (a, s1)) : (m >>= f) s = f a s1 := by
  rw [bind_apply, h]

@[simp] theorem bind_error {α β : Type} (m : M α) (f : α → M β) (s : State) (e : Err)
    (h : m s = Except.error e) : (m >>= f) s = Except.error e := by
  rw [bind_apply, h]

@[simp] theorem getS_apply (s : State) : getS s = Except.ok (s, s) := rfl

@[simp] theorem modifyS_apply (f : State → State) (s : State) :
    modifyS f s = Except.ok ((), f s) := rfl

@[simp] theorem fail_apply {α : Type} (e : Err) (s : State) :
    (fail e : M α) s = Except.error e := rfl

@[simp] theorem emit_apply (l : Line) (s : State) :
    emit l s = Except.ok ((), { s with out := s.out ++ [l] }) := rfl

@[simp] theorem getS_bind {β : Type} (f : State → M β) (s : State) :
    (getS >>= f) s = f s s := rfl

@[simp] theorem modifyS_bind {β : Type} (g : State → State) (f : Unit → M β) (s : State) :
    (modifyS g >>= f) s = f () (g s) := rfl

@[simp] theorem emit_bind {β : Type} (l : Line) (f : Unit → M β) (s : State) :
    (emit l >>= f) s = f () { s with out := s.out ++ [l] } := rfl

@[simp] theorem pure_bind_apply {α β : Type} (a : α) (f : α → M β) (s : State) :
    ((pure a : M α) >>= f) s = f a s := rfl

@[simp] theorem fail_bind {α β : Type} (e : Err) (f : α → M β) (s : State) :
    ((fail e : M α) >>= f) s = Except.error e := rfl

theorem bind_inv {α β : Type} {m : M α} {f : α → M β} {s s2 : State} {b : β}
    (h : (m >>= f) s = Except.ok (b, s2)) :
    ∃ a s1, m s = Except.ok (a, s1) ∧ f a s1 = Except.ok (b, s2) := by
  rw [bind_apply] at h
  cases hm : m s with
  | error e => rw [hm] at h; cases h
  | ok r =>
    obtain ⟨a, s1⟩ := r
    rw [hm] at h
    exact ⟨a, s1, rfl, h⟩

theorem pure_inv {α : Type} {a b : α} {s s2 : State}
    (h : (pure a : M α) s = Except.ok (b, s2)) : b = a ∧ s2 = s := by
  rw [pure_apply] at h
  cases h
  exact ⟨rfl, rfl⟩

theorem forM_nil_eq {α : Type} (f : α → M Unit) : ([] : List α).forM f = pure () := rfl

theorem forM_cons_eq {α : Type} (f : α → M Unit) (a : α) (l : List α) :
    (a :: l).forM f = (f a >>= fun _ => l.forM f) := rfl

/-! ## Reasoning about `M`: relations and returned values -/

theorem pres_fail {R : State → State → Prop} {α : Type} (e : Err) :
    Pres R (fail e : M α) := by
  intro s a s1 h; cases h

theorem pres_pure {R : State → State → Prop} (hr : ∀ s, R s s) {α : Type} (a : α) :
    Pres R (pure a : M α) := by
  intro s b s1 h
  obtain ⟨_, hs⟩ := pure_inv h
  subst hs
  exact hr _

theorem pres_getS {R : State → State → Prop} (hr : ∀ s, R s s) : Pres R getS := by
  intro s b s1 h
  cases h
  exact hr s

theorem pres_modifyS {R : State → State → Prop} {f : State → State} (h : ∀ s, R s (f s)) :
    Pres R (modifyS f) := by
  intro s b s1 hs
  cases hs
  exact h s

theorem pres_bind {R : State → State → Prop} (ht : ∀ a b c, R a b → R b c → R a c)
    {α β : Type} {m : M α} {f : α → M β} (hm : Pres R m) (hf : ∀ a, Pres R (f a)) :
    Pres R (m >>= f) := by
  intro s b s2 h
  obtain ⟨a, s1, h1, h2⟩ := bind_inv h
  exact ht _ _ _ (hm s a s1 h1) (hf a s1 b s2 h2)

theorem pres_forM {R : State → State → Prop} (hr : ∀ s, R s s)
    (ht : ∀ a b c, R a b → R b c → R a c) {α : Type} (f : α → M Unit)
    (hf : ∀ a, Pres R (f a)) (l : List α) : Pres R (l.forM f) := by
  induction l with
  | nil => rw [forM_nil_eq]; exact pres_pure hr _
  | cons a l ih => rw [forM_cons_eq]; exact pres_bind ht (hf a) (fun _ => ih)

/-- The state after `push(reg)` when the register holds the only copy of `v`. -/
theorem push_eq_spill (s : State) (reg v : Nat) (h : s.registers reg = some v)
    (hc : copies s v = 1) :
    push reg s = Except.ok ((),
      { s with out := s.out ++ [Line.push (reg_names reg)],
               stack_size := s.stack_size + 8,
               heap := Function.update s.heap v { s.heap v with stack_pos := s.stack_size + 8 },
               registers := Function.update s.registers reg none }) := by
  unfold push
  simp [h, hc]

/-- The state after `push(reg)` when `v` has another copy. -/
theorem push_eq_skip (s : State) (reg v : Nat) (h : s.registers reg = some v)
    (hc : copies s v ≠ 1) :
    push reg s = Except.ok ((), { s with registers := Function.update s.registers reg none }) := by
  unfold push
  simp [h, hc]

/-- The effect of `push(reg)` on a register that holds `v`, in both cases of `copies`. -/
theorem push_effect (s : State) (reg v : Nat) (h : s.registers reg = some v) :
    ∃ s1, push reg s = Except.ok ((), s1) ∧
      (copies s v = 1 →
        s1.out = s.out ++ [Line.push (reg_names reg)] ∧
        s1.stack_size = s.stack_size + 8 ∧
        s1.heap = Function.update s.heap v { s.heap v with stack_pos := s.stack_size + 8 }) ∧
      (copies s v ≠ 1 → s1.out = s.out ∧ s1.stack_size = s.stack_size ∧ s1.heap = s.heap) ∧
      s1.registers reg = none ∧ (∀ r, r ≠ reg → s1.registers r = s.registers r) ∧
      s1.reg_locked = s.reg_locked := by
  by_cases hc : copies s v = 1
  · refine ⟨_, push_eq_spill s reg v h hc, fun _ => ⟨rfl, rfl, rfl⟩, fun hne => absurd hc hne,
      ?_, ?_, rfl⟩
    · simp
    · intro r hr; simp [Function.update, hr]
  · refine ⟨_, push_eq_skip s reg v h hc, fun h1 => absurd h1 hc, fun _ => ⟨rfl, rfl, rfl⟩,
      ?_, ?_, rfl⟩
    · simp
    · intro r hr; simp [Function.update, hr]

/-- On an empty register `push` dereferences `NULL`. -/
theorem push_empty (s : State) (reg : Nat) (h : s.registers reg = none) :
    push reg s = Except.error Err.fault := by
  unfold push
  simp [h]

/-! ## Searches over the register file -/

theorem find_range_some (p : Nat → Bool) (n i : Nat)
    (h : (List.range n).find? p = some i) :
    i < n ∧ p i = true ∧ ∀ j, j < i → p j = false := by
  induction n with
  | zero => simp at h
  | succ n ih =>
    rw [List.range_succ, List.find?_append] at h
    cases hf : (List.range n).find? p with
    | some k =>
      rw [hf] at h
      simp at h
      subst h
      obtain ⟨h1, h2, h3⟩ := ih hf
      exact ⟨by omega, h2, h3⟩
    | none =>
      rw [hf] at h
      simp [List.find?_cons] at h
      have hall := List.find?_eq_none.mp hf
      cases hp : p n with
      | false => simp [hp] at h
      | true =>
        simp [hp] at h
        subst h
        refine ⟨by omega, hp, ?_⟩
        intro j hj
        have := hall j (List.mem_range.mpr hj)
        simpa using this

theorem find_range_none (p : Nat → Bool) (n : Nat)
    (h : (List.range n).find? p = none) : ∀ j, j < n → p j = false := by
  intro j hj
  have := List.find?_eq_none.mp h j (List.mem_range.mpr hj)
  simpa using this

theorem find_range_rev_some (p : Nat → Bool) (n i : Nat)
    (h : (List.range n).reverse.find? p = some i) :
    i < n ∧ p i = true ∧ ∀ j, i < j → j < n → p j = false := by
  induction n with
  | zero => simp at h
  | succ n ih =>
    rw [List.range_succ, List.reverse_append] at h
    simp [List.find?_cons] at h
    cases hp : p n with
    | true =>
      simp [hp] at h
      subst h
      exact ⟨by omega, hp, fun j h1 h2 => by omega⟩
    | false =>
      simp [hp] at h
      obtain ⟨h1, h2, h3⟩ := ih h
      refine ⟨by omega, h2, ?_⟩
      intro j hij hj
      by_cases hjn : j = n
      · subst hjn; exact hp
      · exact h3 j hij (by omega)

theorem find_range_rev_none (p : Nat → Bool) (n : Nat)
    (h : (List.range n).reverse.find? p = none) : ∀ j, j < n → p j = false := by
  intro j hj
  have := List.find?_eq_none.mp h j (by simp; exact hj)
  simpa using this

theorem find_range_isSome (p : Nat → Bool) (n j : Nat) (hj : j < n) (hp : p j = true) :
    ∃ i, (List.range n).find? p = some i := by
  cases h : (List.range n).find? p with
  | some i => exact ⟨i, rfl⟩
  | none => have := find_range_none p n h j hj; rw [hp] at this; cases this

theorem find_range_rev_isSome (p : Nat → Bool) (n j : Nat) (hj : j < n) (hp : p j = true) :
    ∃ i, (List.range n).reverse.find? p = some i := by
  cases h : (List.range n).reverse.find? p with
  | some i => exact ⟨i, rfl⟩
  | none => have := find_range_rev_none p n h j hj; rw [hp] at this; cases this

/-- The result of `search_reg`, when it finds a register. -/
theorem search_reg_some (s : State) (v i : Nat) (h : search_reg s v = some i) :
    i < MAX_REG ∧ s.registers i = some v ∧ ∀ j, j < i → s.registers j ≠ some v := by
  obtain ⟨h1, h2, h3⟩ := find_range_some _ _ _ h
  refine ⟨h1, by simpa using h2, ?_⟩
  intro j hj
  simpa using h3 j hj

/-- The result of `search_reg`, when it finds none. -/
theorem search_reg_none (s : State) (v : Nat) (h : search_reg s v = none) :
    ∀ j, j < MAX_REG → s.registers j ≠ some v := by
  intro j hj
  simpa using find_range_none _ _ h j hj

theorem alloc_register_free (s : State) (i : Nat)
    (h : ((List.range MAX_REG).find? fun i => s.registers i == none) = some i) :
    alloc_register s = Except.ok (i, s) := by
  unfold alloc_register
  simp [h]

theorem alloc_register_spill (s : State) (i : Nat)
    (h : ((List.range MAX_REG).find? fun i => s.registers i == none) = none)
    (h2 : ((List.range MAX_REG).reverse.find? fun i => !s.reg_locked i) = some i) :
    alloc_register s = (push i >>= fun _ => pure i) s := by
  unfold alloc_register
  simp [h, h2]

theorem alloc_register_abort (s : State)
    (h : ((List.range MAX_REG).find? fun i => s.registers i == none) = none)
    (h2 : ((List.range MAX_REG).reverse.find? fun i => !s.reg_locked i) = none) :
    alloc_register s = Except.error (Err.error "unable to allocate a register") := by
  unfold alloc_register
  simp [h, h2]

/-! ## What `load` does -/

theorem operand_inv {v : Nat} {s s2 : State} {op : String}
    (h : operand v s = Except.ok (op, s2)) : asm_operand s v = Except.ok op ∧ s2 = s := by
  unfold operand at h
  cases ha : asm_operand s v with
  | error e => rw [ha] at h; cases h
  | ok t => rw [ha] at h; cases h; exact ⟨rfl, rfl⟩

/-- What a returning `load_into` did: either the register already held the value and only
the lock was set, or the previous occupant (if any) was pushed and one `mov` was printed. -/
theorem load_into_inv {v reg g : Nat} {s s2 : State}
    (h : load_into v reg s = Except.ok (g, s2)) :
    g = reg ∧
    ((s.registers reg = some v ∧
        s2 = { s with reg_locked := Function.update s.reg_locked reg true }) ∨
     (s.registers reg ≠ some v ∧ ∃ s1 op,
        ((s.registers reg = none ∧ s1 = s) ∨
          (s.registers reg ≠ none ∧ push reg s = Except.ok ((), s1))) ∧
        asm_operand s1 v = Except.ok op ∧
        s2 = { s1 with out := s1.out ++ [Line.mov op (reg_names reg)],
                       registers := Function.update s1.registers reg (some v),
                       reg_locked := Function.update s1.reg_locked reg true })) := by
  unfold load_into at h
  rw [getS_bind] at h
  by_cases hv : s.registers reg = some v
  · rw [if_pos hv] at h
    simp [set_locked] at h
    exact ⟨h.1.symm, Or.inl ⟨hv, h.2.symm⟩⟩
  · rw [if_neg hv] at h
    have key : ∀ s1 : State, (do
          let op ← operand v
          emit (Line.mov op (reg_names reg))
          set_register reg (some v)
          set_locked reg true
          pure reg : M Nat) s1 = Except.ok (g, s2) →
        g = reg ∧ ∃ op, asm_operand s1 v = Except.ok op ∧
          s2 = { s1 with out := s1.out ++ [Line.mov op (reg_names reg)],
                         registers := Function.update s1.registers reg (some v),
                         reg_locked := Function.update s1.reg_locked reg true } := by
      intro s1 h1
      obtain ⟨op, s1b, hop, h2⟩ := bind_inv h1
      obtain ⟨hop, hs⟩ := operand_inv hop
      subst hs
      simp [set_register, set_locked] at h2
      exact ⟨h2.1.symm, op, hop, h2.2.symm⟩
    by_cases hn : s.registers reg = none
    · rw [if_neg (by simpa using hn)] at h
      obtain ⟨hg, op, hop, hs2⟩ := key s h
      exact ⟨hg, Or.inr ⟨hv, s, op, Or.inl ⟨hn, rfl⟩, hop, hs2⟩⟩
    · rw [if_pos hn] at h
      obtain ⟨_, s1, hsp, h⟩ := bind_inv h
      obtain ⟨hg, op, hop, hs2⟩ := key s1 h
      exact ⟨hg, Or.inr ⟨hv, s1, op, Or.inr ⟨hn, hsp⟩, hop, hs2⟩⟩

/-- What a returning `load` did. -/
theorem load_effect (s : State) (v : Nat) (r : Option Nat) (g : Nat) (s2 : State)
    (h : load v r s = Except.ok (g, s2)) :
    ((s.heap v).type = Ty.pointer ∨ (s.heap v).type = Ty.char ∨ (s.heap v).type = Ty.int) ∧
    s2.registers g = some v ∧ s2.reg_locked g = true ∧ (∀ r0, r = some r0 → g = r0) ∧
    (((∃ r0, r = some r0 ∧ s.registers r0 = some v) ∨
      (r = none ∧ ∃ i, i < MAX_REG ∧ s.registers i = some v)) →
        s2 = { s with reg_locked := Function.update s.reg_locked g true }) ∧
    (¬ ((∃ r0, r = some r0 ∧ s.registers r0 = some v) ∨
        (r = none ∧ ∃ i, i < MAX_REG ∧ s.registers i = some v)) →
      ∃ s1 op,
        ((s.registers g = none ∧ s1 = s) ∨
          (s.registers g ≠ none ∧ push g s = Except.ok ((), s1))) ∧
        asm_operand s1 v = Except.ok op ∧
        s2 = { s1 with out := s1.out ++ [Line.mov op (reg_names g)],
                       registers := Function.update s1.registers g (some v),
                       reg_locked := Function.update s1.reg_locked g true }) := by
  unfold load at h
  rw [getS_bind] at h
  by_cases hty : (s.heap v).type = Ty.void ∨ (s.heap v).type = Ty.function
  · rw [if_pos hty] at h; cases h
  rw [if_neg hty] at h
  have htype : (s.heap v).type = Ty.pointer ∨ (s.heap v).type = Ty.char ∨
      (s.heap v).type = Ty.int := by
    cases hc : (s.heap v).type <;> simp [hc] at hty ⊢
  refine ⟨htype, ?_⟩
  cases r with
  | some r0 =>
    simp only at h
    obtain ⟨hg, hcase⟩ := load_into_inv h
    subst hg
    rcases hcase with ⟨hv, hs2⟩ | ⟨hv, s1, op, hsp, hop, hs2⟩
    · refine ⟨(by rw [hs2]; exact hv), (by rw [hs2]; simp), fun _ h0 => (by cases h0; rfl),
        fun _ => hs2, ?_⟩
      intro hnot
      exact absurd (Or.inl ⟨g, rfl, hv⟩) hnot
    · refine ⟨(by rw [hs2]; simp), (by rw [hs2]; simp), fun _ h0 => (by cases h0; rfl), ?_,
        fun _ => ⟨s1, op, hsp, hop, hs2⟩⟩
      rintro (⟨r1, hr1, hv1⟩ | ⟨hr, _⟩)
      · cases hr1; exact absurd hv1 hv
      · cases hr
  | none =>
    simp only at h
    cases hsr : search_reg s v with
    | some i =>
      obtain ⟨hi, hiv, _⟩ := search_reg_some s v i hsr
      rw [hsr] at h
      simp [set_locked] at h
      obtain ⟨hg, hs2⟩ := h
      subst hg
      refine ⟨(by rw [← hs2]; exact hiv), (by rw [← hs2]; simp), fun _ h0 => (by cases h0),
        fun _ => hs2.symm, ?_⟩
      intro hnot
      exact absurd (Or.inr ⟨rfl, i, hi, hiv⟩) hnot
    | none =>
      have hnone := search_reg_none s v hsr
      rw [hsr] at h
      simp only at h
      obtain ⟨g1, s1, halloc, h⟩ := bind_inv h
      obtain ⟨hg, hcase⟩ := load_into_inv h
      subst hg
      -- the register handed out by `alloc_register` is empty in `s1`
      have hs1 : ((s.registers g = none ∧ s1 = s) ∨
          (s.registers g ≠ none ∧ push g s = Except.ok ((), s1))) ∧ s1.registers g = none := by
        cases hf : (List.range MAX_REG).find? fun i => s.registers i == none with
        | some i =>
          rw [alloc_register_free s i hf] at halloc
          cases halloc
          have := (find_range_some _ _ _ hf).2.1
          have h0 : s.registers g = none := by simpa using this
          exact ⟨Or.inl ⟨h0, rfl⟩, h0⟩
        | none =>
          cases hl : (List.range MAX_REG).reverse.find? fun i => !s.reg_locked i with
          | none => rw [alloc_register_abort s hf hl] at halloc; cases halloc
          | some i =>
            have hocc : s.registers i ≠ none := by
              simpa using find_range_none _ _ hf i (find_range_rev_some _ _ _ hl).1
            obtain ⟨w, hw⟩ := Option.ne_none_iff_exists'.mp hocc
            obtain ⟨s1b, hpush, _, _, hempty, _, _⟩ := push_effect s i w hw
            rw [alloc_register_spill s i hf hl, bind_ok _ _ _ _ _ hpush] at halloc
            cases halloc
            exact ⟨Or.inr ⟨hocc, hpush⟩, hempty⟩
      rcases hcase with ⟨hv, _⟩ | ⟨_, s1b, op, hsp, hop, hs2⟩
      · rw [hs1.2] at hv; cases hv
      · have hs1b : s1b = s1 := by
          rcases hsp with ⟨_, h1⟩ | ⟨h1, _⟩
          · exact h1
          · exact absurd hs1.2 h1
        subst hs1b
        refine ⟨(by rw [hs2]; simp), (by rw [hs2]; simp), fun _ h0 => (by cases h0), ?_,
          fun _ => ⟨s1b, op, hs1.1, hop, hs2⟩⟩
        rintro (⟨r1, hr1, _⟩ | ⟨_, i, hi, hiv⟩)
        · cases hr1
        · exact absurd hiv (hnone i hi)

/-! ## Copies of a value -/

theorem range_six : List.range MAX_REG = [0, 1, 2, 3, 4, 5] := by decide

/-- Holding at least one copy, spelled out. -/
theorem copies_pos_iff (s : State) (w : Nat) :
    1 ≤ copies s w ↔ (s.heap w).constant = true ∨ (s.heap w).ident ≠ none ∨
      0 < (s.heap w).stack_pos ∨ ∃ i, i < MAX_REG ∧ s.registers i = some w := by
  unfold copies
  by_cases hc : (s.heap w).constant = true ∨ (s.heap w).ident ≠ none
  · rw [if_pos hc]
    constructor
    · intro _
      rcases hc with h | h
      · exact Or.inl h
      · exact Or.inr (Or.inl h)
    · intro _; omega
  · rw [if_neg hc]
    push_neg at hc
    constructor
    · intro h
      right; right
      by_cases hp : 0 < (s.heap w).stack_pos
      · exact Or.inl hp
      · right
        rw [if_neg hp] at h
        have hlen : 0 < ((List.range MAX_REG).filter fun i => s.registers i == some w).length := by
          omega
        obtain ⟨i, hi⟩ := List.exists_mem_of_length_pos hlen
        rw [List.mem_filter] at hi
        exact ⟨i, List.mem_range.mp hi.1, by simpa using hi.2⟩
    · rintro (h | h | h | ⟨i, hi, hiv⟩)
      · exact absurd h hc.1
      · exact absurd hc.2 h
      · rw [if_pos h]; omega
      · have hmem : i ∈ (List.range MAX_REG).filter fun i => s.registers i == some w := by
          rw [List.mem_filter]
          exact ⟨List.mem_range.mpr hi, by simpa using hiv⟩
        have := List.length_pos_of_mem hmem
        omega

/-- A value with at least two copies that is neither constant nor named and has no stack
slot sits in two registers. -/
theorem copies_two_regs (s : State) (w reg : Nat) (hc : (s.heap w).constant = false)
    (hid : (s.heap w).ident = none) (hp : (s.heap w).stack_pos = 0) (h2 : 2 ≤ copies s w) :
    ∃ i, i < MAX_REG ∧ i ≠ reg ∧ s.registers i = some w := by
  by_contra hno
  push_neg at hno
  unfold copies at h2
  rw [if_neg (by simp [hc, hid])] at h2
  rw [if_neg (by omega)] at h2
  have hle : ((List.range MAX_REG).filter fun i => s.registers i == some w).length ≤
      ((List.range MAX_REG).filter fun i => i == reg).length := by
    rw [← List.countP_eq_length_filter, ← List.countP_eq_length_filter]
    apply List.countP_mono_left
    intro i hi hiw
    by_contra hne
    exact hno i (List.mem_range.mp hi) (by simpa using hne) (by simpa using hiw)
  have hone : ((List.range MAX_REG).filter fun i => i == reg).length ≤ 1 := by
    rw [← List.countP_eq_length_filter, ← List.count_eq_countP]
    exact List.nodup_iff_count_le_one.mp (List.nodup_range MAX_REG) reg
  omega

/-- A returning `push` loses no value: whatever had a copy before has one afterwards. -/
theorem push_keeps_copies (s s1 : State) (reg : Nat) (h : push reg s = Except.ok ((), s1))
    (w : Nat) (hw : 1 ≤ copies s w) : 1 ≤ copies s1 w := by
  cases hr : s.registers reg with
  | none => rw [push_empty s reg hr] at h; cases h
  | some v =>
    have hw1 := hw
    rw [copies_pos_iff] at hw ⊢
    by_cases hc : copies s v = 1
    · rw [push_eq_spill s reg v hr hc] at h
      cases h
      by_cases hwv : w = v
      · subst hwv
        right; right; left
        simp
      · rcases hw with h | h | h | ⟨i, hi, hiw⟩
        · left; simpa [Function.update, hwv] using h
        · right; left; simpa [Function.update, hwv] using h
        · right; right; left; simpa [Function.update, hwv] using h
        · right; right; right
          refine ⟨i, hi, ?_⟩
          have hir : i ≠ reg := by
            intro heq; subst heq; rw [hr] at hiw; cases hiw; exact hwv rfl
          simpa [Function.update, hir] using hiw
    · rw [push_eq_skip s reg v hr hc] at h
      cases h
      by_cases hwv : w = v
      · subst hwv
        by_cases hcon : (s.heap w).constant = true
        · exact Or.inl hcon
        by_cases hid : (s.heap w).ident ≠ none
        · exact Or.inr (Or.inl hid)
        by_cases hp : 0 < (s.heap w).stack_pos
        · exact Or.inr (Or.inr (Or.inl hp))
        right; right; right
        obtain ⟨i, hi, hir, hiw⟩ := copies_two_regs s w reg (by simpa using hcon)
          (by simpa using hid) (by omega) (by omega)
        exact ⟨i, hi, by simpa [Function.update, hir] using hiw⟩
      · rcases hw with h | h | h | ⟨i, hi, hiw⟩
        · exact Or.inl h
        · exact Or.inr (Or.inl h)
        · exact Or.inr (Or.inr (Or.inl h))
        · right; right; right
          refine ⟨i, hi, ?_⟩
          have hir : i ≠ reg := by
            intro heq; subst heq; rw [hr] at hiw; cases hiw; exact hwv rfl
          simpa [Function.update, hir] using hiw

/-- Binding a value to an empty register loses no value. -/
theorem bind_keeps_copies (s1 : State) (g v : Nat) (out : List Line) (locks : Nat → Bool)
    (hg : s1.registers g = none) (w : Nat) (hw : 1 ≤ copies s1 w) :
    1 ≤ copies { s1 with out := out, registers := Function.update s1.registers g (some v),
                         reg_locked := locks } w := by
  rw [copies_pos_iff] at hw ⊢
  rcases hw with h | h | h | ⟨i, hi, hiw⟩
  · exact Or.inl h
  · exact Or.inr (Or.inl h)
  · exact Or.inr (Or.inr (Or.inl h))
  · right; right; right
    refine ⟨i, hi, ?_⟩
    have hig : i ≠ g := by
      intro heq; subst heq; rw [hg] at hiw; cases hiw
    simpa [Function.update, hig] using hiw

/-- A returning `load` into a requested register changes no other slot and loses no value. -/
theorem load_requested (s s2 : State) (v r g : Nat)
    (h : load v (some r) s = Except.ok (g, s2)) :
    s2.registers r = some v ∧ (∀ r1, r1 ≠ r → s2.registers r1 = s.registers r1) ∧
      ∀ w, 1 ≤ copies s w → 1 ≤ copies s2 w := by
  obtain ⟨_, hreg, _, hg, hhit, hmiss⟩ := load_effect s v (some r) g s2 h
  have hgr : g = r := hg r rfl
  subst hgr
  refine ⟨hreg, ?_⟩
  by_cases hin : s.registers g = some v
  · have hs2 := hhit (Or.inl ⟨g, rfl, hin⟩)
    subst hs2
    exact ⟨fun _ _ => rfl, fun w hw => by
      rw [copies_pos_iff] at hw ⊢; exact hw⟩
  · obtain ⟨s1, op, hsp, _, hs2⟩ := hmiss (by
      rintro (⟨r0, hr0, hv0⟩ | ⟨hr, _⟩)
      · cases hr0; exact hin hv0
      · cases hr)
    rcases hsp with ⟨hnone, hs1⟩ | ⟨hocc, hpush⟩
    · subst hs1
      subst hs2
      refine ⟨fun r1 hr1 => by simp [Function.update, hr1], fun w hw => ?_⟩
      exact bind_keeps_copies s1 g v _ _ hnone w hw
    · obtain ⟨u, hu⟩ := Option.ne_none_iff_exists'.mp hocc
      obtain ⟨s1b, hpush2, _, _, hempty, hothers, _⟩ := push_effect s g u hu
      rw [hpush] at hpush2
      cases hpush2
      subst hs2
      refine ⟨fun r1 hr1 => by simp [Function.update, hr1, hothers r1 hr1], fun w hw => ?_⟩
      exact bind_keeps_copies s1 g v _ _ hempty w (push_keeps_copies s s1 g hpush w hw)

/-! ## The arrangement loop of a call -/

/-- One step of the arrangement loop: afterwards slot `RDI - i` holds `values[i]` (it is
empty when there is no value at position `i`), no other slot has changed and no value is
lost. -/
theorem arrange_step_spec (values : Nat → Option Nat) (i : Nat) (s s1 : State)
    (h : arrange_step values i s = Except.ok ((), s1)) :
    s1.registers (RDI - i) = values i ∧
      (∀ r, r ≠ RDI - i → s1.registers r = s.registers r) ∧
      ∀ w, 1 ≤ copies s w → 1 ≤ copies s1 w := by
  unfold arrange_step at h
  cases hv : values i with
  | some v =>
    rw [hv] at h
    simp only at h
    obtain ⟨g, s1b, hload, hp⟩ := bind_inv h
    obtain ⟨_, rfl⟩ := pure_inv hp
    exact load_requested s s1 v (RDI - i) g hload
  | none =>
    rw [hv] at h
    simp only at h
    rw [getS_bind] at h
    by_cases hocc : s.registers (RDI - i) = none
    · rw [if_neg (by simpa using hocc)] at h
      obtain ⟨_, rfl⟩ := pure_inv h
      exact ⟨hocc, fun _ _ => rfl, fun _ hw => hw⟩
    · rw [if_pos hocc] at h
      obtain ⟨u, hu⟩ := Option.ne_none_iff_exists'.mp hocc
      obtain ⟨s1b, hpush, _, _, hempty, hothers, _⟩ := push_effect s (RDI - i) u hu
      rw [h] at hpush
      cases hpush
      exact ⟨hempty, hothers, fun w hw => push_keeps_copies s s1 _ h w hw⟩

/-- The arrangement steps for a list of distinct positions. -/
theorem arrange_list_spec (values : Nat → Option Nat) (l : List Nat) (hl : l.Nodup)
    (hle : ∀ i, i ∈ l → i ≤ RDI) (s s1 : State)
    (h : l.forM (arrange_step values) s = Except.ok ((), s1)) :
    (∀ i, i ∈ l → s1.registers (RDI - i) = values i) ∧
      (∀ r, (∀ i, i ∈ l → r ≠ RDI - i) → s1.registers r = s.registers r) ∧
      ∀ w, 1 ≤ copies s w → 1 ≤ copies s1 w := by
  induction l generalizing s with
  | nil =>
    rw [forM_nil_eq] at h
    obtain ⟨_, rfl⟩ := pure_inv h
    exact ⟨fun i hi => (by cases hi), fun _ _ => rfl, fun _ hw => hw⟩
  | cons a l ih =>
    rw [forM_cons_eq] at h
    obtain ⟨_, sa, hstep, hrest⟩ := bind_inv h
    obtain ⟨ha, hao, hac⟩ := arrange_step_spec values a s sa hstep
    have hnd := List.nodup_cons.mp hl
    obtain ⟨hr, hro, hrc⟩ := ih hnd.2 (fun i hi => hle i (List.mem_cons_of_mem a hi)) sa hrest
    refine ⟨?_, ?_, fun w hw => hrc w (hac w hw)⟩
    · intro i hi
      rcases List.mem_cons.mp hi with rfl | hi
      · rw [hro (RDI - i) ?_, ha]
        intro j hj heq
        have hj5 := hle j (List.mem_cons_of_mem i hj)
        have hi5 := hle i (List.mem_cons_self i l)
        have : i = j := by
          have h1 : j ≤ 5 := hj5
          have h2 : i ≤ 5 := hi5
          have h3 : 5 - i = 5 - j := heq
          omega
        subst this
        exact hnd.1 hj
      · exact hr i hi
    · intro r hr2
      rw [hro r (fun i hi => hr2 i (List.mem_cons_of_mem a hi)),
        hao r (hr2 a (List.mem_cons_self a l))]

/-- `asm_operand` returns for a value that can be loaded. -/
theorem asm_operand_ok (s : State) (v : Nat) (h : Loadable s v) :
    ∃ op, asm_operand s v = Except.ok op := by
  obtain ⟨hty, hc⟩ := h
  have hnv : ¬ ((s.heap v).type = Ty.void ∨ (s.heap v).type = Ty.function) := by
    rcases hty with h | h | h <;> simp [h]
  unfold asm_operand
  rw [if_neg hnv]
  cases hsr : search_reg s v with
  | some r => exact ⟨_, rfl⟩
  | none =>
    dsimp only
    by_cases hcon : (s.heap v).constant = true
    · rw [if_pos hcon]; exact ⟨_, rfl⟩
    · rw [if_neg hcon]
      by_cases hp : (s.heap v).stack_pos > 0
      · rw [if_pos hp]; exact ⟨_, rfl⟩
      · rw [if_neg hp]
        cases hid : (s.heap v).ident with
        | some id => exact ⟨_, rfl⟩
        | none =>
          exfalso
          rcases (copies_pos_iff s v).mp hc with h | h | h | ⟨i, hi, hiv⟩
          · exact hcon h
          · exact h hid
          · exact hp h
          · exact search_reg_none s v hsr i hi hiv

/-- `push` changes no type, and what could be loaded before can be loaded afterwards. -/
theorem push_keeps_loadable (s s1 : State) (reg : Nat) (h : push reg s = Except.ok ((), s1))
    (w : Nat) (hw : Loadable s w) : Loadable s1 w := by
  refine ⟨?_, push_keeps_copies s s1 reg h w hw.2⟩
  have hty : (s1.heap w).type = (s.heap w).type := by
    cases hr : s.registers reg with
    | none => rw [push_empty s reg hr] at h; cases h
    | some v =>
      by_cases hc : copies s v = 1
      · rw [push_eq_spill s reg v hr hc] at h
        cases h
        by_cases hwv : w = v
        · subst hwv; simp
        · simp [Function.update, hwv]
      · rw [push_eq_skip s reg v hr hc] at h
        cases h
        rfl
  rw [hty]
  exact hw.1

/-- `load` into a requested register returns for a value that can be loaded. -/
theorem load_requested_ok (s : State) (v r : Nat) (h : Loadable s v) :
    ∃ g s2, load v (some r) s = Except.ok (g, s2) := by
  have hnv : ¬ ((s.heap v).type = Ty.void ∨ (s.heap v).type = Ty.function) := by
    rcases h.1 with h | h | h <;> simp [h]
  unfold load
  rw [getS_bind, if_neg hnv]
  dsimp only
  unfold load_into
  rw [getS_bind]
  by_cases hin : s.registers r = some v
  · rw [if_pos hin]
    exact ⟨_, _, rfl⟩
  · rw [if_neg hin]
    by_cases hocc : s.registers r = none
    · rw [if_neg (by simpa using hocc)]
      obtain ⟨op, hop⟩ := asm_operand_ok s v h
      have hop2 : operand v s = Except.ok (op, s) := by unfold operand; rw [hop]
      rw [pure_bind_apply]
      dsimp only
      rw [bind_ok _ _ _ _ _ hop2]
      exact ⟨_, _, rfl⟩
    · rw [if_pos hocc]
      obtain ⟨u, hu⟩ := Option.ne_none_iff_exists'.mp hocc
      obtain ⟨s1, hpush, _⟩ := push_effect s r u hu
      obtain ⟨op, hop⟩ := asm_operand_ok s1 v (push_keeps_loadable s s1 r hpush v h)
      have hop2 : operand v s1 = Except.ok (op, s1) := by unfold operand; rw [hop]
      rw [bind_ok _ _ _ _ _ hpush]
      dsimp only
      rw [bind_ok _ _ _ _ _ hop2]
      exact ⟨_, _, rfl⟩

/-- A returning `load` into a requested register keeps every loadable value loadable. -/
theorem load_keeps_loadable (s s2 : State) (v r g : Nat)
    (h : load v (some r) s = Except.ok (g, s2)) (w : Nat) (hw : Loadable s w) :
    Loadable s2 w := by
  refine ⟨?_, (load_requested s s2 v r g h).2.2 w hw.2⟩
  obtain ⟨_, _, _, hg, hhit, hmiss⟩ := load_effect s v (some r) g s2 h
  have hty : (s2.heap w).type = (s.heap w).type := by
    by_cases hin : (∃ r0, some r = some r0 ∧ s.registers r0 = some v) ∨
        ((some r : Option Nat) = none ∧ ∃ i, i < MAX_REG ∧ s.registers i = some v)
    · rw [hhit hin]
    · obtain ⟨s1, op, hsp, _, hs2⟩ := hmiss hin
      rw [hs2]
      rcases hsp with ⟨_, hs1⟩ | ⟨_, hpush⟩
      · rw [hs1]
      · have := (push_keeps_loadable s s1 g hpush w hw).1
        cases hr : s.registers g with
        | none => rw [push_empty s g hr] at hpush; cases hpush
        | some u =>
          by_cases hc : copies s u = 1
          · rw [push_eq_spill s g u hr hc] at hpush
            cases hpush
            by_cases hwu : w = u
            · subst hwu; simp
            · simp [Function.update, hwu]
          · rw [push_eq_skip s g u hr hc] at hpush
            cases hpush
            rfl
  rw [hty]
  exact hw.1

/-- One step of the arrangement loop returns when the value at its position can be loaded,
and keeps every loadable value loadable. -/
theorem arrange_step_ok (values : Nat → Option Nat) (i : Nat) (s : State)
    (h : ∀ v, values i = some v → Loadable s v) :
    ∃ s1, arrange_step values i s = Except.ok ((), s1) ∧
      ∀ w, Loadable s w → Loadable s1 w := by
  unfold arrange_step
  cases hv : values i with
  | some v =>
    dsimp only
    obtain ⟨g, s2, hl⟩ := load_requested_ok s v (RDI - i) (h v hv)
    rw [bind_ok _ _ _ _ _ hl]
    exact ⟨s2, rfl, fun w hw => load_keeps_loadable s s2 v _ g hl w hw⟩
  | none =>
    dsimp only
    rw [getS_bind]
    by_cases hocc : s.registers (RDI - i) = none
    · rw [if_neg (by simpa using hocc)]
      exact ⟨s, rfl, fun _ hw => hw⟩
    · rw [if_pos hocc]
      obtain ⟨u, hu⟩ := Option.ne_none_iff_exists'.mp hocc
      obtain ⟨s1, hpush, _⟩ := push_effect s (RDI - i) u hu
      exact ⟨s1, hpush, fun w hw => push_keeps_loadable s s1 _ hpush w hw⟩

/-- The arrangement steps for a list of positions return when every value of the table can
be loaded. -/
theorem arrange_list_ok (values : Nat → Option Nat) (l : List Nat) (s : State)
    (h : ∀ i v, values i = some v → Loadable s v) :
    ∃ s1, l.forM (arrange_step values) s = Except.ok ((), s1) := by
  induction l generalizing s with
  | nil => exact ⟨s, rfl⟩
  | cons a l ih =>
    obtain ⟨sa, hstep, hkeep⟩ := arrange_step_ok values a s (h a)
    obtain ⟨s1, hrest⟩ := ih sa (fun i v hv => hkeep v (h i v hv))
    rw [forM_cons_eq, bind_ok _ _ _ _ _ hstep]
    exact ⟨s1, hrest⟩

/-- Dropping the argument values after the call prints nothing and leaves the depth alone. -/
theorem drop_values_inv (values : Nat → Option Nat) (s s1 : State)
    (h : drop_values values s = Except.ok ((), s1)) :
    s1.out = s.out ∧ s1.stack_size = s.stack_size := by
  have key : Pres (fun a b => b.out = a.out ∧ b.stack_size = a.stack_size)
      (drop_values values) := by
    unfold drop_values
    refine pres_forM (R := fun a b => b.out = a.out ∧ b.stack_size = a.stack_size)
      (fun _ => ⟨rfl, rfl⟩) (fun a b c h1 h2 => ⟨h2.1.trans h1.1, h2.2.trans h1.2⟩) _ ?_ _
    intro i
    split
    · apply pres_modifyS
      intro t
      dsimp only
      split <;> exact ⟨rfl, rfl⟩
    · exact pres_pure (fun _ => ⟨rfl, rfl⟩) _
  exact key s () s1 h

/-! ## Stack depth: what the code generator may do to `stack_size` -/

theorem mono_refl (s : State) : Mono s s := Nat.le_refl _

theorem mono_trans (a b c : State) (h1 : Mono a b) (h2 : Mono b c) : Mono a c :=
  Nat.le_trans h1 h2

theorem mono_lex : Pres Mono lex := by
  intro s a s1 h
  unfold lex at h
  cases hl : s.lx.lex with
  | error e => rw [hl] at h; cases h
  | ok l => rw [hl] at h; cases h; exact Nat.le_refl _

theorem mono_emit (l : Line) : Pres Mono (emit l) := pres_modifyS fun _ => Nat.le_refl _

theorem mono_set_locked (r : Nat) (b : Bool) : Pres Mono (set_locked r b) :=
  pres_modifyS fun _ => Nat.le_refl _

theorem mono_set_register (r : Nat) (p : Option Nat) : Pres Mono (set_register r p) :=
  pres_modifyS fun _ => Nat.le_refl _

theorem mono_setValue (p : Nat) (f : Value → Value) : Pres Mono (setValue p f) :=
  pres_modifyS fun _ => Nat.le_refl _

theorem mono_calloc : Pres Mono calloc := by
  intro s a s1 h
  cases h
  exact Nat.le_refl _

theorem mono_drop (v : Nat) : Pres Mono (drop v) := by
  apply pres_modifyS
  intro s
  show s.stack_size ≤ _
  split <;> exact Nat.le_refl _

theorem mono_operand (v : Nat) : Pres Mono (operand v) := by
  intro s a s1 h
  obtain ⟨_, hs⟩ := operand_inv h
  subst hs
  exact Nat.le_refl _

theorem mono_lookup (fuel : Nat) (id : Option String) : Pres Mono (lookup fuel id) := by
  intro s a s1 h
  unfold lookup at h
  cases hl : lookup_from s id fuel s.symtab with
  | error e => rw [hl] at h; cases h
  | ok l => rw [hl] at h; cases h; exact Nat.le_refl _

theorem mono_check (c : Int) : Pres Mono (check c) := by
  unfold check
  repeat' first
    | exact pres_fail _ | exact pres_pure mono_refl _ | exact pres_getS mono_refl
    | exact mono_lex
    | refine pres_bind mono_trans ?_ (fun _ => ?_) | dsimp only | split

theorem mono_expect (c : Int) : Pres Mono (expect c) := by
  unfold expect
  repeat' first
    | exact pres_fail _ | exact pres_pure mono_refl _ | exact pres_getS mono_refl
    | exact mono_check _
    | refine pres_bind mono_trans ?_ (fun _ => ?_) | dsimp only | split

theorem mono_push (reg : Nat) : Pres Mono (push reg) := by
  unfold push
  repeat' first
    | exact pres_fail _ | exact pres_pure mono_refl _ | exact pres_getS mono_refl
    | exact mono_emit _
    | exact pres_modifyS fun _ => Nat.le_refl _
    | exact pres_modifyS fun _ => Nat.le_add_right _ _
    | refine pres_bind mono_trans ?_ (fun _ => ?_) | dsimp only | split

theorem mono_alloc_register : Pres Mono alloc_register := by
  unfold alloc_register
  repeat' first
    | exact pres_fail _ | exact pres_pure mono_refl _ | exact pres_getS mono_refl
    | exact mono_push _
    | refine pres_bind mono_trans ?_ (fun _ => ?_) | dsimp only | split

theorem mono_load_into (v reg : Nat) : Pres Mono (load_into v reg) := by
  unfold load_into
  repeat' first
    | exact pres_fail _ | exact pres_pure mono_refl _ | exact pres_getS mono_refl
    | exact mono_push _ | exact mono_emit _ | exact mono_set_locked _ _
    | exact mono_set_register _ _ | exact mono_operand _
    | refine pres_bind mono_trans ?_ (fun _ => ?_) | dsimp only | split

theorem mono_load (v : Nat) (r : Option Nat) : Pres Mono (load v r) := by
  unfold load
  repeat' first
    | exact pres_fail _ | exact pres_pure mono_refl _ | exact pres_getS mono_refl
    | exact mono_load_into _ _ | exact mono_alloc_register | exact mono_set_locked _ _
    | refine pres_bind mono_trans ?_ (fun _ => ?_) | dsimp only | split

theorem mono_parse (fuel : Nat) :
    Pres Mono (parse_declaration fuel) ∧ ∀ val last, Pres Mono (parse_params fuel val last) := by
  induction fuel with
  | zero =>
    constructor
    · unfold parse_declaration; exact pres_fail _
    · intro val last; unfold parse_params; exact pres_fail _
  | succ n ih =>
    constructor
    · unfold parse_declaration
      repeat' first
        | with_reducible exact pres_fail _ | with_reducible exact pres_pure mono_refl _
        | with_reducible exact pres_getS mono_refl | with_reducible exact mono_lex
        | with_reducible exact mono_check _ | with_reducible exact mono_expect _
        | with_reducible exact mono_emit _ | with_reducible exact mono_set_locked _ _
        | with_reducible exact mono_set_register _ _ | with_reducible exact mono_setValue _ _
        | with_reducible exact mono_calloc | with_reducible exact mono_drop _
        | with_reducible exact mono_operand _ | with_reducible exact mono_lookup _ _
        | with_reducible exact mono_push _ | with_reducible exact mono_alloc_register
        | with_reducible exact mono_load _ _ | with_reducible exact ih.2 _ _
        | with_reducible exact pres_modifyS fun _ => Nat.le_refl _
        | refine pres_bind mono_trans ?_ (fun _ => ?_) | dsimp only | split
    · intro val last
      unfold parse_params
      repeat' first
        | with_reducible exact pres_fail _ | with_reducible exact pres_pure mono_refl _
        | with_reducible exact pres_getS mono_refl | with_reducible exact mono_lex
        | with_reducible exact mono_check _ | with_reducible exact mono_expect _
        | with_reducible exact mono_emit _ | with_reducible exact mono_set_locked _ _
        | with_reducible exact mono_set_register _ _ | with_reducible exact mono_setValue _ _
        | with_reducible exact mono_calloc | with_reducible exact mono_drop _
        | with_reducible exact mono_operand _ | with_reducible exact mono_lookup _ _
        | with_reducible exact mono_push _ | with_reducible exact mono_alloc_register
        | with_reducible exact mono_load _ _ | with_reducible exact ih.1
        | with_reducible exact ih.2 _ _
        | with_reducible exact pres_modifyS fun _ => Nat.le_refl _
        | refine pres_bind mono_trans ?_ (fun _ => ?_) | dsimp only | split

theorem mono_parse_declaration (fuel : Nat) : Pres Mono (parse_declaration fuel) :=
  (mono_parse fuel).1

theorem mono_new_result (ty : Ty) (reg : Nat) : Pres Mono (new_result ty reg) := by
  unfold new_result
  repeat' first
    | with_reducible exact pres_fail _ | with_reducible exact pres_pure mono_refl _
    | with_reducible exact pres_getS mono_refl | with_reducible exact mono_lex
    | with_reducible exact mono_check _ | with_reducible exact mono_expect _
    | with_reducible exact mono_emit _ | with_reducible exact mono_set_locked _ _
    | with_reducible exact mono_set_register _ _ | with_reducible exact mono_setValue _ _
    | with_reducible exact mono_calloc | with_reducible exact mono_drop _
    | with_reducible exact mono_operand _ | with_reducible exact mono_lookup _ _
    | with_reducible exact mono_push _ | with_reducible exact mono_alloc_register
    | with_reducible exact mono_load _ _
    | with_reducible exact pres_modifyS fun _ => Nat.le_refl _
    | refine pres_bind mono_trans ?_ (fun _ => ?_) | dsimp only | split

theorem mono_arrange_step (values : Nat → Option Nat) (i : Nat) :
    Pres Mono (arrange_step values i) := by
  unfold arrange_step
  repeat' first
    | with_reducible exact pres_fail _ | with_reducible exact pres_pure mono_refl _
    | with_reducible exact pres_getS mono_refl | with_reducible exact mono_lex
    | with_reducible exact mono_check _ | with_reducible exact mono_expect _
    | with_reducible exact mono_emit _ | with_reducible exact mono_set_locked _ _
    | with_reducible exact mono_set_register _ _ | with_reducible exact mono_setValue _ _
    | with_reducible exact mono_calloc | with_reducible exact mono_drop _
    | with_reducible exact mono_operand _ | with_reducible exact mono_lookup _ _
    | with_reducible exact mono_push _ | with_reducible exact mono_alloc_register
    | with_reducible exact mono_load _ _
    | with_reducible exact pres_modifyS fun _ => Nat.le_refl _
    | refine pres_bind mono_trans ?_ (fun _ => ?_) | dsimp only | split

theorem mono_forM {α : Type} (f : α → M Unit) (hf : ∀ a, Pres Mono (f a)) (l : List α) :
    Pres Mono (l.forM f) := by
  induction l with
  | nil => rw [forM_nil_eq]; exact pres_pure mono_refl _
  | cons a l ih => rw [forM_cons_eq]; exact pres_bind mono_trans (hf a) (fun _ => ih)

theorem mono_arrange (values : Nat → Option Nat) : Pres Mono (arrange values) :=
  mono_forM _ (mono_arrange_step values) _

theorem mono_align_stack : Pres Mono align_stack := by
  unfold align_stack
  repeat' first
    | with_reducible exact pres_fail _ | with_reducible exact pres_pure mono_refl _
    | with_reducible exact pres_getS mono_refl | with_reducible exact mono_lex
    | with_reducible exact mono_check _ | with_reducible exact mono_expect _
    | with_reducible exact mono_emit _ | with_reducible exact mono_set_locked _ _
    | with_reducible exact mono_set_register _ _ | with_reducible exact mono_setValue _ _
    | with_reducible exact mono_calloc | with_reducible exact mono_drop _
    | with_reducible exact mono_operand _ | with_reducible exact mono_lookup _ _
    | with_reducible exact mono_push _ | with_reducible exact mono_alloc_register
    | with_reducible exact mono_load _ _
    | with_reducible exact pres_modifyS fun _ => Nat.le_add_right _ _
    | with_reducible exact pres_modifyS fun _ => Nat.le_refl _
    | refine pres_bind mono_trans ?_ (fun _ => ?_) | dsimp only | split

theorem mono_drop_values (values : Nat → Option Nat) : Pres Mono (drop_values values) := by
  unfold drop_values
  apply mono_forM
  intro i
  split
  · exact mono_drop _
  · exact pres_pure mono_refl _

theorem mono_emit_call (fn : Nat) (values : Nat → Option Nat) :
    Pres Mono (emit_call fn values) := by
  unfold emit_call
  repeat' first
    | with_reducible exact pres_fail _ | with_reducible exact pres_pure mono_refl _
    | with_reducible exact pres_getS mono_refl | with_reducible exact mono_lex
    | with_reducible exact mono_check _ | with_reducible exact mono_expect _
    | with_reducible exact mono_emit _ | with_reducible exact mono_set_locked _ _
    | with_reducible exact mono_set_register _ _ | with_reducible exact mono_setValue _ _
    | with_reducible exact mono_calloc | with_reducible exact mono_drop _
    | with_reducible exact mono_operand _ | with_reducible exact mono_lookup _ _
    | with_reducible exact mono_push _ | with_reducible exact mono_alloc_register
    | with_reducible exact mono_load _ _ | with_reducible exact mono_arrange _
    | with_reducible exact mono_align_stack | with_reducible exact mono_drop_values _
    | with_reducible exact pres_modifyS fun _ => Nat.le_refl _
    | refine pres_bind mono_trans ?_ (fun _ => ?_) | dsimp only | split

theorem mono_emit_binop (oper : Int) (rhs reg : Nat) : Pres Mono (emit_binop oper rhs reg) := by
  unfold emit_binop
  repeat' first
    | with_reducible exact pres_fail _ | with_reducible exact pres_pure mono_refl _
    | with_reducible exact pres_getS mono_refl | with_reducible exact mono_lex
    | with_reducible exact mono_check _ | with_reducible exact mono_expect _
    | with_reducible exact mono_emit _ | with_reducible exact mono_set_locked _ _
    | with_reducible exact mono_set_register _ _ | with_reducible exact mono_setValue _ _
    | with_reducible exact mono_calloc | with_reducible exact mono_drop _
    | with_reducible exact mono_operand _ | with_reducible exact mono_lookup _ _
    | with_reducible exact mono_push _ | with_reducible exact mono_alloc_register
    | with_reducible exact mono_load _ _
    | with_reducible exact pres_modifyS fun _ => Nat.le_refl _
    | refine pres_bind mono_trans ?_ (fun _ => ?_) | dsimp only | split

/-- No function of the expression parser lets the stack depth shrink. -/
theorem mono_expr_all (fuel : Nat) :
    (∀ fn arg i values, Pres Mono (call_args fuel fn arg i values)) ∧
    (∀ fn, Pres Mono (function_call fuel fn)) ∧
    Pres Mono (term fuel) ∧
    (∀ r, Pres Mono (binop_loop fuel r)) ∧
    Pres Mono (binop_expr fuel) ∧
    Pres Mono (expr fuel) := by
  induction fuel with
  | zero =>
    refine ⟨?_, ?_, ?_, ?_, ?_, ?_⟩
    · intro fn arg i values; unfold call_args; exact pres_fail _
    · intro fn; unfold function_call; exact pres_fail _
    · unfold term; exact pres_fail _
    · intro r; unfold binop_loop; exact pres_fail _
    · unfold binop_expr; exact pres_fail _
    · unfold expr; exact pres_fail _
  | succ n ih =>
    obtain ⟨ih1, ih2, ih3, ih4, ih5, ih6⟩ := ih
    refine ⟨?_, ?_, ?_, ?_, ?_, ?_⟩
    · intro fn arg i values
      unfold call_args
      repeat' first
        | with_reducible exact pres_fail _ | with_reducible exact pres_pure mono_refl _
        | with_reducible exact pres_getS mono_refl | with_reducible exact mono_lex
        | with_reducible exact mono_check _ | with_reducible exact mono_expect _
        | with_reducible exact mono_emit _ | with_reducible exact mono_set_locked _ _
        | with_reducible exact mono_set_register _ _ | with_reducible exact mono_setValue _ _
        | with_reducible exact mono_calloc | with_reducible exact mono_drop _
        | with_reducible exact mono_operand _ | with_reducible exact mono_lookup _ _
        | with_reducible exact mono_push _ | with_reducible exact mono_alloc_register
        | with_reducible exact mono_load _ _ | with_reducible exact ih1 _ _ _ _
        | with_reducible exact ih6 | with_reducible exact pres_modifyS fun _ => Nat.le_refl _
        | refine pres_bind mono_trans ?_ (fun _ => ?_) | dsimp only | split
    · intro fn
      unfold function_call
      repeat' first
        | with_reducible exact pres_fail _ | with_reducible exact pres_pure mono_refl _
        | with_reducible exact pres_getS mono_refl | with_reducible exact mono_lex
        | with_reducible exact mono_check _ | with_reducible exact mono_expect _
        | with_reducible exact mono_emit _ | with_reducible exact mono_set_locked _ _
        | with_reducible exact mono_set_register _ _ | with_reducible exact mono_setValue _ _
        | with_reducible exact mono_calloc | with_reducible exact mono_drop _
        | with_reducible exact mono_operand _ | with_reducible exact mono_lookup _ _
        | with_reducible exact mono_push _ | with_reducible exact mono_alloc_register
        | with_reducible exact mono_load _ _ | with_reducible exact ih1 _ _ _ _
        | with_reducible exact mono_emit_call _ _
        | with_reducible exact pres_modifyS fun _ => Nat.le_refl _
        | refine pres_bind mono_trans ?_ (fun _ => ?_) | dsimp only | split
    · unfold term
      repeat' first
        | with_reducible exact pres_fail _ | with_reducible exact pres_pure mono_refl _
        | with_reducible exact pres_getS mono_refl | with_reducible exact mono_lex
        | with_reducible exact mono_check _ | with_reducible exact mono_expect _
        | with_reducible exact mono_emit _ | with_reducible exact mono_set_locked _ _
        | with_reducible exact mono_set_register _ _ | with_reducible exact mono_setValue _ _
        | with_reducible exact mono_calloc | with_reducible exact mono_drop _
        | with_reducible exact mono_operand _ | with_reducible exact mono_lookup _ _
        | with_reducible exact mono_push _ | with_reducible exact mono_alloc_register
        | with_reducible exact mono_load _ _ | with_reducible exact ih2 _
        | with_reducible exact ih3 | with_reducible exact ih6
        | with_reducible exact mono_parse_declaration _
        | with_reducible exact mono_new_result _ _
        | with_reducible exact pres_modifyS fun _ => Nat.le_refl _
        | refine pres_bind mono_trans ?_ (fun _ => ?_) | dsimp only | split
    · intro r
      unfold binop_loop
      repeat' first
        | with_reducible exact pres_fail _ | with_reducible exact pres_pure mono_refl _
        | with_reducible exact pres_getS mono_refl | with_reducible exact mono_lex
        | with_reducible exact mono_check _ | with_reducible exact mono_expect _
        | with_reducible exact mono_emit _ | with_reducible exact mono_set_locked _ _
        | with_reducible exact mono_set_register _ _ | with_reducible exact mono_setValue _ _
        | with_reducible exact mono_calloc | with_reducible exact mono_drop _
        | with_reducible exact mono_operand _ | with_reducible exact mono_lookup _ _
        | with_reducible exact mono_push _ | with_reducible exact mono_alloc_register
        | with_reducible exact mono_load _ _ | with_reducible exact ih3
        | with_reducible exact ih4 _ | with_reducible exact mono_new_result _ _
        | with_reducible exact mono_emit_binop _ _ _
        | with_reducible exact pres_modifyS fun _ => Nat.le_refl _
        | refine pres_bind mono_trans ?_ (fun _ => ?_) | dsimp only | split
    · unfold binop_expr
      repeat' first
        | with_reducible exact pres_fail _ | with_reducible exact pres_pure mono_refl _
        | with_reducible exact pres_getS mono_refl | with_reducible exact mono_lex
        | with_reducible exact mono_check _ | with_reducible exact mono_expect _
        | with_reducible exact mono_emit _ | with_reducible exact mono_set_locked _ _
        | with_reducible exact mono_set_register _ _ | with_reducible exact mono_setValue _ _
        | with_reducible exact mono_calloc | with_reducible exact mono_drop _
        | with_reducible exact mono_operand _ | with_reducible exact mono_lookup _ _
        | with_reducible exact mono_push _ | with_reducible exact mono_alloc_register
        | with_reducible exact mono_load _ _ | with_reducible exact ih3
        | with_reducible exact ih4 _ | with_reducible exact pres_modifyS fun _ => Nat.le_refl _
        | refine pres_bind mono_trans ?_ (fun _ => ?_) | dsimp only | split
    · unfold expr
      repeat' first
        | with_reducible exact pres_fail _ | with_reducible exact pres_pure mono_refl _
        | with_reducible exact pres_getS mono_refl | with_reducible exact mono_lex
        | with_reducible exact mono_check _ | with_reducible exact mono_expect _
        | with_reducible exact mono_emit _ | with_reducible exact mono_set_locked _ _
        | with_reducible exact mono_set_register _ _ | with_reducible exact mono_setValue _ _
        | with_reducible exact mono_calloc | with_reducible exact mono_drop _
        | with_reducible exact mono_operand _ | with_reducible exact mono_lookup _ _
        | with_reducible exact mono_push _ | with_reducible exact mono_alloc_register
        | with_reducible exact mono_load _ _ | with_reducible exact ih5
        | with_reducible exact ih6 | with_reducible exact pres_modifyS fun _ => Nat.le_refl _
        | refine pres_bind mono_trans ?_ (fun _ => ?_) | dsimp only | split

theorem mono_expr (fuel : Nat) : Pres Mono (expr fuel) := (mono_expr_all fuel).2.2.2.2.2

/-! ## Scopes: `end_block`, `close_scope` and the statements -/

theorem keeps_of_mono {k : Nat} {α : Type} {m : M α} (h : Pres Mono m) : Keeps k m := by
  intro s a s1 hk hs
  exact Nat.le_trans hk (h s a s1 hs)

theorem keeps_fail {k : Nat} {α : Type} (e : Err) : Keeps k (fail e : M α) := by
  intro s a s1 _ h; cases h

theorem keeps_pure {k : Nat} {α : Type} (a : α) : Keeps k (pure a : M α) := by
  intro s b s1 hk h
  obtain ⟨_, hs⟩ := pure_inv h
  subst hs
  exact hk

theorem keeps_bind {k : Nat} {α β : Type} {m : M α} {f : α → M β} (hm : Keeps k m)
    (hf : ∀ a, Keeps k (f a)) : Keeps k (m >>= f) := by
  intro s b s2 hk h
  obtain ⟨a, s1, h1, h2⟩ := bind_inv h
  exact hf a s1 b s2 (hm s a s1 hk h1) h2

theorem keeps_getS_bind {k : Nat} {β : Type} {f : State → M β}
    (hf : ∀ s0, k ≤ s0.stack_size → Keeps k (f s0)) : Keeps k (getS >>= f) := by
  intro s b s2 hk h
  exact hf s hk s b s2 hk h

theorem mono_of_keeps {α : Type} {m : M α} (h : ∀ k, Keeps k m) : Pres Mono m := by
  intro s a s1 hs
  exact h s.stack_size s a s1 (Nat.le_refl _) hs

/-- The loop of `end_block` touches `stack_pos` fields only. -/
theorem clear_stack_pos_inv (fuel : Nat) (p : Option Nat) (s s1 : State)
    (h : clear_stack_pos fuel p s = Except.ok ((), s1)) :
    s1.stack_size = s.stack_size ∧ s1.symtab = s.symtab ∧ s1.out = s.out ∧
      s1.registers = s.registers := by
  induction fuel generalizing p s with
  | zero =>
    cases p with
    | none =>
      unfold clear_stack_pos at h
      obtain ⟨_, hs⟩ := pure_inv h
      subst hs
      exact ⟨rfl, rfl, rfl, rfl⟩
    | some v => unfold clear_stack_pos at h; cases h
  | succ n ih =>
    cases p with
    | none =>
      unfold clear_stack_pos at h
      obtain ⟨_, hs⟩ := pure_inv h
      subst hs
      exact ⟨rfl, rfl, rfl, rfl⟩
    | some v =>
      unfold clear_stack_pos at h
      rw [getS_bind] at h
      by_cases hp : (s.heap v).stack_pos > s.stack_size
      · rw [if_pos hp] at h
        obtain ⟨_, s2, h1, h2⟩ := bind_inv h
        unfold setValue at h1
        cases h1
        have key := ih _ _ h2
        exact key
      · rw [if_neg hp] at h
        obtain ⟨_, s2, h1, h2⟩ := bind_inv h
        obtain ⟨_, hs⟩ := pure_inv h1
        subst hs
        have key := ih _ _ h2
        exact key

/-- What `end_block(old_stack)` does to the depth, the symbol table head, the output and the
registers. -/
theorem end_block_inv (fuel old : Nat) (s s1 : State)
    (h : end_block fuel old s = Except.ok ((), s1)) :
    s1.stack_size = min s.stack_size old ∧ s1.symtab = s.symtab ∧
      s1.out = (if s.stack_size > old then s.out ++ [Line.add_rsp (s.stack_size - old)]
                else s.out) ∧
      ∀ r, s1.registers r = none := by
  unfold end_block at h
  rw [getS_bind] at h
  by_cases hgt : s.stack_size > old
  · rw [if_pos hgt] at h
    simp only [bind_assoc, emit_bind, modifyS_bind, getS_bind] at h
    obtain ⟨_, s2, h1, h2⟩ := bind_inv h
    obtain ⟨ha, hb, hc, _⟩ := clear_stack_pos_inv _ _ _ _ h1
    cases h2
    refine ⟨?_, hb, ?_, fun _ => rfl⟩
    · show s2.stack_size = _
      rw [ha]
      show old = min s.stack_size old
      omega
    · show s2.out = _
      rw [hc, if_pos hgt]
  · rw [if_neg hgt] at h
    simp only [bind_assoc, pure_bind_apply, getS_bind] at h
    obtain ⟨_, s2, h1, h2⟩ := bind_inv h
    obtain ⟨ha, hb, hc, _⟩ := clear_stack_pos_inv _ _ _ _ h1
    cases h2
    refine ⟨?_, hb, ?_, fun _ => rfl⟩
    · show s2.stack_size = _
      rw [ha]
      omega
    · show s2.out = _
      rw [hc, if_neg hgt]

theorem keeps_end_block {k : Nat} (fuel old : Nat) (hk : k ≤ old) :
    Keeps k (end_block fuel old) := by
  intro s a s1 hs h
  obtain ⟨h1, _⟩ := end_block_inv fuel old s s1 h
  rw [h1]
  omega

/-- A returning `close_scope(position)` leaves the symbol table head at `position` and
changes nothing else. -/
theorem close_scope_inv (position : Option Nat) (fuel : Nat) (s s1 : State)
    (h : close_scope position fuel s = Except.ok ((), s1)) :
    s1 = { s with symtab := position } := by
  induction fuel generalizing s with
  | zero =>
    unfold close_scope at h
    rw [getS_bind] at h
    by_cases hp : s.symtab = position
    · rw [if_pos hp] at h
      obtain ⟨_, hs⟩ := pure_inv h
      subst hs
      subst hp
      rfl
    · rw [if_neg hp] at h; cases h
  | succ n ih =>
    unfold close_scope at h
    rw [getS_bind] at h
    by_cases hp : s.symtab = position
    · rw [if_pos hp] at h
      obtain ⟨_, hs⟩ := pure_inv h
      subst hs
      subst hp
      rfl
    · rw [if_neg hp] at h
      cases hsym : s.symtab with
      | none => rw [hsym] at h; cases h
      | some v =>
        rw [hsym] at h
        simp only [modifyS_bind] at h
        rw [ih _ h]

theorem mono_close_scope (position : Option Nat) (fuel : Nat) :
    Pres Mono (close_scope position fuel) := by
  intro s a s1 h
  rw [close_scope_inv position fuel s s1 h]
  exact Nat.le_refl _

theorem mono_test_condition (c : Nat) : Pres Mono (test_condition c) := by
  unfold test_condition
  repeat' first
    | with_reducible exact pres_fail _ | with_reducible exact pres_pure mono_refl _
    | with_reducible exact pres_getS mono_refl | with_reducible exact mono_lex
    | with_reducible exact mono_check _ | with_reducible exact mono_expect _
    | with_reducible exact mono_emit _ | with_reducible exact mono_set_locked _ _
    | with_reducible exact mono_set_register _ _ | with_reducible exact mono_setValue _ _
    | with_reducible exact mono_calloc | with_reducible exact mono_drop _
    | with_reducible exact mono_operand _ | with_reducible exact mono_lookup _ _
    | with_reducible exact mono_push _ | with_reducible exact mono_alloc_register
    | with_reducible exact mono_load _ _
    | with_reducible exact pres_modifyS fun _ => Nat.le_refl _
    | refine pres_bind mono_trans ?_ (fun _ => ?_) | dsimp only | split

theorem mono_local_declaration (fuel var : Nat) : Pres Mono (local_declaration fuel var) := by
  unfold local_declaration
  repeat' first
    | with_reducible exact pres_fail _ | with_reducible exact pres_pure mono_refl _
    | with_reducible exact pres_getS mono_refl | with_reducible exact mono_lex
    | with_reducible exact mono_check _ | with_reducible exact mono_expect _
    | with_reducible exact mono_emit _ | with_reducible exact mono_set_locked _ _
    | with_reducible exact mono_set_register _ _ | with_reducible exact mono_setValue _ _
    | with_reducible exact mono_calloc | with_reducible exact mono_drop _
    | with_reducible exact mono_operand _ | with_reducible exact mono_lookup _ _
    | with_reducible exact mono_push _ | with_reducible exact mono_alloc_register
    | with_reducible exact mono_load _ _ | with_reducible exact mono_expr _
    | with_reducible exact pres_modifyS fun _ => Nat.le_add_right _ _
    | with_reducible exact pres_modifyS fun _ => Nat.le_refl _
    | refine pres_bind mono_trans ?_ (fun _ => ?_) | dsimp only | split

theorem mono_return_statement (fuel : Nat) : Pres Mono (return_statement fuel) := by
  unfold return_statement
  repeat' first
    | with_reducible exact pres_fail _ | with_reducible exact pres_pure mono_refl _
    | with_reducible exact pres_getS mono_refl | with_reducible exact mono_lex
    | with_reducible exact mono_check _ | with_reducible exact mono_expect _
    | with_reducible exact mono_emit _ | with_reducible exact mono_set_locked _ _
    | with_reducible exact mono_set_register _ _ | with_reducible exact mono_setValue _ _
    | with_reducible exact mono_calloc | with_reducible exact mono_drop _
    | with_reducible exact mono_operand _ | with_reducible exact mono_lookup _ _
    | with_reducible exact mono_push _ | with_reducible exact mono_alloc_register
    | with_reducible exact mono_load _ _ | with_reducible exact mono_expr _
    | with_reducible exact pres_modifyS fun _ => Nat.le_refl _
    | refine pres_bind mono_trans ?_ (fun _ => ?_) | dsimp only | split

/-- The statements never let the stack depth shrink, and a block restores the symbol table
head and the stack depth. -/
theorem stmt_all (fuel : Nat) :
    Pres Mono (if_statement fuel) ∧ Pres Mono (while_statement fuel) ∧
    Pres Mono (for_statement fuel) ∧ Pres Mono (statement fuel) ∧
    Pres Mono (block_loop fuel) ∧
    (∀ s s1, block fuel s = Except.ok ((), s1) →
      s1.symtab = s.symtab ∧ s1.stack_size = s.stack_size) := by
  induction fuel with
  | zero =>
    refine ⟨?_, ?_, ?_, ?_, ?_, ?_⟩
    · unfold if_statement; exact pres_fail _
    · unfold while_statement; exact pres_fail _
    · unfold for_statement; exact pres_fail _
    · unfold statement; exact pres_fail _
    · unfold block_loop; exact pres_fail _
    · intro s s1 h; unfold block at h; cases h
  | succ n ih =>
    obtain ⟨ih1, ih2, ih3, ih4, ih5, ih6⟩ := ih
    have ihb : Pres Mono (block n) := by
      intro s a s1 h
      have := (ih6 s s1 h).2
      show s.stack_size ≤ s1.stack_size
      omega
    refine ⟨?_, ?_, ?_, ?_, ?_, ?_⟩
    · apply mono_of_keeps
      intro k
      unfold if_statement
      repeat' first
        | with_reducible exact keeps_fail _ | with_reducible exact keeps_pure _
        | with_reducible exact keeps_of_mono (mono_lex)
        | with_reducible exact keeps_of_mono (mono_check _)
        | with_reducible exact keeps_of_mono (mono_expect _)
        | with_reducible exact keeps_of_mono (mono_emit _)
        | with_reducible exact keeps_of_mono (mono_set_locked _ _)
        | with_reducible exact keeps_of_mono (mono_set_register _ _)
        | with_reducible exact keeps_of_mono (mono_setValue _ _)
        | with_reducible exact keeps_of_mono (mono_calloc)
        | with_reducible exact keeps_of_mono (mono_drop _)
        | with_reducible exact keeps_of_mono (mono_operand _)
        | with_reducible exact keeps_of_mono (mono_lookup _ _)
        | with_reducible exact keeps_of_mono (mono_push _)
        | with_reducible exact keeps_of_mono (mono_alloc_register)
        | with_reducible exact keeps_of_mono (mono_load _ _)
        | with_reducible exact keeps_of_mono (mono_parse_declaration _)
        | with_reducible exact keeps_of_mono (mono_expr _)
        | with_reducible exact keeps_of_mono (mono_test_condition _)
        | with_reducible exact keeps_of_mono (mono_return_statement _)
        | with_reducible exact keeps_of_mono (ihb)
        | with_reducible exact keeps_of_mono (pres_modifyS fun _ => Nat.le_refl _)
        | with_reducible exact keeps_of_mono (pres_modifyS fun _ => Nat.le_add_right _ _)
        | exact keeps_end_block _ _ (by assumption)
        | refine keeps_getS_bind (fun _ _ => ?_)
        | refine keeps_bind ?_ (fun _ => ?_) | dsimp only | split
    · apply mono_of_keeps
      intro k
      unfold while_statement
      repeat' first
        | with_reducible exact keeps_fail _ | with_reducible exact keeps_pure _
        | with_reducible exact keeps_of_mono (mono_lex)
        | with_reducible exact keeps_of_mono (mono_check _)
        | with_reducible exact keeps_of_mono (mono_expect _)
        | with_reducible exact keeps_of_mono (mono_emit _)
        | with_reducible exact keeps_of_mono (mono_set_locked _ _)
        | with_reducible exact keeps_of_mono (mono_set_register _ _)
        | with_reducible exact keeps_of_mono (mono_setValue _ _)
        | with_reducible exact keeps_of_mono (mono_calloc)
        | with_reducible exact keeps_of_mono (mono_drop _)
        | with_reducible exact keeps_of_mono (mono_operand _)
        | with_reducible exact keeps_of_mono (mono_lookup _ _)
        | with_reducible exact keeps_of_mono (mono_push _)
        | with_reducible exact keeps_of_mono (mono_alloc_register)
        | with_reducible exact keeps_of_mono (mono_load _ _)
        | with_reducible exact keeps_of_mono (mono_parse_declaration _)
        | with_reducible exact keeps_of_mono (mono_expr _)
        | with_reducible exact keeps_of_mono (mono_test_condition _)
        | with_reducible exact keeps_of_mono (mono_return_statement _)
        | with_reducible exact keeps_of_mono (ihb)
        | with_reducible exact keeps_of_mono (pres_modifyS fun _ => Nat.le_refl _)
        | with_reducible exact keeps_of_mono (pres_modifyS fun _ => Nat.le_add_right _ _)
        | exact keeps_end_block _ _ (by assumption)
        | refine keeps_getS_bind (fun _ _ => ?_)
        | refine keeps_bind ?_ (fun _ => ?_) | dsimp only | split
    · apply mono_of_keeps
      intro k
      unfold for_statement
      repeat' first
        | with_reducible exact keeps_fail _ | with_reducible exact keeps_pure _
        | with_reducible exact keeps_of_mono (mono_lex)
        | with_reducible exact keeps_of_mono (mono_check _)
        | with_reducible exact keeps_of_mono (mono_expect _)
        | with_reducible exact keeps_of_mono (mono_emit _)
        | with_reducible exact keeps_of_mono (mono_set_locked _ _)
        | with_reducible exact keeps_of_mono (mono_set_register _ _)
        | with_reducible exact keeps_of_mono (mono_setValue _ _)
        | with_reducible exact keeps_of_mono (mono_calloc)
        | with_reducible exact keeps_of_mono (mono_drop _)
        | with_reducible exact keeps_of_mono (mono_operand _)
        | with_reducible exact keeps_of_mono (mono_lookup _ _)
        | with_reducible exact keeps_of_mono (mono_push _)
        | with_reducible exact keeps_of_mono (mono_alloc_register)
        | with_reducible exact keeps_of_mono (mono_load _ _)
        | with_reducible exact keeps_of_mono (mono_parse_declaration _)
        | with_reducible exact keeps_of_mono (mono_expr _)
        | with_reducible exact keeps_of_mono (mono_test_condition _)
        | with_reducible exact keeps_of_mono (mono_return_statement _)
        | with_reducible exact keeps_of_mono (ihb)
        | with_reducible exact keeps_of_mono (pres_modifyS fun _ => Nat.le_refl _)
        | with_reducible exact keeps_of_mono (pres_modifyS fun _ => Nat.le_add_right _ _)
        | exact keeps_end_block _ _ (by assumption)
        | refine keeps_getS_bind (fun _ _ => ?_)
        | refine keeps_bind ?_ (fun _ => ?_) | dsimp only | split
    · unfold statement
      repeat' first
        | with_reducible exact pres_fail _ | with_reducible exact pres_pure mono_refl _
        | with_reducible exact pres_getS mono_refl | with_reducible exact mono_lex
        | with_reducible exact mono_check _ | with_reducible exact mono_expect _
        | with_reducible exact mono_emit _ | with_reducible exact mono_set_locked _ _
        | with_reducible exact mono_set_register _ _ | with_reducible exact mono_setValue _ _
        | with_reducible exact mono_calloc | with_reducible exact mono_drop _
        | with_reducible exact mono_operand _ | with_reducible exact mono_lookup _ _
        | with_reducible exact mono_push _ | with_reducible exact mono_alloc_register
        | with_reducible exact mono_load _ _ | with_reducible exact mono_parse_declaration _
        | with_reducible exact mono_expr _ | with_reducible exact mono_test_condition _
        | with_reducible exact mono_return_statement _ | with_reducible exact ih1
        | with_reducible exact ih2 | with_reducible exact ih3
        | with_reducible exact mono_local_declaration _ _
        | with_reducible exact pres_modifyS fun _ => Nat.le_refl _
        | refine pres_bind mono_trans ?_ (fun _ => ?_) | dsimp only | split
    · unfold block_loop
      repeat' first
        | with_reducible exact pres_fail _ | with_reducible exact pres_pure mono_refl _
        | with_reducible exact pres_getS mono_refl | with_reducible exact mono_lex
        | with_reducible exact mono_check _ | with_reducible exact mono_expect _
        | with_reducible exact mono_emit _ | with_reducible exact mono_set_locked _ _
        | with_reducible exact mono_set_register _ _ | with_reducible exact mono_setValue _ _
        | with_reducible exact mono_calloc | with_reducible exact mono_drop _
        | with_reducible exact mono_operand _ | with_reducible exact mono_lookup _ _
        | with_reducible exact mono_push _ | with_reducible exact mono_alloc_register
        | with_reducible exact mono_load _ _ | with_reducible exact mono_parse_declaration _
        | with_reducible exact mono_expr _ | with_reducible exact mono_test_condition _
        | with_reducible exact mono_return_statement _ | with_reducible exact ih4
        | with_reducible exact ih5 | with_reducible exact pres_modifyS fun _ => Nat.le_refl _
        | refine pres_bind mono_trans ?_ (fun _ => ?_) | dsimp only | split
    · intro s s1 h
      unfold block at h
      rw [getS_bind] at h
      obtain ⟨b, s2, h1, h⟩ := bind_inv h
      have m1 := mono_check _ _ _ _ h1
      dsimp only at h
      have hex : ∃ s3, Mono s2 s3 ∧
          (close_scope s.symtab n >>= fun _ => end_block n s.stack_size) s3 =
            Except.ok ((), s1) := by
        by_cases hb : b = true
        · rw [if_pos hb] at h
          obtain ⟨_, s3, h2, h⟩ := bind_inv h
          exact ⟨s3, ih5 _ _ _ h2, h⟩
        · rw [if_neg hb] at h
          obtain ⟨_, s3, h2, h⟩ := bind_inv h
          exact ⟨s3, ih4 _ _ _ h2, h⟩
      obtain ⟨s3, m2, h⟩ := hex
      obtain ⟨_, s4, h3, h⟩ := bind_inv h
      have e3 := close_scope_inv _ _ _ _ h3
      obtain ⟨e4, e5, _⟩ := end_block_inv _ _ _ _ h
      subst e3
      refine ⟨e5, ?_⟩
      rw [e4]
      have q1 : s.stack_size ≤ s2.stack_size := m1
      have q2 : s2.stack_size ≤ s3.stack_size := m2
      show min s3.stack_size s.stack_size = s.stack_size
      omega

theorem isalpha_not_isspace (c : Int) (h : (isalpha c || c == 95) = true) : isspace c = false := by
  simp only [isalpha, isspace, Bool.or_eq_true, Bool.and_eq_true, decide_eq_true_eq, beq_iff_eq,
    Bool.or_eq_false_iff, Bool.and_eq_false_iff, decide_eq_false_iff_not, beq_eq_false_iff_ne] at *
  omega

theorem skip_space_spec (ws : List Nat) (c : Nat) (tail : List Nat)
    (hws : ∀ b ∈ ws, isspace (b : Int) = true) (hc : isspace (c : Int) = false) :
    skip_space (fgetc (ws ++ c :: tail)).1 (fgetc (ws ++ c :: tail)).2 = ((c : Int), tail) := by
  induction ws with
  | nil =>
    cases tail <;> simp [fgetc, skip_space, hc]
  | cons a ws ih =>
    have ha : isspace (a : Int) = true := hws a (List.mem_cons_self _ _)
    have ih1 := ih (fun b hb => hws b (List.mem_cons_of_mem _ hb))
    cases ws with
    | nil => 
      simp only [fgetc, List.nil_append, List.cons_append] at ih1 ⊢
      rw [skip_space, if_pos ha]
      exact ih1
    | cons a1 ws1 =>
      simp only [fgetc, List.cons_append] at ih1 ⊢
      rw [skip_space, if_pos ha]
      exact ih1

theorem parse_alnum_loop_spec (cs : List Nat) (rest : List Nat) (buf : Option String) (c : Nat)
    (hw : ∀ b ∈ c :: cs, (isalnum (b : Int) || (b : Int) == 95) = true)
    (hrest : ∀ d ds, rest = d :: ds → (isalnum (d : Int) || (d : Int) == 95) = false) :
    parse_alnum_loop buf (c : Int) (cs ++ rest) =
      (some (buf.getD "" ++ word (c :: cs)), (fgetc rest).1, (fgetc rest).2) := by
  induction cs generalizing buf c with
  | nil =>
    have hc := hw c (List.mem_cons_self _ _)
    cases rest with
    | nil =>
      simp only [List.append_nil, parse_alnum_loop, hc, if_true, fgetc, bufPush]
      simp [word, String.ext_iff]
    | cons d ds =>
      have hd := hrest d ds rfl
      simp only [List.nil_append, parse_alnum_loop, hc, if_true, fgetc, bufPush]
      cases ds <;> simp [parse_alnum_loop, hd, word, String.ext_iff, bufPush]
  | cons c1 cs ih =>
    have hc := hw c (List.mem_cons_self _ _)
    have ih1 := ih (bufPush buf c) c1 (fun b hb => hw b (List.mem_cons_of_mem _ hb))
    rw [List.cons_append, parse_alnum_loop, if_pos hc, ih1]
    simp [word, String.ext_iff, bufPush]

/-- Lexing of a word: the run `w` of letters, digits and underscores is consumed whole. -/
theorem lex_word_eq (l : Lexer) (ws w rest : List Nat)
    (hws : ∀ b ∈ ws, isspace (b : Int) = true)
    (hfirst : ∃ c cs, w = c :: cs ∧ (isalpha (c : Int) || (c : Int) == 95) = true)
    (hw : ∀ b ∈ w, (isalnum (b : Int) || (b : Int) == 95) = true)
    (hrest : ∀ d ds, rest = d :: ds → (isalnum (d : Int) || (d : Int) == 95) = false) :
    (l.before (ws ++ w ++ rest)).lex =
      match keyword (word w) with
      | some t => Except.ok { l with source := (fgetc rest).2, look := (fgetc rest).1, token := t,
                                     token_str := none }
      | none => Except.ok { l with source := (fgetc rest).2, look := (fgetc rest).1,
                                   token := TOK_IDENTIFIER, token_str := some (word w) } := by
  obtain ⟨c, cs, hwc, hc⟩ := hfirst
  subst hwc
  have hsp := skip_space_spec ws c (cs ++ rest) hws (isalpha_not_isspace _ hc)
  have hpa := parse_alnum_loop_spec cs rest none c hw hrest
  unfold Lexer.lex Lexer.before
  simp only [List.append_assoc, List.cons_append, hsp, hc, if_true, hpa]
  simp

theorem isdigit_not_isspace (c : Int) (h : isdigit c = true) : isspace c = false := by
  simp only [isdigit, isspace, Bool.or_eq_true, Bool.and_eq_true, decide_eq_true_eq, beq_iff_eq,
    Bool.or_eq_false_iff, Bool.and_eq_false_iff, decide_eq_false_iff_not, beq_eq_false_iff_ne] at *
  omega

theorem isdigit_not_isalpha (c : Int) (h : isdigit c = true) : (isalpha c || c == 95) = false := by
  simp only [isdigit, isalpha, Bool.or_eq_true, Bool.and_eq_true, decide_eq_true_eq, beq_iff_eq,
    Bool.or_eq_false_iff, Bool.and_eq_false_iff, decide_eq_false_iff_not, beq_eq_false_iff_ne] at *
  omega

theorem ofDigits_snoc (ds : List Nat) (d : Nat) :
    Nat.ofDigits 10 ((ds ++ [d]).reverse) = d + 10 * Nat.ofDigits 10 ds.reverse := by
  simp [Nat.ofDigits_cons]

theorem foldl_horner (ds : List Nat) (v : Nat) :
    ds.foldl (fun a b => a * 10 + (b - 48)) v =
      v * 10 ^ ds.length + Nat.ofDigits 10 ((ds.map (fun b => b - 48)).reverse) := by
  induction ds generalizing v with
  | nil => simp
  | cons d ds ih =>
    rw [List.foldl_cons, ih]
    simp only [List.map_cons, List.reverse_cons, List.length_cons]
    rw [Nat.ofDigits_append, Nat.ofDigits_singleton]
    simp only [List.length_reverse, List.length_map]
    ring

theorem foldl_horner_ge (ds : List Nat) (v : Nat) :
    v ≤ ds.foldl (fun a b => a * 10 + (b - 48)) v := by
  induction ds generalizing v with
  | nil => simp
  | cons d ds ih =>
    rw [List.foldl_cons]
    exact Nat.le_trans (by omega) (ih _)

theorem number_loop_spec (cs rest : List Nat) (v c : Nat)
    (hw : ∀ b ∈ c :: cs, isdigit (b : Int) = true)
    (hrest : ∀ d ds, rest = d :: ds → isdigit (d : Int) = false)
    (hN : (c :: cs).foldl (fun a b => a * 10 + (b - 48)) v < 2 ^ 64) :
    number_loop v (c : Int) (cs ++ rest) =
      ((c :: cs).foldl (fun a b => a * 10 + (b - 48)) v, (fgetc rest).1, (fgetc rest).2) := by
  induction cs generalizing v c with
  | nil =>
    have hc := hw c (List.mem_cons_self _ _)
    have hmod : (v * 10 + ((c : Int) - 48).toNat) % 2 ^ 64 = v * 10 + (c - 48) := by
      have : ((c : Int) - 48).toNat = c - 48 := by omega
      rw [this]
      exact Nat.mod_eq_of_lt hN
    cases rest with
    | nil => simp only [List.append_nil, number_loop, hc, if_true, fgetc, hmod, List.foldl]
    | cons d ds =>
      have hd := hrest d ds rfl
      simp only [List.nil_append, number_loop, hc, if_true, fgetc, hmod, List.foldl]
      cases ds <;> simp [number_loop, hd]
  | cons c1 cs ih =>
    have hc := hw c (List.mem_cons_self _ _)
    have h48 : ((c : Int) - 48).toNat = c - 48 := by omega
    have hle := foldl_horner_ge (c1 :: cs) (v * 10 + (c - 48))
    have hmod : (v * 10 + ((c : Int) - 48).toNat) % 2 ^ 64 = v * 10 + (c - 48) := by
      rw [h48]
      exact Nat.mod_eq_of_lt (Nat.lt_of_le_of_lt hle hN)
    rw [List.cons_append, number_loop, if_pos hc, hmod,
      ih _ c1 (fun b hb => hw b (List.mem_cons_of_mem _ hb)) hN]
    rfl

theorem lex_number_eq (l : Lexer) (ws ds rest : List Nat)
    (hws : ∀ b ∈ ws, isspace (b : Int) = true)
    (hne : ds ≠ [])
    (hds : ∀ b ∈ ds, isdigit (b : Int) = true)
    (hrest : ∀ d r, rest = d :: r → isdigit (d : Int) = false)
    (hN : Nat.ofDigits 10 ((ds.map (fun b => b - 48)).reverse) < 2 ^ 64) :
    (l.before (ws ++ ds ++ rest)).lex =
      Except.ok { l with source := (fgetc rest).2, look := (fgetc rest).1, token := TOK_NUMBER,
                         token_value := Nat.ofDigits 10 ((ds.map (fun b => b - 48)).reverse),
                         token_str := none } := by
  cases ds with
  | nil => exact absurd rfl hne
  | cons c cs =>
    have hc := hds c (List.mem_cons_self _ _)
    have hsp := skip_space_spec ws c (cs ++ rest) hws (isdigit_not_isspace _ hc)
    have hval := foldl_horner (c :: cs) 0
    rw [Nat.zero_mul, Nat.zero_add] at hval
    have hnl := number_loop_spec cs rest 0 c hds hrest (by rw [hval]; exact hN)
    unfold Lexer.lex Lexer.before
    simp only [List.append_assoc, List.cons_append, hsp, hc, if_true, isdigit_not_isalpha _ hc,
      hnl, hval]
    simp

theorem term_number (fuel : Nat) (s : State) (l2 : Lexer) (ht : s.lx.token = TOK_NUMBER)
    (hl : s.lx.lex = Except.ok l2) :
    term (fuel + 1) s = Except.ok (s.brk,
      { s with heap := Function.update s.heap s.brk
                 { type := Ty.int, value := s.lx.token_value, constant := true },
               brk := s.brk + 1, lx := l2 }) := by
  unfold term
  simp [ht, bind_apply, calloc, setValue, lex, hl]
  rfl

theorem ofDigits_ne_zero (ds : List Nat) (hds : ∀ d ∈ ds, d < 10) (hne : ds ≠ [])
    (hlead : ds.head? ≠ some 0) : Nat.ofDigits 10 ds.reverse ≠ 0 := by
  intro h0
  have h := Nat.digits_ofDigits 10 (by omega) ds.reverse
    (by intro l hl; exact hds l (List.mem_reverse.mp hl))
    (by
      intro hr
      rw [List.getLast_reverse]
      intro hh
      apply hlead
      cases ds with
      | nil => exact absurd rfl hne
      | cons a t => simp at hh; simp [hh])
  rw [h0] at h
  simp at h
  exact hne h

theorem toDigitsCore_digits (ds : List Nat) :
    (∀ d ∈ ds, d < 10) → ds ≠ [] → (ds.head? ≠ some 0 ∨ ds = [0]) →
    ∀ fuel acc, Nat.ofDigits 10 ds.reverse < fuel →
      Nat.toDigitsCore 10 fuel (Nat.ofDigits 10 ds.reverse) acc = ds.map Nat.digitChar ++ acc := by
  induction ds using List.reverseRecOn with
  | nil => intro _ h; exact absurd rfl h
  | append_singleton init d ih =>
    intro hds _ hlead fuel acc hfuel
    have hd : d < 10 := hds d (by simp)
    rw [ofDigits_snoc] at hfuel ⊢
    cases fuel with
    | zero => omega
    | succ f =>
      have hmod : (d + 10 * Nat.ofDigits 10 init.reverse) % 10 = d := by omega
      have hdiv : (d + 10 * Nat.ofDigits 10 init.reverse) / 10 = Nat.ofDigits 10 init.reverse := by
        omega
      rw [Nat.toDigitsCore]
      simp only [hmod, hdiv]
      by_cases hinit : init = []
      · subst hinit
        simp
      · have hhead : init.head? ≠ some 0 := by
          cases init with
          | nil => exact absurd rfl hinit
          | cons a t =>
            cases hlead with
            | inl h => simpa using h
            | inr h => simp at h
        have hpos := ofDigits_ne_zero init (fun x hx => hds x (by simp [hx])) hinit hhead
        rw [if_neg hpos, ih (fun x hx => hds x (by simp [hx])) hinit (Or.inl hhead) f _
          (by omega)]
        simp

theorem digitChar_byte (b : Nat) (h : isdigit (b : Int) = true) :
    Nat.digitChar (b - 48) = Char.ofNat b := by
  have h1 : 48 ≤ b ∧ b ≤ 57 := by
    simp only [isdigit, Bool.and_eq_true, decide_eq_true_eq] at h
    omega
  obtain ⟨h1, h2⟩ := h1
  interval_cases b <;> rfl

/-- The decimal text of the number denoted by a digit string without a leading zero is that
digit string. -/
theorem toString_digits (bs : List Nat) (hds : ∀ b ∈ bs, isdigit (b : Int) = true)
    (hne : bs ≠ []) (hlead : bs.head? ≠ some 48 ∨ bs = [48]) :
    toString (Nat.ofDigits 10 ((bs.map (fun b => b - 48)).reverse)) = word bs := by
  have hlt : ∀ d ∈ bs.map (fun b => b - 48), d < 10 := by
    intro d hd
    obtain ⟨b, hb, rfl⟩ := List.mem_map.mp hd
    have := hds b hb
    simp only [isdigit, Bool.and_eq_true, decide_eq_true_eq] at this
    omega
  have hlead1 : (bs.map (fun b => b - 48)).head? ≠ some 0 ∨ bs.map (fun b => b - 48) = [0] := by
    cases hlead with
    | inr h => right; rw [h]; rfl
    | inl h =>
      left
      cases bs with
      | nil => exact absurd rfl hne
      | cons a t =>
        have := hds a (List.mem_cons_self _ _)
        simp only [isdigit, Bool.and_eq_true, decide_eq_true_eq] at this
        simp at h ⊢
        omega
  have h := toDigitsCore_digits (bs.map (fun b => b - 48)) hlt (by simpa using hne) hlead1
    (Nat.ofDigits 10 ((bs.map (fun b => b - 48)).reverse) + 1) [] (Nat.lt_succ_self _)
  show Nat.repr _ = _
  rw [Nat.repr, Nat.toDigits, h, List.append_nil, List.map_map]
  unfold word
  congr 1
  apply List.map_congr_left
  intro b hb
  exact digitChar_byte b (hds b hb)

/-! ## `end_block` on a finite symbol table -/

theorem symbols_congr (h1 h2 : Nat → Value) (hn : ∀ v, (h1 v).next = (h2 v).next)
    (l : List Nat) (p : Option Nat) : symbols h1 p l = symbols h2 p l := by
  induction l generalizing p with
  | nil => cases p <;> rfl
  | cons w l ih =>
    cases p with
    | none => rfl
    | some v => simp only [symbols, hn v, ih]

/-- The loop of `end_block` on a finite chain: the state it returns. -/
theorem clear_stack_pos_eq (l : List Nat) (p : Option Nat) (s : State) (fuel : Nat)
    (hl : symbols s.heap p l = true) (hf : l.length ≤ fuel) :
    clear_stack_pos fuel p s = Except.ok ((),
      { s with heap := fun v =>
          if v ∈ l ∧ (s.heap v).stack_pos > s.stack_size then { s.heap v with stack_pos := 0 }
          else s.heap v }) := by
  induction l generalizing p s fuel with
  | nil =>
    cases p with
    | none => cases fuel <;> simp [clear_stack_pos]
    | some v => simp [symbols] at hl
  | cons w l ih =>
    cases p with
    | none => simp [symbols] at hl
    | some v =>
      simp only [symbols, Bool.and_eq_true, beq_iff_eq] at hl
      obtain ⟨hv, hl⟩ := hl
      subst hv
      cases fuel with
      | zero => simp at hf
      | succ n =>
        have hn : l.length ≤ n := by simpa using hf
        unfold clear_stack_pos
        rw [getS_bind]
        by_cases hp : (s.heap v).stack_pos > s.stack_size
        · rw [if_pos hp]
          unfold setValue
          rw [modifyS_bind]
          beta_reduce
          rw [ih]
          · congr 2
            simp only [State.mk.injEq, true_and, and_true]
            funext x
            by_cases hx : x = v
            · subst hx
              simp [hp]
            · simp [hx, Function.update]
          · rw [← hl]
            apply symbols_congr
            intro x
            by_cases hx : x = v
            · subst hx; simp
            · simp [Function.update, hx]
          · exact hn
        · rw [if_neg hp, pure_bind_apply]
          beta_reduce
          rw [ih _ _ _ hl hn]
          congr 2
          simp only [State.mk.injEq, true_and, and_true]
          funext x
          by_cases hx : x = v
          · subst hx
            simp [hp]
          · simp [hx]

/-- The state `end_block(old_stack)` returns on a finite symbol table. -/
theorem end_block_eq (s : State) (old : Nat) (l : List Nat) (fuel : Nat)
    (hl : symbols s.heap s.symtab l = true) (hf : l.length ≤ fuel) :
    end_block fuel old s = Except.ok ((),
      { s with
        out := if s.stack_size > old then s.out ++ [Line.add_rsp (s.stack_size - old)]
               else s.out
        stack_size := min s.stack_size old
        heap := fun v =>
          if v ∈ l ∧ (s.heap v).stack_pos > min s.stack_size old then
            { s.heap v with stack_pos := 0 }
          else s.heap v
        registers := fun _ => none }) := by
  unfold end_block
  rw [getS_bind]
  by_cases hgt : s.stack_size > old
  · rw [if_pos hgt]
    simp only [bind_assoc, emit_bind, modifyS_bind, getS_bind]
    rw [bind_ok _ _ _ _ _ (clear_stack_pos_eq l _ _ fuel (by exact hl) hf)]
    have hmin : min s.stack_size old = old := by omega
    simp [hgt, hmin]
  · rw [if_neg hgt]
    simp only [bind_assoc, pure_bind_apply, getS_bind]
    rw [bind_ok _ _ _ _ _ (clear_stack_pos_eq l _ _ fuel (by exact hl) hf)]
    have hmin : min s.stack_size old = s.stack_size := by omega
    simp [hgt, hmin]

/-! ## Operators on literals, step by step -/

theorem lex_eq (s : State) (l1 : Lexer) (h : s.lx.lex = Except.ok l1) :
    lex s = Except.ok ((), { s with lx := l1 }) := by
  unfold lex
  rw [h]

theorem load_hit (s : State) (v r : Nat) (hty : (s.heap v).type = Ty.int)
    (hsr : search_reg s v = some r) :
    load v none s =
      Except.ok (r, { s with reg_locked := Function.update s.reg_locked r true }) := by
  unfold load
  simp [hty, hsr, set_locked, bind_apply]

theorem load_miss (s : State) (v : Nat) (op : String) (hty : (s.heap v).type = Ty.int)
    (hsr : search_reg s v = none) (h0 : s.registers RAX = none)
    (hop : asm_operand s v = Except.ok op) :
    load v none s =
      Except.ok (RAX, { s with out := s.out ++ [Line.mov op "%rax"],
                               registers := Function.update s.registers RAX (some v),
                               reg_locked := Function.update s.reg_locked RAX true }) := by
  have hfree : ((List.range MAX_REG).find? fun i => s.registers i == none) = some RAX := by
    rw [range_six]
    simp [h0]
  unfold load
  simp only [getS_bind, hty, hsr]
  simp only [reduceCtorEq, or_self, if_false]
  rw [bind_ok _ _ _ _ _ (alloc_register_free s RAX hfree)]
  unfold load_into
  simp [h0, operand, hop, bind_apply, set_register, set_locked, reg_names]

theorem asm_operand_constant (s : State) (v : Nat) (hty : (s.heap v).type = Ty.int)
    (hsr : search_reg s v = none) (hc : (s.heap v).constant = true) :
    asm_operand s v = Except.ok ("$" ++ toString (s.heap v).value) := by
  unfold asm_operand
  simp [hty, hsr, hc]

theorem emit_binop_rax (s : State) (oper : Int) (rhs : Nat) (op : String)
    (hop : asm_operand s rhs = Except.ok op) (hb : is_binop oper = true) :
    emit_binop oper rhs RAX s =
      Except.ok ((), { s with out := s.out ++ spec_binop_lines oper op }) := by
  unfold emit_binop
  have hoperand : operand rhs s = Except.ok (op, s) := by
    unfold operand
    rw [hop]
  rw [bind_ok _ _ _ _ _ hoperand]
  unfold spec_binop_lines
  simp only [is_binop, Bool.or_eq_true, beq_iff_eq] at hb
  split_ifs <;> first | rfl | (exfalso; omega) | simp [bind_apply, reg_names, reg_byte_names]

theorem search_reg_rax (s : State) (v : Nat) (h : s.registers RAX = some v) :
    search_reg s v = some RAX := by
  unfold search_reg
  rw [range_six]
  simp [h]

theorem search_reg_absent (s : State) (v : Nat)
    (h : ∀ i, i < MAX_REG → s.registers i ≠ some v) : search_reg s v = none := by
  unfold search_reg
  rw [List.find?_eq_none]
  intro i hi
  simpa using h i (List.mem_range.mp hi)

theorem drop_temp (s : State) (v : Nat) (hpos : (s.heap v).stack_pos = 0)
    (hid : (s.heap v).ident = none) :
    drop v s = Except.ok ((),
      { s with registers := fun i =>
          if i < MAX_REG ∧ s.registers i = some v then none else s.registers i }) := by
  unfold drop
  simp [hpos, hid]

theorem new_result_eq (s : State) (ty : Ty) (reg : Nat) :
    new_result ty reg s = Except.ok (s.brk,
      { s with heap := Function.update s.heap s.brk { type := ty },
               brk := s.brk + 1,
               registers := Function.update s.registers reg (some s.brk) }) := by
  unfold new_result
  simp [calloc, setValue, set_register, bind_apply]
  rfl

theorem set_locked_eq (s : State) (reg : Nat) (b : Bool) :
    set_locked reg b s =
      Except.ok ((), { s with reg_locked := Function.update s.reg_locked reg b }) := rfl

/-- One turn of the operator loop on a literal right operand, with the left operand either a
constant that is in no register (all registers empty) or a temporary in `%rax`. -/
theorem binop_step (s : State) (lhs : Nat) (op : Int) (t : Nat) (l1 l2 : Lexer) (f : Nat)
    (pre : List Line)
    (htok : s.lx.token = op) (hb : is_binop op = true)
    (hl1 : s.lx.lex = Except.ok l1) (h1tok : l1.token = TOK_NUMBER) (h1val : l1.token_value = t)
    (hl2 : l1.lex = Except.ok l2)
    (hcase : (s.registers RAX = some lhs ∧ pre = []) ∨
      (s.registers RAX = none ∧ (s.heap lhs).constant = true ∧
        pre = [Line.mov ("$" ++ toString (s.heap lhs).value) "%rax"]))
    (hothers : ∀ i, i < MAX_REG → i ≠ RAX → s.registers i = none)
    (hlt : lhs < s.brk) (hty : (s.heap lhs).type = Ty.int)
    (hpos : (s.heap lhs).stack_pos = 0) (hid : (s.heap lhs).ident = none) :
    ∃ s1, binop_loop (f + 2) lhs s = binop_loop (f + 1) (s.brk + 1) s1 ∧
      s1.out = s.out ++ pre ++ spec_binop_lines op ("$" ++ toString t) ∧
      s1.lx = l2 ∧ s1.registers RAX = some (s.brk + 1) ∧
      (∀ i, i < MAX_REG → i ≠ RAX → s1.registers i = none) ∧
      s1.brk = s.brk + 2 ∧ (s1.heap (s.brk + 1)).type = Ty.int ∧
      (s1.heap (s.brk + 1)).stack_pos = 0 ∧ (s1.heap (s.brk + 1)).ident = none ∧
      (s1.heap (s.brk + 1)).constant = false ∧
      s1.stack_size = s.stack_size ∧ s1.reg_locked RAX = false ∧ s1.symtab = s.symtab := by
  have hne : lhs ≠ s.brk := by omega
  have hbin : s.lx.token = 43 ∨ s.lx.token = 45 ∨ s.lx.token = 42 ∨ s.lx.token = 60 ∨
      s.lx.token = 62 := by
    rw [htok]
    simp only [is_binop, Bool.or_eq_true, beq_iff_eq] at hb
    omega
  rw [binop_loop, getS_bind, if_pos hbin, bind_ok _ _ _ _ _ (lex_eq s l1 hl1),
    bind_ok _ _ _ _ _ (term_number f _ l2 (by exact h1tok) (by exact hl2))]
  have hrhs_ty : ∀ (h : Nat → Value), (Function.update h s.brk
      ({ type := Ty.int, value := t, constant := true } : Value) s.brk).type = Ty.int := by
    intro h; simp
  rcases hcase with ⟨hA, hpre⟩ | ⟨hB, hconst, hpre⟩
  · subst hpre
    rw [bind_ok _ _ _ _ _ (load_hit _ lhs RAX (by simp [Function.update, hne, hty])
      (search_reg_rax _ _ (by exact hA)))]
    rw [bind_ok _ _ _ _ _ (emit_binop_rax _ _ _ _
      (asm_operand_constant _ _ (by simp)
        (search_reg_absent _ _ (by
          intro i hi
          by_cases h0 : i = RAX
          · subst h0; simp [hA, hne]
          · simp [hothers i hi h0, Function.update, h0]))
        (by simp))
      (by rw [htok]; exact hb))]
    rw [bind_ok _ _ _ _ _ (set_locked_eq _ _ _)]
    rw [bind_ok _ _ _ _ _ (drop_temp _ lhs (by simp [Function.update, hne, hpos])
      (by simp [Function.update, hne, hid]))]
    rw [bind_ok _ _ _ _ _ (drop_temp _ s.brk (by simp) (by simp))]
    rw [getS_bind]
    rw [bind_ok _ _ _ _ _ (new_result_eq _ _ _)]
    refine ⟨_, rfl, ?_, rfl, ?_, ?_, rfl, ?_, ?_, ?_, ?_, rfl, ?_, rfl⟩
    · simp [htok, h1val, Function.update, hne]
    · simp
    · intro i hi h0
      simp [Function.update, h0, hothers i hi h0]
    · simp [Function.update, hne, hty]
    · simp
    · simp
    · simp
    · simp
  · subst hpre
    rw [bind_ok _ _ _ _ _ (load_miss _ lhs _ (by simp [Function.update, hne, hty])
      (search_reg_absent _ _ (by
        intro i hi
        by_cases h0 : i = RAX
        · subst h0; simp [hB]
        · simp [hothers i hi h0]))
      (by exact hB)
      (asm_operand_constant _ _ (by simp [Function.update, hne, hty])
        (search_reg_absent _ _ (by
          intro i hi
          by_cases h0 : i = RAX
          · subst h0; simp [hB]
          · simp [hothers i hi h0]))
        (by simp [Function.update, hne, hconst])))]
    rw [bind_ok _ _ _ _ _ (emit_binop_rax _ _ _ _
      (asm_operand_constant _ _ (by simp)
        (search_reg_absent _ _ (by
          intro i hi
          by_cases h0 : i = RAX
          · subst h0; simp [hne]
          · simp [hothers i hi h0, Function.update, h0]))
        (by simp))
      (by rw [htok]; exact hb))]
    rw [bind_ok _ _ _ _ _ (set_locked_eq _ _ _)]
    rw [bind_ok _ _ _ _ _ (drop_temp _ lhs (by simp [Function.update, hne, hpos])
      (by simp [Function.update, hne, hid]))]
    rw [bind_ok _ _ _ _ _ (drop_temp _ s.brk (by simp) (by simp))]
    rw [getS_bind]
    rw [bind_ok _ _ _ _ _ (new_result_eq _ _ _)]
    refine ⟨_, rfl, ?_, rfl, ?_, ?_, rfl, ?_, ?_, ?_, ?_, rfl, ?_, rfl⟩
    · simp [htok, h1val, Function.update, hne]
    · simp
    · intro i hi h0
      simp [Function.update, h0, hothers i hi h0]
    · simp [Function.update, hne, hty]
    · simp
    · simp
    · simp
    · simp

/-- The operator loop on a chain of operators and literals. -/
theorem binop_loop_chain (ops : List (Int × Nat)) :
    ∀ (s : State) (lhs : Nat) (f : Nat) (lf : Lexer) (pre : List Line),
      lex_chain s.lx ops = some lf →
      ((s.registers RAX = some lhs ∧ pre = []) ∨
        (s.registers RAX = none ∧ (s.heap lhs).constant = true ∧ ops ≠ [] ∧
          pre = [Line.mov ("$" ++ toString (s.heap lhs).value) "%rax"])) →
      (∀ i, i < MAX_REG → i ≠ RAX → s.registers i = none) →
      lhs < s.brk → (s.heap lhs).type = Ty.int → (s.heap lhs).stack_pos = 0 →
      (s.heap lhs).ident = none →
      ops.length ≤ f →
      ∃ r s1, binop_loop (f + 1) lhs s = Except.ok (r, s1) ∧
        s1.out = s.out ++ (if ops = [] then [] else pre) ++
          ops.flatMap (fun p => spec_binop_lines p.1 ("$" ++ toString p.2)) ∧
        s1.lx = lf ∧ (ops ≠ [] → s1.registers RAX = some r) ∧
        (∀ i, i < MAX_REG → i ≠ RAX → s1.registers i = none) ∧
        (s1.heap r).type = Ty.int ∧ (ops ≠ [] → (s1.heap r).constant = false) ∧
        s1.stack_size = s.stack_size ∧ s1.symtab = s.symtab ∧
        (ops ≠ [] → s1.reg_locked RAX = false) ∧
        (ops = [] → r = lhs ∧ s1 = s) := by
  induction ops with
  | nil =>
    intro s lhs f lf pre hch hcase hothers hlt hty hpos hid hf
    simp only [lex_chain] at hch
    by_cases hb : is_binop s.lx.token = true
    · simp [hb] at hch
    · simp [hb] at hch
      have hnb : ¬ (s.lx.token = 43 ∨ s.lx.token = 45 ∨ s.lx.token = 42 ∨ s.lx.token = 60 ∨
          s.lx.token = 62) := by
        simp only [is_binop, Bool.or_eq_true, beq_iff_eq] at hb
        omega
      refine ⟨lhs, s, ?_, by simp, hch, fun h => absurd rfl h, hothers, hty,
        fun h => absurd rfl h, rfl, rfl, fun h => absurd rfl h, fun _ => ⟨rfl, rfl⟩⟩
      rw [binop_loop, getS_bind, if_neg hnb]
      rfl
  | cons p rest ih =>
    intro s lhs f lf pre hch hcase hothers hlt hty hpos hid hf
    obtain ⟨op, t⟩ := p
    simp only [lex_chain] at hch
    by_cases hc1 : s.lx.token = op ∧ is_binop op = true
    · rw [if_pos hc1] at hch
      cases hl1 : s.lx.lex with
      | error e => rw [hl1] at hch; simp at hch
      | ok l1 =>
        rw [hl1] at hch
        dsimp only at hch
        by_cases hc2 : l1.token = TOK_NUMBER ∧ l1.token_value = t
        · rw [if_pos hc2] at hch
          cases hl2 : l1.lex with
          | error e => rw [hl2] at hch; simp at hch
          | ok l2 =>
            rw [hl2] at hch
            dsimp only at hch
            cases f with
            | zero => simp at hf
            | succ g =>
              have hcase1 : (s.registers RAX = some lhs ∧ pre = []) ∨
                  (s.registers RAX = none ∧ (s.heap lhs).constant = true ∧
                    pre = [Line.mov ("$" ++ toString (s.heap lhs).value) "%rax"]) := by
                rcases hcase with h | ⟨h1, h2, _, h3⟩
                · exact Or.inl h
                · exact Or.inr ⟨h1, h2, h3⟩
              obtain ⟨s1, hstep, hout, hlx, hreg, hoth, hbrk, hty1, hpos1, hid1, hcon1, hss, hlk,
                hsym⟩ := binop_step s lhs op t l1 l2 g pre hc1.1 hc1.2 hl1 hc2.1 hc2.2 hl2 hcase1
                  hothers hlt hty hpos hid
              obtain ⟨r, s2, hrun, hout2, hlx2, hreg2, hoth2, hty2, hcon2, hss2, hsym2, hlk2,
                hnil⟩ :=
                ih s1 (s.brk + 1) g lf [] (by rw [hlx]; exact hch) (Or.inl ⟨hreg, rfl⟩) hoth
                  (by omega) hty1 hpos1 hid1 (by simpa using hf)
              refine ⟨r, s2, by rw [hstep]; exact hrun, ?_, hlx2, ?_, hoth2, hty2, ?_,
                by rw [hss2, hss], by rw [hsym2, hsym], ?_, fun h => by cases h⟩
              · rw [hout2, hout]
                simp
              · intro _
                by_cases hr : rest = []
                · obtain ⟨h1, h2⟩ := hnil hr
                  rw [h1, h2]
                  exact hreg
                · exact hreg2 hr
              · intro _
                by_cases hr : rest = []
                · obtain ⟨h1, h2⟩ := hnil hr
                  rw [h1, h2]
                  exact hcon1
                · exact hcon2 hr
              · intro _
                by_cases hr : rest = []
                · obtain ⟨h1, h2⟩ := hnil hr
                  rw [h2]
                  exact hlk
                · exact hlk2 hr
        · rw [if_neg hc2] at hch; simp at hch
    · rw [if_neg hc1] at hch; simp at hch

/-! ## Labels: bookkeeping of a run -/

theorem labp_refl (K P : List Nat) (s : State) : LabP K P P s s := by
  refine ⟨Nat.le_refl _, [], [], by simp, by simp, ?_, ?_⟩
  · simp [label_defs]
  · intro r hr; simp [label_refs] at hr

theorem lab_refl (s : State) : Lab s s := labp_refl [] [] s

theorem range_split (a b c : Nat) (hab : a ≤ b) (hbc : b ≤ c) :
    List.range' a (c - a) = List.range' a (b - a) ++ List.range' b (c - b) := by
  rw [show c - a = (c - b) + (b - a) by omega, ← List.range'_append_1,
    show a + (b - a) = b by omega]

theorem labp_trans {K P Q R : List Nat} (a b c : State) (h1 : LabP K P Q a b)
    (h2 : LabP K Q R b c) : LabP K P R a c := by
  obtain ⟨hab, n1, t1, ho1, ht1, hp1, hr1⟩ := h1
  obtain ⟨hbc, n2, t2, ho2, ht2, hp2, hr2⟩ := h2
  refine ⟨Nat.le_trans hab hbc, n1 ++ n2, t2 ++ t1, ?_, ?_, ?_, ?_⟩
  · rw [ho2, ho1, List.append_assoc]
  · rw [ht2, ht1, List.append_assoc]
  · rw [range_split _ _ _ hab hbc]
    rw [List.perm_iff_count] at hp1 hp2 ⊢
    intro x
    have e1 := hp1 x
    have e2 := hp2 x
    simp only [label_defs, List.filterMap_append, List.count_append, List.map_append] at e1 e2 ⊢
    omega
  · intro r hr
    simp only [label_refs, List.filterMap_append, List.mem_append] at hr
    rcases hr with hr | hr
    · rcases hr1 r hr with h | h
      · exact Or.inl h
      · exact Or.inr ⟨h.1, by omega⟩
    · rcases hr2 r hr with h | h
      · exact Or.inl h
      · exact Or.inr ⟨by omega, h.2⟩

theorem lab_trans (a b c : State) (h1 : Lab a b) (h2 : Lab b c) : Lab a c :=
  labp_trans a b c h1 h2

theorem labp_frame {K P : List Nat} {a b : State} (h : Lab a b) : LabP K P P a b := by
  obtain ⟨hab, n1, t1, ho1, ht1, hp1, hr1⟩ := h
  refine ⟨hab, n1, t1, ho1, ht1, ?_, ?_⟩
  · rw [List.perm_iff_count] at hp1 ⊢
    intro x
    have e1 := hp1 x
    simp only [List.count_append, List.count_nil, List.nil_append] at e1 ⊢
    omega
  · intro r hr
    rcases hr1 r hr with h | h
    · simp at h
    · exact Or.inr h

theorem lab_of_eq {s s1 : State} (h1 : s1.out = s.out) (h2 : s1.stringtab = s.stringtab)
    (h3 : s1.next_label = s.next_label) : Lab s s1 := by
  refine ⟨by omega, [], [], by simp [h1], by simp [h2], ?_, ?_⟩
  · simp [label_defs, h3]
  · intro r hr; simp [label_refs] at hr

/-- A line that neither defines nor refers to a label. -/
theorem lab_line {s s1 : State} (l : Line) (h1 : s1.out = s.out ++ [l])
    (h2 : s1.stringtab = s.stringtab) (h3 : s1.next_label = s.next_label)
    (hd : l.defines = none) (hr : l.refers = none) : Lab s s1 := by
  refine ⟨by omega, [l], [], h1, by simp [h2], ?_, ?_⟩
  · simp [label_defs, h3, hd]
  · intro r hr1; simp [label_refs, hr] at hr1

/-- Taking an id from the counter. -/
theorem labp_alloc {K P : List Nat} {s s1 : State} (h1 : s1.out = s.out)
    (h2 : s1.stringtab = s.stringtab) (h3 : s1.next_label = s.next_label + 1) :
    LabP K P (s.next_label :: P) s s1 := by
  refine ⟨by omega, [], [], by simp [h1], by simp [h2], ?_, ?_⟩
  · simp [label_defs, h3]
    exact @List.perm_append_comm _ [s.next_label] _
  · intro r hr; simp [label_refs] at hr

/-- Printing the definition of the id that waits first. -/
theorem labp_def {K P : List Nat} {s s1 : State} (l : Nat)
    (h1 : s1.out = s.out ++ [Line.label l])
    (h2 : s1.stringtab = s.stringtab) (h3 : s1.next_label = s.next_label) :
    LabP K (l :: P) P s s1 := by
  refine ⟨by omega, [Line.label l], [], h1, by simp [h2], ?_, ?_⟩
  · simp [label_defs, h3, Line.defines]
  · intro r hr; simp [label_refs, Line.refers] at hr

/-- Printing a line that refers to a known id. -/
theorem labp_ref {K P : List Nat} {s s1 : State} (l : Line) (r : Nat)
    (h1 : s1.out = s.out ++ [l])
    (h2 : s1.stringtab = s.stringtab) (h3 : s1.next_label = s.next_label)
    (hd : l.defines = none) (hr : l.refers = some r) (hk : r ∈ K) :
    LabP K P P s s1 := by
  refine ⟨by omega, [l], [], h1, by simp [h2], ?_, ?_⟩
  · simp [label_defs, h3, hd]
  · intro r1 hr1
    simp [label_refs, hr] at hr1
    subst hr1
    exact Or.inl hk

/-- A new string table entry with the id taken from the counter. -/
theorem labp_string {K P : List Nat} {s s1 : State} (str : String) (h1 : s1.out = s.out)
    (h2 : s1.stringtab = (s.next_label, str) :: s.stringtab)
    (h3 : s1.next_label = s.next_label + 1) :
    LabP K P P s s1 := by
  refine ⟨by omega, [], [(s.next_label, str)], by simp [h1], by simp [h2], ?_, ?_⟩
  · simp [label_defs, h3]
    exact @List.perm_append_comm _ [s.next_label] _
  · intro r hr; simp [label_refs] at hr

/-- A run whose ids are all defined, and whose known ids were all taken during the run, is
complete. -/
theorem labp_close {K : List Nat} {s s1 : State} (h : LabP K [] [] s s1)
    (hk : ∀ k ∈ K, s.next_label ≤ k ∧ k < s1.next_label) : Lab s s1 := by
  obtain ⟨hab, n1, t1, ho1, ht1, hp1, hr1⟩ := h
  refine ⟨hab, n1, t1, ho1, ht1, hp1, ?_⟩
  intro r hr
  rcases hr1 r hr with h | h
  · exact Or.inr (hk r h)
  · exact Or.inr h

theorem lab_out {s s1 : State} (h : Lab s s1) : ∃ new, s1.out = s.out ++ new := by
  obtain ⟨_, n1, _, ho1, _⟩ := h
  exact ⟨n1, ho1⟩
/-! ## Labels: the functions that take no label -/

theorem lab_lex : Pres Lab lex := by
  intro s a s1 h
  unfold lex at h
  cases hl : s.lx.lex with
  | error e => rw [hl] at h; cases h
  | ok l => rw [hl] at h; cases h; exact lab_of_eq rfl rfl rfl

theorem lab_emit (l : Line) (hd : l.defines = none) (hr : l.refers = none) :
    Pres Lab (emit l) :=
  pres_modifyS fun _ => lab_line l rfl rfl rfl hd hr

theorem lab_set_locked (r : Nat) (b : Bool) : Pres Lab (set_locked r b) :=
  pres_modifyS fun _ => lab_of_eq rfl rfl rfl

theorem lab_set_register (r : Nat) (p : Option Nat) : Pres Lab (set_register r p) :=
  pres_modifyS fun _ => lab_of_eq rfl rfl rfl

theorem lab_setValue (p : Nat) (f : Value → Value) : Pres Lab (setValue p f) :=
  pres_modifyS fun _ => lab_of_eq rfl rfl rfl

theorem lab_calloc : Pres Lab calloc := by
  intro s a s1 h
  cases h
  exact lab_of_eq rfl rfl rfl

theorem lab_drop (v : Nat) : Pres Lab (drop v) := by
  apply pres_modifyS
  intro s
  split
  · exact lab_refl _
  · exact lab_of_eq rfl rfl rfl

theorem lab_operand (v : Nat) : Pres Lab (operand v) := by
  intro s a s1 h
  obtain ⟨_, hs⟩ := operand_inv h
  subst hs
  exact lab_refl _

theorem lab_lookup (fuel : Nat) (id : Option String) : Pres Lab (lookup fuel id) := by
  intro s a s1 h
  unfold lookup at h
  cases hl : lookup_from s id fuel s.symtab with
  | error e => rw [hl] at h; cases h
  | ok l => rw [hl] at h; cases h; exact lab_refl _

theorem lab_close_scope (position : Option Nat) (fuel : Nat) :
    Pres Lab (close_scope position fuel) := by
  intro s a s1 h
  rw [close_scope_inv position fuel s s1 h]
  exact lab_of_eq rfl rfl rfl
theorem lab_check (c : Int) : Pres Lab (check c) := by
  unfold check
  repeat' first
    | with_reducible exact pres_fail _ | with_reducible exact pres_pure lab_refl _
    | with_reducible exact pres_getS lab_refl | with_reducible exact lab_lex
    | with_reducible exact lab_set_locked _ _ | with_reducible exact lab_set_register _ _
    | with_reducible exact lab_setValue _ _ | with_reducible exact lab_calloc
    | with_reducible exact lab_drop _ | with_reducible exact lab_operand _
    | with_reducible exact lab_lookup _ _
    | with_reducible exact pres_modifyS fun _ => lab_of_eq rfl rfl rfl
    | (with_reducible refine lab_emit _ ?_ ?_) <;> rfl
    | refine pres_bind lab_trans ?_ (fun _ => ?_) | dsimp only | split

theorem lab_expect (c : Int) : Pres Lab (expect c) := by
  unfold expect
  repeat' first
    | with_reducible exact pres_fail _ | with_reducible exact pres_pure lab_refl _
    | with_reducible exact pres_getS lab_refl | with_reducible exact lab_lex
    | with_reducible exact lab_set_locked _ _ | with_reducible exact lab_set_register _ _
    | with_reducible exact lab_setValue _ _ | with_reducible exact lab_calloc
    | with_reducible exact lab_drop _ | with_reducible exact lab_operand _
    | with_reducible exact lab_lookup _ _ | with_reducible exact lab_check _
    | with_reducible exact pres_modifyS fun _ => lab_of_eq rfl rfl rfl
    | (with_reducible refine lab_emit _ ?_ ?_) <;> rfl
    | refine pres_bind lab_trans ?_ (fun _ => ?_) | dsimp only | split

theorem lab_push (reg : Nat) : Pres Lab (push reg) := by
  unfold push
  repeat' first
    | with_reducible exact pres_fail _ | with_reducible exact pres_pure lab_refl _
    | with_reducible exact pres_getS lab_refl | with_reducible exact lab_lex
    | with_reducible exact lab_set_locked _ _ | with_reducible exact lab_set_register _ _
    | with_reducible exact lab_setValue _ _ | with_reducible exact lab_calloc
    | with_reducible exact lab_drop _ | with_reducible exact lab_operand _
    | with_reducible exact lab_lookup _ _ | with_reducible exact lab_check _
    | with_reducible exact lab_expect _
    | with_reducible exact pres_modifyS fun _ => lab_of_eq rfl rfl rfl
    | (with_reducible refine lab_emit _ ?_ ?_) <;> rfl
    | refine pres_bind lab_trans ?_ (fun _ => ?_) | dsimp only | split

theorem lab_alloc_register : Pres Lab (alloc_register) := by
  unfold alloc_register
  repeat' first
    | with_reducible exact pres_fail _ | with_reducible exact pres_pure lab_refl _
    | with_reducible exact pres_getS lab_refl | with_reducible exact lab_lex
    | with_reducible exact lab_set_locked _ _ | with_reducible exact lab_set_register _ _
    | with_reducible exact lab_setValue _ _ | with_reducible exact lab_calloc
    | with_reducible exact lab_drop _ | with_reducible exact lab_operand _
    | with_reducible exact lab_lookup _ _ | with_reducible exact lab_check _
    | with_reducible exact lab_expect _ | with_reducible exact lab_push _
    | with_reducible exact pres_modifyS fun _ => lab_of_eq rfl rfl rfl
    | (with_reducible refine lab_emit _ ?_ ?_) <;> rfl
    | refine pres_bind lab_trans ?_ (fun _ => ?_) | dsimp only | split

theorem lab_load_into (v reg : Nat) : Pres Lab (load_into v reg) := by
  unfold load_into
  repeat' first
    | with_reducible exact pres_fail _ | with_reducible exact pres_pure lab_refl _
    | with_reducible exact pres_getS lab_refl | with_reducible exact lab_lex
    | with_reducible exact lab_set_locked _ _ | with_reducible exact lab_set_register _ _
    | with_reducible exact lab_setValue _ _ | with_reducible exact lab_calloc
    | with_reducible exact lab_drop _ | with_reducible exact lab_operand _
    | with_reducible exact lab_lookup _ _ | with_reducible exact lab_check _
    | with_reducible exact lab_expect _ | with_reducible exact lab_push _
    | with_reducible exact lab_alloc_register
    | with_reducible exact pres_modifyS fun _ => lab_of_eq rfl rfl rfl
    | (with_reducible refine lab_emit _ ?_ ?_) <;> rfl
    | refine pres_bind lab_trans ?_ (fun _ => ?_) | dsimp only | split

theorem lab_load (v : Nat) (r : Option Nat) : Pres Lab (load v r) := by
  unfold load
  repeat' first
    | with_reducible exact pres_fail _ | with_reducible exact pres_pure lab_refl _
    | with_reducible exact pres_getS lab_refl | with_reducible exact lab_lex
    | with_reducible exact lab_set_locked _ _ | with_reducible exact lab_set_register _ _
    | with_reducible exact lab_setValue _ _ | with_reducible exact lab_calloc
    | with_reducible exact lab_drop _ | with_reducible exact lab_operand _
    | with_reducible exact lab_lookup _ _ | with_reducible exact lab_check _
    | with_reducible exact lab_expect _ | with_reducible exact lab_push _
    | with_reducible exact lab_alloc_register | with_reducible exact lab_load_into _ _
    | with_reducible exact pres_modifyS fun _ => lab_of_eq rfl rfl rfl
    | (with_reducible refine lab_emit _ ?_ ?_) <;> rfl
    | refine pres_bind lab_trans ?_ (fun _ => ?_) | dsimp only | split
theorem lab_parse (fuel : Nat) :
    Pres Lab (parse_declaration fuel) ∧ ∀ val last, Pres Lab (parse_params fuel val last) := by
  induction fuel with
  | zero =>
    constructor
    · unfold parse_declaration; exact pres_fail _
    · intro val last; unfold parse_params; exact pres_fail _
  | succ n ih =>
    constructor
    · unfold parse_declaration
      repeat' first
        | with_reducible exact pres_fail _ | with_reducible exact pres_pure lab_refl _
        | with_reducible exact pres_getS lab_refl | with_reducible exact lab_lex
        | with_reducible exact lab_set_locked _ _ | with_reducible exact lab_set_register _ _
        | with_reducible exact lab_setValue _ _ | with_reducible exact lab_calloc
        | with_reducible exact lab_drop _ | with_reducible exact lab_operand _
        | with_reducible exact lab_lookup _ _ | with_reducible exact lab_check _
        | with_reducible exact lab_expect _ | with_reducible exact lab_push _
        | with_reducible exact lab_alloc_register | with_reducible exact lab_load_into _ _
        | with_reducible exact lab_load _ _ | with_reducible exact ih.2 _ _
        | with_reducible exact pres_modifyS fun _ => lab_of_eq rfl rfl rfl
        | (with_reducible refine lab_emit _ ?_ ?_) <;> rfl
        | refine pres_bind lab_trans ?_ (fun _ => ?_) | dsimp only | split
    · intro val last
      unfold parse_params
      repeat' first
        | with_reducible exact pres_fail _ | with_reducible exact pres_pure lab_refl _
        | with_reducible exact pres_getS lab_refl | with_reducible exact lab_lex
        | with_reducible exact lab_set_locked _ _ | with_reducible exact lab_set_register _ _
        | with_reducible exact lab_setValue _ _ | with_reducible exact lab_calloc
        | with_reducible exact lab_drop _ | with_reducible exact lab_operand _
        | with_reducible exact lab_lookup _ _ | with_reducible exact lab_check _
        | with_reducible exact lab_expect _ | with_reducible exact lab_push _
        | with_reducible exact lab_alloc_register | with_reducible exact lab_load_into _ _
        | with_reducible exact lab_load _ _ | with_reducible exact ih.1
        | with_reducible exact ih.2 _ _
        | with_reducible exact pres_modifyS fun _ => lab_of_eq rfl rfl rfl
        | (with_reducible refine lab_emit _ ?_ ?_) <;> rfl
        | refine pres_bind lab_trans ?_ (fun _ => ?_) | dsimp only | split

theorem lab_parse_declaration (fuel : Nat) : Pres Lab (parse_declaration fuel) :=
  (lab_parse fuel).1

theorem lab_new_result (ty : Ty) (reg : Nat) : Pres Lab (new_result ty reg) := by
  unfold new_result
  repeat' first
    | with_reducible exact pres_fail _ | with_reducible exact pres_pure lab_refl _
    | with_reducible exact pres_getS lab_refl | with_reducible exact lab_lex
    | with_reducible exact lab_set_locked _ _ | with_reducible exact lab_set_register _ _
    | with_reducible exact lab_setValue _ _ | with_reducible exact lab_calloc
    | with_reducible exact lab_drop _ | with_reducible exact lab_operand _
    | with_reducible exact lab_lookup _ _ | with_reducible exact lab_check _
    | with_reducible exact lab_expect _ | with_reducible exact lab_push _
    | with_reducible exact lab_alloc_register | with_reducible exact lab_load_into _ _
    | with_reducible exact lab_load _ _ | with_reducible exact lab_parse_declaration _
    | with_reducible exact pres_modifyS fun _ => lab_of_eq rfl rfl rfl
    | (with_reducible refine lab_emit _ ?_ ?_) <;> rfl
    | refine pres_bind lab_trans ?_ (fun _ => ?_) | dsimp only | split

theorem lab_arrange_step (values : Nat → Option Nat) (i : Nat) :
    Pres Lab (arrange_step values i) := by
  unfold arrange_step
  repeat' first
    | with_reducible exact pres_fail _ | with_reducible exact pres_pure lab_refl _
    | with_reducible exact pres_getS lab_refl | with_reducible exact lab_lex
    | with_reducible exact lab_set_locked _ _ | with_reducible exact lab_set_register _ _
    | with_reducible exact lab_setValue _ _ | with_reducible exact lab_calloc
    | with_reducible exact lab_drop _ | with_reducible exact lab_operand _
    | with_reducible exact lab_lookup _ _ | with_reducible exact lab_check _
    | with_reducible exact lab_expect _ | with_reducible exact lab_push _
    | with_reducible exact lab_alloc_register | with_reducible exact lab_load_into _ _
    | with_reducible exact lab_load _ _ | with_reducible exact lab_parse_declaration _
    | with_reducible exact pres_modifyS fun _ => lab_of_eq rfl rfl rfl
    | (with_reducible refine lab_emit _ ?_ ?_) <;> rfl
    | refine pres_bind lab_trans ?_ (fun _ => ?_) | dsimp only | split

theorem lab_arrange (values : Nat → Option Nat) : Pres Lab (arrange values) :=
  pres_forM lab_refl lab_trans _ (lab_arrange_step values) _

theorem lab_align_stack : Pres Lab (align_stack) := by
  unfold align_stack
  repeat' first
    | with_reducible exact pres_fail _ | with_reducible exact pres_pure lab_refl _
    | with_reducible exact pres_getS lab_refl | with_reducible exact lab_lex
    | with_reducible exact lab_set_locked _ _ | with_reducible exact lab_set_register _ _
    | with_reducible exact lab_setValue _ _ | with_reducible exact lab_calloc
    | with_reducible exact lab_drop _ | with_reducible exact lab_operand _
    | with_reducible exact lab_lookup _ _ | with_reducible exact lab_check _
    | with_reducible exact lab_expect _ | with_reducible exact lab_push _
    | with_reducible exact lab_alloc_register | with_reducible exact lab_load_into _ _
    | with_reducible exact lab_load _ _ | with_reducible exact lab_parse_declaration _
    | with_reducible exact pres_modifyS fun _ => lab_of_eq rfl rfl rfl
    | (with_reducible refine lab_emit _ ?_ ?_) <;> rfl
    | refine pres_bind lab_trans ?_ (fun _ => ?_) | dsimp only | split

theorem lab_drop_values (values : Nat → Option Nat) : Pres Lab (drop_values values) := by
  unfold drop_values
  apply pres_forM lab_refl lab_trans
  intro i
  split
  · exact lab_drop _
  · exact pres_pure lab_refl _

theorem lab_emit_call (fn : Nat) (values : Nat → Option Nat) :
    Pres Lab (emit_call fn values) := by
  unfold emit_call
  repeat' first
    | with_reducible exact pres_fail _ | with_reducible exact pres_pure lab_refl _
    | with_reducible exact pres_getS lab_refl | with_reducible exact lab_lex
    | with_reducible exact lab_set_locked _ _ | with_reducible exact lab_set_register _ _
    | with_reducible exact lab_setValue _ _ | with_reducible exact lab_calloc
    | with_reducible exact lab_drop _ | with_reducible exact lab_operand _
    | with_reducible exact lab_lookup _ _ | with_reducible exact lab_check _
    | with_reducible exact lab_expect _ | with_reducible exact lab_push _
    | with_reducible exact lab_alloc_register | with_reducible exact lab_load_into _ _
    | with_reducible exact lab_load _ _ | with_reducible exact lab_parse_declaration _
    | with_reducible exact lab_new_result _ _ | with_reducible exact lab_arrange _
    | with_reducible exact lab_align_stack | with_reducible exact lab_drop_values _
    | with_reducible exact pres_modifyS fun _ => lab_of_eq rfl rfl rfl
    | (with_reducible refine lab_emit _ ?_ ?_) <;> rfl
    | refine pres_bind lab_trans ?_ (fun _ => ?_) | dsimp only | split

theorem lab_emit_binop (oper : Int) (rhs reg : Nat) : Pres Lab (emit_binop oper rhs reg) := by
  unfold emit_binop
  repeat' first
    | with_reducible exact pres_fail _ | with_reducible exact pres_pure lab_refl _
    | with_reducible exact pres_getS lab_refl | with_reducible exact lab_lex
    | with_reducible exact lab_set_locked _ _ | with_reducible exact lab_set_register _ _
    | with_reducible exact lab_setValue _ _ | with_reducible exact lab_calloc
    | with_reducible exact lab_drop _ | with_reducible exact lab_operand _
    | with_reducible exact lab_lookup _ _ | with_reducible exact lab_check _
    | with_reducible exact lab_expect _ | with_reducible exact lab_push _
    | with_reducible exact lab_alloc_register | with_reducible exact lab_load_into _ _
    | with_reducible exact lab_load _ _ | with_reducible exact lab_parse_declaration _
    | with_reducible exact lab_new_result _ _ | with_reducible exact lab_arrange _
    | with_reducible exact lab_align_stack | with_reducible exact lab_drop_values _
    | with_reducible exact pres_modifyS fun _ => lab_of_eq rfl rfl rfl
    | (with_reducible refine lab_emit _ ?_ ?_) <;> rfl
    | refine pres_bind lab_trans ?_ (fun _ => ?_) | dsimp only | split
theorem pres_at {R : State → State → Prop} {α : Type} {m : M α} {s s1 : State} {a : α}
    (h : m s = Except.ok (a, s1)) (hp : Pres R m) : R s s1 := hp s a s1 h

/-- The string literal branch of `term`: the id taken for the string table entry is the one
`mov $l<id>, <reg>` refers to. -/
theorem lab_string_literal (s s1 : State) (a : Nat)
    (h : (modifyS (fun s =>
            { s with stringtab := (s.next_label, s.lx.token_str.getD "") :: s.stringtab,
                     next_label := s.next_label + 1,
                     lx := { s.lx with token_str := none } }) >>= fun _ =>
          lex >>= fun _ => calloc >>= fun result =>
          setValue result (fun v => { v with type := Ty.pointer }) >>= fun _ =>
          alloc_register >>= fun reg =>
          emit (Line.mov_label s.next_label (reg_names reg)) >>= fun _ =>
          set_register reg (some result) >>= fun _ => pure result) s = Except.ok (a, s1)) :
    Lab s s1 := by
  rw [modifyS_bind] at h
  obtain ⟨_, s2, h1, h⟩ := bind_inv h
  obtain ⟨res, s3, h2, h⟩ := bind_inv h
  obtain ⟨_, s4, h3, h⟩ := bind_inv h
  obtain ⟨reg, s5, h4, h⟩ := bind_inv h
  rw [emit_bind] at h
  obtain ⟨_, s6, h5, h⟩ := bind_inv h
  obtain ⟨_, hs⟩ := pure_inv h
  rw [hs]
  have e0 : LabP [s.next_label] [] [] s _ :=
    labp_string (s.lx.token_str.getD "")
      (rfl : ({ s with stringtab := (s.next_label, s.lx.token_str.getD "") :: s.stringtab,
                       next_label := s.next_label + 1,
                       lx := { s.lx with token_str := none } } : State).out = s.out) rfl rfl
  have e1 : LabP [s.next_label] [] [] _ s2 := labp_frame (pres_at h1 lab_lex)
  have e2 : LabP [s.next_label] [] [] s2 s3 := labp_frame (pres_at h2 lab_calloc)
  have e3 : LabP [s.next_label] [] [] s3 s4 := labp_frame (pres_at h3 (lab_setValue _ _))
  have e4 : LabP [s.next_label] [] [] s4 s5 := labp_frame (pres_at h4 lab_alloc_register)
  have e5 : LabP [s.next_label] [] []
      s5 { s5 with out := s5.out ++ [Line.mov_label s.next_label (reg_names reg)] } :=
    labp_ref _ s.next_label rfl rfl rfl rfl rfl (by simp)
  have e6 : LabP [s.next_label] [] [] _ s6 := labp_frame (pres_at h5 (lab_set_register _ _))
  have tail := labp_trans _ _ _ e1 (labp_trans _ _ _ e2 (labp_trans _ _ _ e3
    (labp_trans _ _ _ e4 (labp_trans _ _ _ e5 e6))))
  have hlt : s.next_label + 1 ≤ s6.next_label := tail.1
  refine labp_close (labp_trans _ _ _ e0 tail) ?_
  intro k hk
  simp at hk
  subst hk
  exact ⟨Nat.le_refl _, by omega⟩

/-- The functions of the expression parser define every label they take. -/
theorem lab_expr_all (fuel : Nat) :
    (∀ fn arg i values, Pres Lab (call_args fuel fn arg i values)) ∧
    (∀ fn, Pres Lab (function_call fuel fn)) ∧
    Pres Lab (term fuel) ∧
    (∀ r, Pres Lab (binop_loop fuel r)) ∧
    Pres Lab (binop_expr fuel) ∧
    Pres Lab (expr fuel) := by
  induction fuel with
  | zero =>
    refine ⟨?_, ?_, ?_, ?_, ?_, ?_⟩
    · intro fn arg i values; unfold call_args; exact pres_fail _
    · intro fn; unfold function_call; exact pres_fail _
    · unfold term; exact pres_fail _
    · intro r; unfold binop_loop; exact pres_fail _
    · unfold binop_expr; exact pres_fail _
    · unfold expr; exact pres_fail _
  | succ n ih =>
    obtain ⟨ih1, ih2, ih3, ih4, ih5, ih6⟩ := ih
    refine ⟨?_, ?_, ?_, ?_, ?_, ?_⟩
    · intro fn arg i values
      unfold call_args
      repeat' first
        | with_reducible exact pres_fail _ | with_reducible exact pres_pure lab_refl _
        | with_reducible exact pres_getS lab_refl | with_reducible exact lab_lex
        | with_reducible exact lab_set_locked _ _ | with_reducible exact lab_set_register _ _
        | with_reducible exact lab_setValue _ _ | with_reducible exact lab_calloc
        | with_reducible exact lab_drop _ | with_reducible exact lab_operand _
        | with_reducible exact lab_lookup _ _ | with_reducible exact lab_check _
        | with_reducible exact lab_expect _ | with_reducible exact lab_push _
        | with_reducible exact lab_alloc_register | with_reducible exact lab_load_into _ _
        | with_reducible exact lab_load _ _ | with_reducible exact lab_parse_declaration _
        | with_reducible exact lab_new_result _ _ | with_reducible exact lab_arrange _
        | with_reducible exact lab_align_stack | with_reducible exact lab_drop_values _
        | with_reducible exact lab_emit_call _ _ | with_reducible exact lab_emit_binop _ _ _
        | with_reducible exact ih1 _ _ _ _ | with_reducible exact ih6
        | with_reducible exact pres_modifyS fun _ => lab_of_eq rfl rfl rfl
        | (with_reducible refine lab_emit _ ?_ ?_) <;> rfl
        | refine pres_bind lab_trans ?_ (fun _ => ?_) | dsimp only | split
    · intro fn
      unfold function_call
      repeat' first
        | with_reducible exact pres_fail _ | with_reducible exact pres_pure lab_refl _
        | with_reducible exact pres_getS lab_refl | with_reducible exact lab_lex
        | with_reducible exact lab_set_locked _ _ | with_reducible exact lab_set_register _ _
        | with_reducible exact lab_setValue _ _ | with_reducible exact lab_calloc
        | with_reducible exact lab_drop _ | with_reducible exact lab_operand _
        | with_reducible exact lab_lookup _ _ | with_reducible exact lab_check _
        | with_reducible exact lab_expect _ | with_reducible exact lab_push _
        | with_reducible exact lab_alloc_register | with_reducible exact lab_load_into _ _
        | with_reducible exact lab_load _ _ | with_reducible exact lab_parse_declaration _
        | with_reducible exact lab_new_result _ _ | with_reducible exact lab_arrange _
        | with_reducible exact lab_align_stack | with_reducible exact lab_drop_values _
        | with_reducible exact lab_emit_call _ _ | with_reducible exact lab_emit_binop _ _ _
        | with_reducible exact ih1 _ _ _ _
        | with_reducible exact pres_modifyS fun _ => lab_of_eq rfl rfl rfl
        | (with_reducible refine lab_emit _ ?_ ?_) <;> rfl
        | refine pres_bind lab_trans ?_ (fun _ => ?_) | dsimp only | split
    · intro s a s1 h
      unfold term at h
      rw [getS_bind] at h
      by_cases h1 : s.lx.token = 40
      · rw [if_pos h1] at h
        refine pres_at h ?_
        repeat' first
          | with_reducible exact pres_fail _ | with_reducible exact pres_pure lab_refl _
          | with_reducible exact pres_getS lab_refl | with_reducible exact lab_lex
          | with_reducible exact lab_set_locked _ _ | with_reducible exact lab_set_register _ _
          | with_reducible exact lab_setValue _ _ | with_reducible exact lab_calloc
          | with_reducible exact lab_drop _ | with_reducible exact lab_operand _
          | with_reducible exact lab_lookup _ _ | with_reducible exact lab_check _
          | with_reducible exact lab_expect _ | with_reducible exact lab_push _
          | with_reducible exact lab_alloc_register | with_reducible exact lab_load_into _ _
          | with_reducible exact lab_load _ _ | with_reducible exact lab_parse_declaration _
          | with_reducible exact lab_new_result _ _ | with_reducible exact lab_arrange _
          | with_reducible exact lab_align_stack | with_reducible exact lab_drop_values _
          | with_reducible exact lab_emit_call _ _ | with_reducible exact lab_emit_binop _ _ _
          | with_reducible exact ih6
          | with_reducible exact pres_modifyS fun _ => lab_of_eq rfl rfl rfl
          | (with_reducible refine lab_emit _ ?_ ?_) <;> rfl
          | refine pres_bind lab_trans ?_ (fun _ => ?_) | dsimp only | split
      rw [if_neg h1] at h
      by_cases h2 : s.lx.token = 45
      · rw [if_pos h2] at h
        refine pres_at h ?_
        repeat' first
          | with_reducible exact pres_fail _ | with_reducible exact pres_pure lab_refl _
          | with_reducible exact pres_getS lab_refl | with_reducible exact lab_lex
          | with_reducible exact lab_set_locked _ _ | with_reducible exact lab_set_register _ _
          | with_reducible exact lab_setValue _ _ | with_reducible exact lab_calloc
          | with_reducible exact lab_drop _ | with_reducible exact lab_operand _
          | with_reducible exact lab_lookup _ _ | with_reducible exact lab_check _
          | with_reducible exact lab_expect _ | with_reducible exact lab_push _
          | with_reducible exact lab_alloc_register | with_reducible exact lab_load_into _ _
          | with_reducible exact lab_load _ _ | with_reducible exact lab_parse_declaration _
          | with_reducible exact lab_new_result _ _ | with_reducible exact lab_arrange _
          | with_reducible exact lab_align_stack | with_reducible exact lab_drop_values _
          | with_reducible exact lab_emit_call _ _ | with_reducible exact lab_emit_binop _ _ _
          | with_reducible exact ih3
          | with_reducible exact pres_modifyS fun _ => lab_of_eq rfl rfl rfl
          | (with_reducible refine lab_emit _ ?_ ?_) <;> rfl
          | refine pres_bind lab_trans ?_ (fun _ => ?_) | dsimp only | split
      rw [if_neg h2] at h
      by_cases h3 : s.lx.token = TOK_IDENTIFIER
      · rw [if_pos h3] at h
        refine pres_at h ?_
        repeat' first
          | with_reducible exact pres_fail _ | with_reducible exact pres_pure lab_refl _
          | with_reducible exact pres_getS lab_refl | with_reducible exact lab_lex
          | with_reducible exact lab_set_locked _ _ | with_reducible exact lab_set_register _ _
          | with_reducible exact lab_setValue _ _ | with_reducible exact lab_calloc
          | with_reducible exact lab_drop _ | with_reducible exact lab_operand _
          | with_reducible exact lab_lookup _ _ | with_reducible exact lab_check _
          | with_reducible exact lab_expect _ | with_reducible exact lab_push _
          | with_reducible exact lab_alloc_register | with_reducible exact lab_load_into _ _
          | with_reducible exact lab_load _ _ | with_reducible exact lab_parse_declaration _
          | with_reducible exact lab_new_result _ _ | with_reducible exact lab_arrange _
          | with_reducible exact lab_align_stack | with_reducible exact lab_drop_values _
          | with_reducible exact lab_emit_call _ _ | with_reducible exact lab_emit_binop _ _ _
          | with_reducible exact ih2 _
          | with_reducible exact pres_modifyS fun _ => lab_of_eq rfl rfl rfl
          | (with_reducible refine lab_emit _ ?_ ?_) <;> rfl
          | refine pres_bind lab_trans ?_ (fun _ => ?_) | dsimp only | split
      rw [if_neg h3] at h
      by_cases h4 : s.lx.token = TOK_NUMBER
      · rw [if_pos h4] at h
        refine pres_at h ?_
        repeat' first
          | with_reducible exact pres_fail _ | with_reducible exact pres_pure lab_refl _
          | with_reducible exact pres_getS lab_refl | with_reducible exact lab_lex
          | with_reducible exact lab_set_locked _ _ | with_reducible exact lab_set_register _ _
          | with_reducible exact lab_setValue _ _ | with_reducible exact lab_calloc
          | with_reducible exact lab_drop _ | with_reducible exact lab_operand _
          | with_reducible exact lab_lookup _ _ | with_reducible exact lab_check _
          | with_reducible exact lab_expect _ | with_reducible exact lab_push _
          | with_reducible exact lab_alloc_register | with_reducible exact lab_load_into _ _
          | with_reducible exact lab_load _ _ | with_reducible exact lab_parse_declaration _
          | with_reducible exact lab_new_result _ _ | with_reducible exact lab_arrange _
          | with_reducible exact lab_align_stack | with_reducible exact lab_drop_values _
          | with_reducible exact lab_emit_call _ _ | with_reducible exact lab_emit_binop _ _ _
          | with_reducible exact pres_modifyS fun _ => lab_of_eq rfl rfl rfl
          | (with_reducible refine lab_emit _ ?_ ?_) <;> rfl
          | refine pres_bind lab_trans ?_ (fun _ => ?_) | dsimp only | split
      rw [if_neg h4] at h
      by_cases h5 : s.lx.token = TOK_STRING
      · rw [if_pos h5] at h
        exact lab_string_literal s s1 a h
      · rw [if_neg h5] at h
        cases h
    · intro r
      unfold binop_loop
      repeat' first
        | with_reducible exact pres_fail _ | with_reducible exact pres_pure lab_refl _
        | with_reducible exact pres_getS lab_refl | with_reducible exact lab_lex
        | with_reducible exact lab_set_locked _ _ | with_reducible exact lab_set_register _ _
        | with_reducible exact lab_setValue _ _ | with_reducible exact lab_calloc
        | with_reducible exact lab_drop _ | with_reducible exact lab_operand _
        | with_reducible exact lab_lookup _ _ | with_reducible exact lab_check _
        | with_reducible exact lab_expect _ | with_reducible exact lab_push _
        | with_reducible exact lab_alloc_register | with_reducible exact lab_load_into _ _
        | with_reducible exact lab_load _ _ | with_reducible exact lab_parse_declaration _
        | with_reducible exact lab_new_result _ _ | with_reducible exact lab_arrange _
        | with_reducible exact lab_align_stack | with_reducible exact lab_drop_values _
        | with_reducible exact lab_emit_call _ _ | with_reducible exact lab_emit_binop _ _ _
        | with_reducible exact ih3 | with_reducible exact ih4 _
        | with_reducible exact pres_modifyS fun _ => lab_of_eq rfl rfl rfl
        | (with_reducible refine lab_emit _ ?_ ?_) <;> rfl
        | refine pres_bind lab_trans ?_ (fun _ => ?_) | dsimp only | split
    · unfold binop_expr
      repeat' first
        | with_reducible exact pres_fail _ | with_reducible exact pres_pure lab_refl _
        | with_reducible exact pres_getS lab_refl | with_reducible exact lab_lex
        | with_reducible exact lab_set_locked _ _ | with_reducible exact lab_set_register _ _
        | with_reducible exact lab_setValue _ _ | with_reducible exact lab_calloc
        | with_reducible exact lab_drop _ | with_reducible exact lab_operand _
        | with_reducible exact lab_lookup _ _ | with_reducible exact lab_check _
        | with_reducible exact lab_expect _ | with_reducible exact lab_push _
        | with_reducible exact lab_alloc_register | with_reducible exact lab_load_into _ _
        | with_reducible exact lab_load _ _ | with_reducible exact lab_parse_declaration _
        | with_reducible exact lab_new_result _ _ | with_reducible exact lab_arrange _
        | with_reducible exact lab_align_stack | with_reducible exact lab_drop_values _
        | with_reducible exact lab_emit_call _ _ | with_reducible exact lab_emit_binop _ _ _
        | with_reducible exact ih3 | with_reducible exact ih4 _
        | with_reducible exact pres_modifyS fun _ => lab_of_eq rfl rfl rfl
        | (with_reducible refine lab_emit _ ?_ ?_) <;> rfl
        | refine pres_bind lab_trans ?_ (fun _ => ?_) | dsimp only | split
    · unfold expr
      repeat' first
        | with_reducible exact pres_fail _ | with_reducible exact pres_pure lab_refl _
        | with_reducible exact pres_getS lab_refl | with_reducible exact lab_lex
        | with_reducible exact lab_set_locked _ _ | with_reducible exact lab_set_register _ _
        | with_reducible exact lab_setValue _ _ | with_reducible exact lab_calloc
        | with_reducible exact lab_drop _ | with_reducible exact lab_operand _
        | with_reducible exact lab_lookup _ _ | with_reducible exact lab_check _
        | with_reducible exact lab_expect _ | with_reducible exact lab_push _
        | with_reducible exact lab_alloc_register | with_reducible exact lab_load_into _ _
        | with_reducible exact lab_load _ _ | with_reducible exact lab_parse_declaration _
        | with_reducible exact lab_new_result _ _ | with_reducible exact lab_arrange _
        | with_reducible exact lab_align_stack | with_reducible exact lab_drop_values _
        | with_reducible exact lab_emit_call _ _ | with_reducible exact lab_emit_binop _ _ _
        | with_reducible exact ih5 | with_reducible exact ih6
        | with_reducible exact pres_modifyS fun _ => lab_of_eq rfl rfl rfl
        | (with_reducible refine lab_emit _ ?_ ?_) <;> rfl
        | refine pres_bind lab_trans ?_ (fun _ => ?_) | dsimp only | split

theorem lab_expr (fuel : Nat) : Pres Lab (expr fuel) := (lab_expr_all fuel).2.2.2.2.2
/-! ## Functions that print nothing -/

theorem quiet_refl (s : State) : Quiet s s := ⟨rfl, rfl, rfl⟩

theorem quiet_trans (a b c : State) (h1 : Quiet a b) (h2 : Quiet b c) : Quiet a c := by
  obtain ⟨a1, a2, a3⟩ := h1
  obtain ⟨b1, b2, b3⟩ := h2
  exact ⟨by rw [b1, a1], by rw [b2, a2], by rw [b3, a3]⟩

theorem quiet_lex : Pres Quiet lex := by
  intro s a s1 h
  unfold lex at h
  cases hl : s.lx.lex with
  | error e => rw [hl] at h; cases h
  | ok l => rw [hl] at h; cases h; exact ⟨rfl, rfl, rfl⟩

theorem quiet_check (c : Int) : Pres Quiet (check c) := by
  unfold check
  repeat' first
    | with_reducible exact pres_fail _ | with_reducible exact pres_pure quiet_refl _
    | with_reducible exact pres_getS quiet_refl | with_reducible exact quiet_lex
    | refine pres_bind quiet_trans ?_ (fun _ => ?_) | dsimp only | split

theorem quiet_expect (c : Int) : Pres Quiet (expect c) := by
  unfold expect
  repeat' first
    | with_reducible exact pres_fail _ | with_reducible exact pres_pure quiet_refl _
    | with_reducible exact pres_getS quiet_refl | with_reducible exact quiet_check _
    | refine pres_bind quiet_trans ?_ (fun _ => ?_) | dsimp only | split

theorem quiet_drop (v : Nat) : Pres Quiet (drop v) := by
  apply pres_modifyS
  intro s
  split
  · exact quiet_refl _
  · exact ⟨rfl, rfl, rfl⟩

/-- What a returning `test_condition` did: it took the id `s.next_label`, loaded the
condition, and printed `or` and `jz` after the lines of the load. -/
theorem test_condition_inv (c : Nat) (s s1 : State) (l : Nat)
    (h : test_condition c s = Except.ok (l, s1)) :
    l = s.next_label ∧ ∃ g s2,
      load c none { s with next_label := s.next_label + 1 } = Except.ok (g, s2) ∧
      s1.out = s2.out ++ [Line.or (reg_names g) (reg_names g), Line.jz s.next_label] ∧
      s1.next_label = s2.next_label ∧ s1.stringtab = s2.stringtab := by
  unfold test_condition at h
  rw [getS_bind, modifyS_bind] at h
  obtain ⟨g, s2, h1, h⟩ := bind_inv h
  rw [emit_bind, emit_bind] at h
  obtain ⟨_, s3, h2, h⟩ := bind_inv h
  obtain ⟨hl, hs⟩ := pure_inv h
  obtain ⟨q1, q2, q3⟩ := quiet_drop c _ _ _ h2
  subst hl
  rw [hs]
  refine ⟨rfl, g, s2, h1, ?_, q2, q3⟩
  rw [q1]
  simp

/-- The steps of a returning `for_statement`, in order. -/
theorem for_statement_inv (fuel : Nat) (s sf : State)
    (h : for_statement (fuel + 1) s = Except.ok ((), sf)) :
    ∃ s1 initial s2 s3 s4 s5 condition s7 s8 end_label s9 s11 stepv s13 s14 s15 s17 s19,
      expect 40 s = Except.ok ((), s1) ∧
      expr fuel s1 = Except.ok (initial, s2) ∧
      drop initial s2 = Except.ok ((), s3) ∧
      expect 59 s3 = Except.ok ((), s4) ∧
      end_block fuel s1.stack_size s4 = Except.ok ((), s5) ∧
      expr fuel { s5 with next_label := s5.next_label + 1,
                          out := s5.out ++ [Line.label s5.next_label] } =
        Except.ok (condition, s7) ∧
      expect 59 s7 = Except.ok ((), s8) ∧
      test_condition condition s8 = Except.ok (end_label, s9) ∧
      end_block fuel s5.stack_size
          { s9 with next_label := s9.next_label + 1,
                    out := s9.out ++ [Line.jmp s9.next_label] } = Except.ok ((), s11) ∧
      expr fuel { s11 with next_label := s11.next_label + 1,
                           out := s11.out ++ [Line.label s11.next_label] } =
        Except.ok (stepv, s13) ∧
      drop stepv s13 = Except.ok ((), s14) ∧
      expect 41 s14 = Except.ok ((), s15) ∧
      end_block fuel s11.stack_size { s15 with out := s15.out ++ [Line.jmp s5.next_label] } =
        Except.ok ((), s17) ∧
      block fuel { s17 with out := s17.out ++ [Line.label s9.next_label] } =
        Except.ok ((), s19) ∧
      sf = { s19 with out := s19.out ++ [Line.jmp s11.next_label] ++ [Line.label end_label] } := by
  unfold for_statement at h
  obtain ⟨_, s1, h1, h⟩ := bind_inv h
  rw [getS_bind] at h
  try dsimp only at h
  obtain ⟨initial, s2, h2, h⟩ := bind_inv h
  obtain ⟨_, s3, h3, h⟩ := bind_inv h
  obtain ⟨_, s4, h4, h⟩ := bind_inv h
  obtain ⟨_, s5, h5, h⟩ := bind_inv h
  rw [getS_bind] at h
  try dsimp only at h
  rw [modifyS_bind, emit_bind] at h
  obtain ⟨condition, s7, h7, h⟩ := bind_inv h
  obtain ⟨_, s8, h8, h⟩ := bind_inv h
  obtain ⟨end_label, s9, h9, h⟩ := bind_inv h
  rw [getS_bind] at h
  try dsimp only at h
  rw [modifyS_bind, emit_bind] at h
  obtain ⟨_, s11, h11, h⟩ := bind_inv h
  rw [getS_bind] at h
  try dsimp only at h
  rw [modifyS_bind, emit_bind] at h
  obtain ⟨stepv, s13, h13, h⟩ := bind_inv h
  obtain ⟨_, s14, h14, h⟩ := bind_inv h
  obtain ⟨_, s15, h15, h⟩ := bind_inv h
  rw [emit_bind] at h
  obtain ⟨_, s17, h17, h⟩ := bind_inv h
  rw [emit_bind] at h
  obtain ⟨_, s19, h19, h⟩ := bind_inv h
  rw [emit_bind] at h
  cases h
  exact ⟨s1, initial, s2, s3, s4, s5, condition, s7, s8, end_label, s9, s11, stepv, s13, s14,
    s15, s17, s19, h1, h2, h3, h4, h5, h7, h8, h9, h11, h13, h14, h15, h17, h19, rfl⟩
/-! ## Labels: the statements and the driver -/

theorem lab_clear_stack_pos (fuel : Nat) (p : Option Nat) :
    Pres Lab (clear_stack_pos fuel p) := by
  induction fuel generalizing p with
  | zero =>
    cases p with
    | none => unfold clear_stack_pos; exact pres_pure lab_refl _
    | some v => unfold clear_stack_pos; exact pres_fail _
  | succ n ih =>
    cases p with
    | none => unfold clear_stack_pos; exact pres_pure lab_refl _
    | some v =>
      unfold clear_stack_pos
      repeat' first
        | with_reducible exact pres_fail _ | with_reducible exact pres_pure lab_refl _
        | with_reducible exact pres_getS lab_refl | with_reducible exact lab_lex
        | with_reducible exact lab_set_locked _ _ | with_reducible exact lab_set_register _ _
        | with_reducible exact lab_setValue _ _ | with_reducible exact lab_calloc
        | with_reducible exact lab_drop _ | with_reducible exact lab_operand _
        | with_reducible exact lab_lookup _ _ | with_reducible exact lab_check _
        | with_reducible exact lab_expect _ | with_reducible exact lab_push _
        | with_reducible exact lab_alloc_register | with_reducible exact lab_load_into _ _
        | with_reducible exact lab_load _ _ | with_reducible exact lab_parse_declaration _
        | with_reducible exact lab_new_result _ _ | with_reducible exact lab_arrange _
        | with_reducible exact lab_align_stack | with_reducible exact lab_drop_values _
        | with_reducible exact lab_emit_call _ _ | with_reducible exact lab_emit_binop _ _ _
        | with_reducible exact lab_expr _ | with_reducible exact ih _
        | with_reducible exact pres_modifyS fun _ => lab_of_eq rfl rfl rfl
        | (with_reducible refine lab_emit _ ?_ ?_) <;> rfl
        | refine pres_bind lab_trans ?_ (fun _ => ?_) | dsimp only | split

theorem lab_end_block (fuel old : Nat) : Pres Lab (end_block fuel old) := by
  unfold end_block
  repeat' first
    | with_reducible exact pres_fail _ | with_reducible exact pres_pure lab_refl _
    | with_reducible exact pres_getS lab_refl | with_reducible exact lab_lex
    | with_reducible exact lab_set_locked _ _ | with_reducible exact lab_set_register _ _
    | with_reducible exact lab_setValue _ _ | with_reducible exact lab_calloc
    | with_reducible exact lab_drop _ | with_reducible exact lab_operand _
    | with_reducible exact lab_lookup _ _ | with_reducible exact lab_check _
    | with_reducible exact lab_expect _ | with_reducible exact lab_push _
    | with_reducible exact lab_alloc_register | with_reducible exact lab_load_into _ _
    | with_reducible exact lab_load _ _ | with_reducible exact lab_parse_declaration _
    | with_reducible exact lab_new_result _ _ | with_reducible exact lab_arrange _
    | with_reducible exact lab_align_stack | with_reducible exact lab_drop_values _
    | with_reducible exact lab_emit_call _ _ | with_reducible exact lab_emit_binop _ _ _
    | with_reducible exact lab_expr _ | with_reducible exact lab_clear_stack_pos _ _
    | with_reducible exact pres_modifyS fun _ => lab_of_eq rfl rfl rfl
    | (with_reducible refine lab_emit _ ?_ ?_) <;> rfl
    | refine pres_bind lab_trans ?_ (fun _ => ?_) | dsimp only | split

theorem lab_return_statement (fuel : Nat) : Pres Lab (return_statement fuel) := by
  unfold return_statement
  repeat' first
    | with_reducible exact pres_fail _ | with_reducible exact pres_pure lab_refl _
    | with_reducible exact pres_getS lab_refl | with_reducible exact lab_lex
    | with_reducible exact lab_set_locked _ _ | with_reducible exact lab_set_register _ _
    | with_reducible exact lab_setValue _ _ | with_reducible exact lab_calloc
    | with_reducible exact lab_drop _ | with_reducible exact lab_operand _
    | with_reducible exact lab_lookup _ _ | with_reducible exact lab_check _
    | with_reducible exact lab_expect _ | with_reducible exact lab_push _
    | with_reducible exact lab_alloc_register | with_reducible exact lab_load_into _ _
    | with_reducible exact lab_load _ _ | with_reducible exact lab_parse_declaration _
    | with_reducible exact lab_new_result _ _ | with_reducible exact lab_arrange _
    | with_reducible exact lab_align_stack | with_reducible exact lab_drop_values _
    | with_reducible exact lab_emit_call _ _ | with_reducible exact lab_emit_binop _ _ _
    | with_reducible exact lab_expr _ | with_reducible exact lab_clear_stack_pos _ _
    | with_reducible exact lab_end_block _ _ | with_reducible exact lab_close_scope _ _
    | with_reducible exact pres_modifyS fun _ => lab_of_eq rfl rfl rfl
    | (with_reducible refine lab_emit _ ?_ ?_) <;> rfl
    | refine pres_bind lab_trans ?_ (fun _ => ?_) | dsimp only | split

theorem lab_local_declaration (fuel var : Nat) : Pres Lab (local_declaration fuel var) := by
  unfold local_declaration
  repeat' first
    | with_reducible exact pres_fail _ | with_reducible exact pres_pure lab_refl _
    | with_reducible exact pres_getS lab_refl | with_reducible exact lab_lex
    | with_reducible exact lab_set_locked _ _ | with_reducible exact lab_set_register _ _
    | with_reducible exact lab_setValue _ _ | with_reducible exact lab_calloc
    | with_reducible exact lab_drop _ | with_reducible exact lab_operand _
    | with_reducible exact lab_lookup _ _ | with_reducible exact lab_check _
    | with_reducible exact lab_expect _ | with_reducible exact lab_push _
    | with_reducible exact lab_alloc_register | with_reducible exact lab_load_into _ _
    | with_reducible exact lab_load _ _ | with_reducible exact lab_parse_declaration _
    | with_reducible exact lab_new_result _ _ | with_reducible exact lab_arrange _
    | with_reducible exact lab_align_stack | with_reducible exact lab_drop_values _
    | with_reducible exact lab_emit_call _ _ | with_reducible exact lab_emit_binop _ _ _
    | with_reducible exact lab_expr _ | with_reducible exact lab_clear_stack_pos _ _
    | with_reducible exact lab_end_block _ _ | with_reducible exact lab_close_scope _ _
    | with_reducible exact pres_modifyS fun _ => lab_of_eq rfl rfl rfl
    | (with_reducible refine lab_emit _ ?_ ?_) <;> rfl
    | refine pres_bind lab_trans ?_ (fun _ => ?_) | dsimp only | split

/-- Lines that define no label and refer only to known ids. -/
theorem labp_lines {K P : List Nat} {s s1 : State} (ls : List Line)
    (h1 : s1.out = s.out ++ ls) (h2 : s1.stringtab = s.stringtab)
    (h3 : s1.next_label = s.next_label) (hd : label_defs ls = [])
    (hr : ∀ r ∈ label_refs ls, r ∈ K) : LabP K P P s s1 := by
  refine ⟨by omega, ls, [], h1, by simp [h2], ?_, ?_⟩
  · simp [hd, h3]
  · intro r hr1
    exact Or.inl (hr r hr1)

/-- The label bookkeeping of `test_condition`: the id it takes waits for its definition. -/
theorem test_condition_labp {K P : List Nat} (c : Nat) (s s1 : State) (l : Nat)
    (h : test_condition c s = Except.ok (l, s1)) (hk : s.next_label ∈ K) :
    l = s.next_label ∧ LabP K P (s.next_label :: P) s s1 ∧ s.next_label < s1.next_label := by
  obtain ⟨hl, g, s2, h1, ho, hn, ht⟩ := test_condition_inv c s s1 l h
  have e0 : LabP K P (s.next_label :: P) s { s with next_label := s.next_label + 1 } :=
    labp_alloc rfl rfl rfl
  have e1 : LabP K (s.next_label :: P) (s.next_label :: P) _ s2 :=
    labp_frame (pres_at h1 (lab_load _ _))
  have e2 : LabP K (s.next_label :: P) (s.next_label :: P) s2 s1 :=
    labp_lines _ ho ht hn rfl (by
      intro r hr
      simp [label_refs, Line.refers] at hr
      subst hr
      exact hk)
  have e := labp_trans _ _ _ e0 (labp_trans _ _ _ e1 e2)
  have hlt : s.next_label + 1 ≤ s1.next_label := (labp_trans _ _ _ e1 e2).1
  exact ⟨hl, e, by omega⟩
/-- The statements define every label they take. -/
theorem lab_stmt_all (fuel : Nat) :
    Pres Lab (if_statement fuel) ∧ Pres Lab (while_statement fuel) ∧
    Pres Lab (for_statement fuel) ∧ Pres Lab (statement fuel) ∧
    Pres Lab (block_loop fuel) ∧ Pres Lab (block fuel) := by
  induction fuel with
  | zero =>
    refine ⟨?_, ?_, ?_, ?_, ?_, ?_⟩
    · unfold if_statement; exact pres_fail _
    · unfold while_statement; exact pres_fail _
    · unfold for_statement; exact pres_fail _
    · unfold statement; exact pres_fail _
    · unfold block_loop; exact pres_fail _
    · unfold block; exact pres_fail _
  | succ n ih =>
    obtain ⟨ih1, ih2, ih3, ih4, ih5, ih6⟩ := ih
    refine ⟨?_, ?_, ?_, ?_, ?_, ?_⟩
    · intro s a sf h
      unfold if_statement at h
      obtain ⟨_, s1, h1, h⟩ := bind_inv h
      rw [getS_bind] at h
      try dsimp only at h
      obtain ⟨c, s2, h2, h⟩ := bind_inv h
      obtain ⟨_, s3, h3, h⟩ := bind_inv h
      obtain ⟨l, s4, h4, h⟩ := bind_inv h
      obtain ⟨_, s5, h5, h⟩ := bind_inv h
      obtain ⟨_, s6, h6, h⟩ := bind_inv h
      cases h
      obtain ⟨hl, e4, hlt⟩ := test_condition_labp (K := [s3.next_label]) (P := []) _ _ _ _ h4
        (by simp)
      subst hl
      have a03 : Lab s s3 := lab_trans _ _ _ (pres_at h1 (lab_expect _))
        (lab_trans _ _ _ (pres_at h2 (lab_expr _)) (pres_at h3 (lab_expect _)))
      have a46 : Lab s4 s6 := lab_trans _ _ _ (pres_at h5 (lab_end_block _ _)) (pres_at h6 ih6)
      have e7 : LabP [s3.next_label] [s3.next_label] [] s6
          { s6 with out := s6.out ++ [Line.label s3.next_label] } := labp_def _ rfl rfl rfl
      have h03 := a03.1
      have h46 := a46.1
      refine labp_close (labp_trans _ _ _ (labp_frame a03) (labp_trans _ _ _ e4
        (labp_trans _ _ _ (labp_frame a46) e7))) ?_
      intro k hk
      simp at hk
      subst hk
      exact ⟨h03, Nat.lt_of_lt_of_le hlt h46⟩
    · intro s a sf h
      unfold while_statement at h
      obtain ⟨_, s1, h1, h⟩ := bind_inv h
      rw [getS_bind] at h
      try dsimp only at h
      rw [modifyS_bind, emit_bind] at h
      obtain ⟨c, s3, h3, h⟩ := bind_inv h
      obtain ⟨_, s4, h4, h⟩ := bind_inv h
      obtain ⟨l, s5, h5, h⟩ := bind_inv h
      obtain ⟨_, s6, h6, h⟩ := bind_inv h
      obtain ⟨_, s7, h7, h⟩ := bind_inv h
      rw [emit_bind] at h
      cases h
      obtain ⟨hl, e5, hlt⟩ := test_condition_labp (K := [s1.next_label, s4.next_label])
        (P := []) _ _ _ _ h5 (by simp)
      subst hl
      have a01 : Lab s s1 := pres_at h1 (lab_expect _)
      have b1 : LabP [s1.next_label, s4.next_label] [] [s1.next_label] s1
          { s1 with next_label := s1.next_label + 1 } := labp_alloc rfl rfl rfl
      have b2 : LabP [s1.next_label, s4.next_label] [s1.next_label] []
          { s1 with next_label := s1.next_label + 1 }
          { s1 with next_label := s1.next_label + 1,
                    out := s1.out ++ [Line.label s1.next_label] } := labp_def _ rfl rfl rfl
      have a24 : Lab _ s4 := lab_trans _ _ _ (pres_at h3 (lab_expr _)) (pres_at h4 (lab_expect _))
      have a57 : Lab s5 s7 := lab_trans _ _ _ (pres_at h6 (lab_end_block _ _)) (pres_at h7 ih6)
      have b8 : LabP [s1.next_label, s4.next_label] [s4.next_label] [s4.next_label] s7
          { s7 with out := s7.out ++ [Line.jmp s1.next_label] } :=
        labp_lines _ rfl rfl rfl rfl (by
          intro r hr
          simp [label_refs, Line.refers] at hr
          subst hr
          simp)
      have b9 : LabP [s1.next_label, s4.next_label] [s4.next_label] []
          { s7 with out := s7.out ++ [Line.jmp s1.next_label] }
          { s7 with out := s7.out ++ [Line.jmp s1.next_label] ++ [Line.label s4.next_label] } :=
        labp_def _ rfl rfl rfl
      have h01 := a01.1
      have h24 := a24.1
      have h57 := a57.1
      have hx : s1.next_label + 1 ≤ s4.next_label := h24
      refine labp_close (labp_trans _ _ _ (labp_frame a01) (labp_trans _ _ _ b1
        (labp_trans _ _ _ b2 (labp_trans _ _ _ (labp_frame a24) (labp_trans _ _ _ e5
        (labp_trans _ _ _ (labp_frame a57) (labp_trans _ _ _ b8 b9))))))) ?_
      intro k hk
      have hf : s5.next_label ≤ s7.next_label := h57
      simp only [List.mem_cons, List.mem_singleton, List.not_mem_nil, or_false] at hk
      show s.next_label ≤ k ∧ k < s7.next_label
      rcases hk with hk | hk <;> subst hk <;> constructor <;> omega
    · intro s a sf h
      obtain ⟨s1, initial, s2, s3, s4, s5, condition, s7, s8, end_label, s9, s11, stepv, s13,
        s14, s15, s17, s19, h1, h2, h3, h4, h5, h7, h8, h9, h11, h13, h14, h15, h17, h19, hf⟩ :=
        for_statement_inv n s sf h
      obtain ⟨hl, e9, hlt⟩ := test_condition_labp
        (K := [s5.next_label, s8.next_label, s9.next_label, s11.next_label])
        (P := []) _ _ _ _ h9 (by simp)
      subst hl
      have a05 : Lab s s5 := lab_trans _ _ _ (pres_at h1 (lab_expect _))
        (lab_trans _ _ _ (pres_at h2 (lab_expr _)) (lab_trans _ _ _ (pres_at h3 (lab_drop _))
        (lab_trans _ _ _ (pres_at h4 (lab_expect _)) (pres_at h5 (lab_end_block _ _)))))
      have b1 : LabP [s5.next_label, s8.next_label, s9.next_label, s11.next_label] []
          [s5.next_label] s5 { s5 with next_label := s5.next_label + 1 } :=
        labp_alloc rfl rfl rfl
      have b2 : LabP [s5.next_label, s8.next_label, s9.next_label, s11.next_label]
          [s5.next_label] [] { s5 with next_label := s5.next_label + 1 }
          { s5 with next_label := s5.next_label + 1,
                    out := s5.out ++ [Line.label s5.next_label] } := labp_def _ rfl rfl rfl
      have a68 : Lab _ s8 := lab_trans _ _ _ (pres_at h7 (lab_expr _)) (pres_at h8 (lab_expect _))
      have b3 : LabP [s5.next_label, s8.next_label, s9.next_label, s11.next_label]
          [s8.next_label] [s9.next_label, s8.next_label] s9
          { s9 with next_label := s9.next_label + 1 } := labp_alloc rfl rfl rfl
      have b4 : LabP [s5.next_label, s8.next_label, s9.next_label, s11.next_label]
          [s9.next_label, s8.next_label] [s9.next_label, s8.next_label]
          { s9 with next_label := s9.next_label + 1 }
          { s9 with next_label := s9.next_label + 1,
                    out := s9.out ++ [Line.jmp s9.next_label] } :=
        labp_lines _ rfl rfl rfl rfl (by
          intro r hr
          simp [label_refs, Line.refers] at hr
          subst hr
          simp)
      have a1011 : Lab _ s11 := pres_at h11 (lab_end_block _ _)
      have b5 : LabP [s5.next_label, s8.next_label, s9.next_label, s11.next_label]
          [s9.next_label, s8.next_label] [s11.next_label, s9.next_label, s8.next_label] s11
          { s11 with next_label := s11.next_label + 1 } := labp_alloc rfl rfl rfl
      have b6 : LabP [s5.next_label, s8.next_label, s9.next_label, s11.next_label]
          [s11.next_label, s9.next_label, s8.next_label] [s9.next_label, s8.next_label]
          { s11 with next_label := s11.next_label + 1 }
          { s11 with next_label := s11.next_label + 1,
                     out := s11.out ++ [Line.label s11.next_label] } := labp_def _ rfl rfl rfl
      have a1215 : Lab _ s15 := lab_trans _ _ _ (pres_at h13 (lab_expr _))
        (lab_trans _ _ _ (pres_at h14 (lab_drop _)) (pres_at h15 (lab_expect _)))
      have b7 : LabP [s5.next_label, s8.next_label, s9.next_label, s11.next_label]
          [s9.next_label, s8.next_label] [s9.next_label, s8.next_label] s15
          { s15 with out := s15.out ++ [Line.jmp s5.next_label] } :=
        labp_lines _ rfl rfl rfl rfl (by
          intro r hr
          simp [label_refs, Line.refers] at hr
          subst hr
          simp)
      have a1617 : Lab _ s17 := pres_at h17 (lab_end_block _ _)
      have b8 : LabP [s5.next_label, s8.next_label, s9.next_label, s11.next_label]
          [s9.next_label, s8.next_label] [s8.next_label] s17
          { s17 with out := s17.out ++ [Line.label s9.next_label] } := labp_def _ rfl rfl rfl
      have a1819 : Lab _ s19 := pres_at h19 ih6
      have b9 : LabP [s5.next_label, s8.next_label, s9.next_label, s11.next_label]
          [s8.next_label] [s8.next_label] s19
          { s19 with out := s19.out ++ [Line.jmp s11.next_label] } :=
        labp_lines _ rfl rfl rfl rfl (by
          intro r hr
          simp [label_refs, Line.refers] at hr
          subst hr
          simp)
      have b10 : LabP [s5.next_label, s8.next_label, s9.next_label, s11.next_label]
          [s8.next_label] []
          { s19 with out := s19.out ++ [Line.jmp s11.next_label] }
          { s19 with out := s19.out ++ [Line.jmp s11.next_label] ++ [Line.label s8.next_label] } :=
        labp_def _ rfl rfl rfl
      have g1 := a05.1
      have g2 : s5.next_label + 1 ≤ s8.next_label := a68.1
      have g3 : s9.next_label + 1 ≤ s11.next_label := a1011.1
      have g4 : s11.next_label + 1 ≤ s15.next_label := a1215.1
      have g5 : s15.next_label ≤ s17.next_label := a1617.1
      have g6 : s17.next_label ≤ s19.next_label := a1819.1
      rw [hf]
      refine labp_close (labp_trans _ _ _ (labp_frame a05) (labp_trans _ _ _ b1
        (labp_trans _ _ _ b2 (labp_trans _ _ _ (labp_frame a68) (labp_trans _ _ _ e9
        (labp_trans _ _ _ b3 (labp_trans _ _ _ b4 (labp_trans _ _ _ (labp_frame a1011)
        (labp_trans _ _ _ b5 (labp_trans _ _ _ b6 (labp_trans _ _ _ (labp_frame a1215)
        (labp_trans _ _ _ b7 (labp_trans _ _ _ (labp_frame a1617) (labp_trans _ _ _ b8
        (labp_trans _ _ _ (labp_frame a1819) (labp_trans _ _ _ b9 b10)))))))))))))))) ?_
      intro k hk
      simp only [List.mem_cons, List.mem_singleton, List.not_mem_nil, or_false] at hk
      show s.next_label ≤ k ∧ k < s19.next_label
      rcases hk with hk | hk | hk | hk <;> subst hk <;> constructor <;> omega
    · unfold statement
      repeat' first
        | with_reducible exact pres_fail _ | with_reducible exact pres_pure lab_refl _
        | with_reducible exact pres_getS lab_refl | with_reducible exact lab_lex
        | with_reducible exact lab_set_locked _ _ | with_reducible exact lab_set_register _ _
        | with_reducible exact lab_setValue _ _ | with_reducible exact lab_calloc
        | with_reducible exact lab_drop _ | with_reducible exact lab_operand _
        | with_reducible exact lab_lookup _ _ | with_reducible exact lab_check _
        | with_reducible exact lab_expect _ | with_reducible exact lab_push _
        | with_reducible exact lab_alloc_register | with_reducible exact lab_load_into _ _
        | with_reducible exact lab_load _ _ | with_reducible exact lab_parse_declaration _
        | with_reducible exact lab_new_result _ _ | with_reducible exact lab_arrange _
        | with_reducible exact lab_align_stack | with_reducible exact lab_drop_values _
        | with_reducible exact lab_emit_call _ _ | with_reducible exact lab_emit_binop _ _ _
        | with_reducible exact lab_expr _ | with_reducible exact lab_clear_stack_pos _ _
        | with_reducible exact lab_end_block _ _ | with_reducible exact lab_close_scope _ _
        | with_reducible exact lab_return_statement _
        | with_reducible exact lab_local_declaration _ _ | with_reducible exact ih1
        | with_reducible exact ih2 | with_reducible exact ih3 | with_reducible exact ih4
        | with_reducible exact ih5 | with_reducible exact ih6
        | with_reducible exact pres_modifyS fun _ => lab_of_eq rfl rfl rfl
        | (with_reducible refine lab_emit _ ?_ ?_) <;> rfl
        | refine pres_bind lab_trans ?_ (fun _ => ?_) | dsimp only | split
    · unfold block_loop
      repeat' first
        | with_reducible exact pres_fail _ | with_reducible exact pres_pure lab_refl _
        | with_reducible exact pres_getS lab_refl | with_reducible exact lab_lex
        | with_reducible exact lab_set_locked _ _ | with_reducible exact lab_set_register _ _
        | with_reducible exact lab_setValue _ _ | with_reducible exact lab_calloc
        | with_reducible exact lab_drop _ | with_reducible exact lab_operand _
        | with_reducible exact lab_lookup _ _ | with_reducible exact lab_check _
        | with_reducible exact lab_expect _ | with_reducible exact lab_push _
        | with_reducible exact lab_alloc_register | with_reducible exact lab_load_into _ _
        | with_reducible exact lab_load _ _ | with_reducible exact lab_parse_declaration _
        | with_reducible exact lab_new_result _ _ | with_reducible exact lab_arrange _
        | with_reducible exact lab_align_stack | with_reducible exact lab_drop_values _
        | with_reducible exact lab_emit_call _ _ | with_reducible exact lab_emit_binop _ _ _
        | with_reducible exact lab_expr _ | with_reducible exact lab_clear_stack_pos _ _
        | with_reducible exact lab_end_block _ _ | with_reducible exact lab_close_scope _ _
        | with_reducible exact lab_return_statement _
        | with_reducible exact lab_local_declaration _ _ | with_reducible exact ih4
        | with_reducible exact ih5
        | with_reducible exact pres_modifyS fun _ => lab_of_eq rfl rfl rfl
        | (with_reducible refine lab_emit _ ?_ ?_) <;> rfl
        | refine pres_bind lab_trans ?_ (fun _ => ?_) | dsimp only | split
    · unfold block
      repeat' first
        | with_reducible exact pres_fail _ | with_reducible exact pres_pure lab_refl _
        | with_reducible exact pres_getS lab_refl | with_reducible exact lab_lex
        | with_reducible exact lab_set_locked _ _ | with_reducible exact lab_set_register _ _
        | with_reducible exact lab_setValue _ _ | with_reducible exact lab_calloc
        | with_reducible exact lab_drop _ | with_reducible exact lab_operand _
        | with_reducible exact lab_lookup _ _ | with_reducible exact lab_check _
        | with_reducible exact lab_expect _ | with_reducible exact lab_push _
        | with_reducible exact lab_alloc_register | with_reducible exact lab_load_into _ _
        | with_reducible exact lab_load _ _ | with_reducible exact lab_parse_declaration _
        | with_reducible exact lab_new_result _ _ | with_reducible exact lab_arrange _
        | with_reducible exact lab_align_stack | with_reducible exact lab_drop_values _
        | with_reducible exact lab_emit_call _ _ | with_reducible exact lab_emit_binop _ _ _
        | with_reducible exact lab_expr _ | with_reducible exact lab_clear_stack_pos _ _
        | with_reducible exact lab_end_block _ _ | with_reducible exact lab_close_scope _ _
        | with_reducible exact lab_return_statement _
        | with_reducible exact lab_local_declaration _ _ | with_reducible exact ih4
        | with_reducible exact ih5
        | with_reducible exact pres_modifyS fun _ => lab_of_eq rfl rfl rfl
        | (with_reducible refine lab_emit _ ?_ ?_) <;> rfl
        | refine pres_bind lab_trans ?_ (fun _ => ?_) | dsimp only | split

theorem lab_block (fuel : Nat) : Pres Lab (block fuel) := (lab_stmt_all fuel).2.2.2.2.2
/-- C1. Call-site alignment: from every state, the alignment step of `function_call` returns a
state whose `stack_size + 8` is a multiple of 16 (also when the depth is read as a `size_t`,
modulo `2^64`). If `(d + 8) mod 16` is non-zero for the entry depth `d`, exactly the line
`sub $p, %rsp` with `p = 16 - (d + 8) mod 16` is printed and the depth grows by `p`; if it is
zero, nothing is printed and the depth is unchanged; nothing else changes. The state that the
alignment step returns is the one in which `function_call` prints its `call` line: the line
is the next one printed, and the depth in force is that one. -/
theorem align_stack_spec (s : State) :
    (∃ s1, align_stack s = Except.ok ((), s1) ∧
      (s1.stack_size + 8) % 16 = 0 ∧ (s1.stack_size % 2 ^ 64 + 8) % 16 = 0 ∧
      ((s.stack_size + 8) % 16 ≠ 0 →
        s1 = { s with out := s.out ++ [Line.sub_rsp (16 - (s.stack_size + 8) % 16)],
                      stack_size := s.stack_size + (16 - (s.stack_size + 8) % 16) } ∧
        (Line.sub_rsp (16 - (s.stack_size + 8) % 16)).render =
          "\tsub $" ++ toString (16 - (s.stack_size + 8) % 16) ++ ", %rsp\n") ∧
      ((s.stack_size + 8) % 16 = 0 → s1 = s)) ∧
    (∀ fn values s2, emit_call fn values s = Except.ok ((), s2) →
      ∃ s0 s1 id, arrange values s = Except.ok ((), s0) ∧
        align_stack s0 = Except.ok ((), s1) ∧ (s1.stack_size + 8) % 16 = 0 ∧
        s2.out = s1.out ++ [Line.call id] ∧ s2.stack_size = s1.stack_size) := by
  have hstep : ∀ t : State, ∃ t1, align_stack t = Except.ok ((), t1) ∧
      (t1.stack_size + 8) % 16 = 0 ∧
      ((t.stack_size + 8) % 16 ≠ 0 →
        t1 = { t with out := t.out ++ [Line.sub_rsp (16 - (t.stack_size + 8) % 16)],
                      stack_size := t.stack_size + (16 - (t.stack_size + 8) % 16) } ∧
        (Line.sub_rsp (16 - (t.stack_size + 8) % 16)).render =
          "\tsub $" ++ toString (16 - (t.stack_size + 8) % 16) ++ ", %rsp\n") ∧
      ((t.stack_size + 8) % 16 = 0 → t1 = t) := by
    intro t
    unfold align_stack
    by_cases h : (t.stack_size + 8) % 16 = 0
    · refine ⟨t, ?_, h, fun hne => absurd h hne, fun _ => rfl⟩
      simp [h]
    · refine ⟨_, ?_, ?_, fun _ => ⟨rfl, rfl⟩, fun h0 => absurd h0 h⟩
      · have hpos : 0 < (t.stack_size + 8) % 16 := Nat.pos_of_ne_zero h
        simp [hpos]
      · show (t.stack_size + (16 - (t.stack_size + 8) % 16) + 8) % 16 = 0
        omega
  refine ⟨?_, ?_⟩
  · obtain ⟨s1, h1, h2, h3, h4⟩ := hstep s
    refine ⟨s1, h1, h2, ?_, h3, h4⟩
    have h64 : (2 : Nat) ^ 64 = 16 * 1152921504606846976 := by norm_num
    rw [h64]
    omega
  intro fn values s2 h
  unfold emit_call at h
  obtain ⟨_, s0, harr, h⟩ := bind_inv h
  obtain ⟨_, s1, hal, h⟩ := bind_inv h
  obtain ⟨t1, ht1, hmod, _, _⟩ := hstep s0
  rw [hal] at ht1
  cases ht1
  rw [getS_bind] at h
  cases hid : (s1.heap fn).ident with
  | none => rw [hid] at h; cases h
  | some id =>
    rw [hid] at h
    dsimp only at h
    rw [emit_bind] at h
    obtain ⟨ho, hs⟩ := drop_values_inv _ _ _ h
    exact ⟨s0, s1, id, harr, hal, hmod, ho, hs⟩

/-! ## C2: placement of the call arguments -/

/-- C2. Argument placement. For a call with `n ≤ 6` argument values `args` (positions
`0 .. n-1` of `values[]` filled, the rest `NULL`): if every argument has type pointer, `char`
or `int` and is held somewhere, the arrangement loop of `function_call` finishes; and whenever
it finishes, slot `RDI - i` holds argument `i` for every `i < n`, every slot `RDI - i` with
`n ≤ i ≤ 5` is empty, and no value is lost (every value that had a copy before the loop still
has one, the evicted occupants included). At a position without argument the loop's step on
an occupied slot is `push` of that slot. -/
theorem arrange_spec (values : Nat → Option Nat) (args : List Nat)
    (hn : args.length ≤ MAX_REG) (hvals : ∀ i, values i = args.get? i) (s : State) :
    ((∀ v, v ∈ args → Loadable s v) → ∃ s1, arrange values s = Except.ok ((), s1)) ∧
    (∀ s1, arrange values s = Except.ok ((), s1) →
      (∀ i v, args.get? i = some v → s1.registers (RDI - i) = some v) ∧
      (∀ i, args.length ≤ i → i ≤ RDI → s1.registers (RDI - i) = none) ∧
      (∀ w, 1 ≤ copies s w → 1 ≤ copies s1 w)) ∧
    (∀ i, args.length ≤ i → ∀ t : State, t.registers (RDI - i) ≠ none →
      arrange_step values i t = push (RDI - i) t) := by
  have hveq : values = values_of args := funext hvals
  subst hveq
  have hnone : ∀ i, args.length ≤ i → values_of args i = none := by
    intro i hi
    unfold values_of
    exact List.get?_eq_none.mpr hi
  refine ⟨?_, ?_, ?_⟩
  · intro hload
    unfold arrange
    apply arrange_list_ok
    intro i v hv
    exact hload v (List.get?_mem hv)
  · intro s1 h
    unfold arrange at h
    obtain ⟨hall, _, hcop⟩ := arrange_list_spec (values_of args) (List.range MAX_REG)
      (List.nodup_range MAX_REG) (fun i hi => by
        have h6 : i < 6 := List.mem_range.mp hi
        show i ≤ 5
        omega) s s1 h
    refine ⟨?_, ?_, hcop⟩
    · intro i v hv
      have hi : i < args.length := by
        by_contra hge
        rw [List.get?_eq_none.mpr (by omega)] at hv
        cases hv
      have h6 : i < 6 := by
        have : args.length ≤ 6 := hn
        omega
      rw [hall i (List.mem_range.mpr h6)]
      exact hv
    · intro i hni hi
      have h6 : i < 6 := by
        have : i ≤ 5 := hi
        omega
      rw [hall i (List.mem_range.mpr h6), hnone i hni]
  · intro i hni t ht
    unfold arrange_step
    rw [hnone i hni]
    simp only
    rw [getS_bind, if_pos ht]

/-- C2 at a concrete input: the call `f(7, t)` with the parameter `a` in `%rdi`, a
temporary in `%rsi` and `t` in `%rax`. Afterwards `%rdi` holds the constant, `%rsi` holds `t`
and the other four slots are empty; the temporary of `%rsi` was pushed. -/
theorem arrange_spec_witness :
    ∃ s1, arrange (values_of [3, 2]) st_call = Except.ok ((), s1) ∧
      s1.registers RDI = some 3 ∧ s1.registers RSI = some 2 ∧
      s1.registers RDX = none ∧ s1.registers RCX = none ∧ s1.registers RBX = none ∧
      s1.registers RAX = none ∧
      s1.out = [Line.mov "$7" "%rdi", Line.push "%rsi", Line.mov "%rax" "%rsi"] := by
  have hout : (final (arrange (values_of [3, 2]) st_call)).map (fun s => s.out) =
      some [Line.mov "$7" "%rdi", Line.push "%rsi", Line.mov "%rax" "%rsi"] := by decide
  have hspec := arrange_spec (values_of [3, 2]) [3, 2] (by decide) (fun _ => rfl) st_call
  obtain ⟨s1, hrun⟩ := hspec.1 (by
    intro v hv
    have hv2 : v = 3 ∨ v = 2 := by simpa using hv
    rcases hv2 with rfl | rfl
    · exact ⟨Or.inr (Or.inr (by decide)), by decide⟩
    · exact ⟨Or.inr (Or.inr (by decide)), by decide⟩)
  rw [hrun] at hout
  simp [final] at hout
  obtain ⟨h1, h2, _⟩ := hspec.2.1 s1 hrun
  exact ⟨s1, hrun, h1 0 3 rfl, h1 1 2 rfl, h2 2 (by decide) (by decide),
    h2 3 (by decide) (by decide), h2 4 (by decide) (by decide),
    h2 5 (by decide) (by decide), hout⟩

/-! ## C3: a block restores its scope -/

/-- C3. Scope restore. Whenever `block()` returns (braced block or single statement, whatever
was declared, spilled, padded or nested inside), the symbol table head and `stack_size` are
equal to their values at the entry of `block()`; and whenever `statement()` returns,
`stack_size` is not below its value at the entry of the statement. -/
theorem scope_restore (fuel : Nat) :
    (∀ s s1, block fuel s = Except.ok ((), s1) →
      s1.symtab = s.symtab ∧ s1.stack_size = s.stack_size) ∧
    (∀ s s1, statement fuel s = Except.ok ((), s1) → s.stack_size ≤ s1.stack_size) :=
  ⟨(stmt_all fuel).2.2.2.2.2, fun s s1 h => (stmt_all fuel).2.2.2.1 s () s1 h⟩

/-- C3 at a concrete input: the block `{ int a; f(); if (a) { int b; b = f(); } }` in the body
of `main`. Two declarations, two paddings and a nested block later the block returns with the
symbol table head at `main` and the depth at 8, after `add $16, %rsp`. -/
theorem scope_restore_witness :
    ∃ s1, block 40 (st_body "\x7b int a; f(); if (a) \x7b int b; b = f(); \x7d \x7d") =
        Except.ok ((), s1) ∧
      s1.symtab = some 1 ∧ s1.stack_size = 8 ∧
      s1.out = [Line.sub_rsp 8, Line.sub_rsp 8, Line.call "f", Line.mov "8(%rsp)" "%rax",
        Line.or "%rax" "%rax", Line.jz 100, Line.sub_rsp 8, Line.sub_rsp 8, Line.call "f",
        Line.mov "%rax" "8(%rsp)", Line.add_rsp 16, Line.label 100, Line.add_rsp 16] := by
  have hout : (final (block 40 (st_body "\x7b int a; f(); if (a) \x7b int b; b = f(); \x7d \x7d"))).map
      (fun s => s.out) =
      some [Line.sub_rsp 8, Line.sub_rsp 8, Line.call "f", Line.mov "8(%rsp)" "%rax",
        Line.or "%rax" "%rax", Line.jz 100, Line.sub_rsp 8, Line.sub_rsp 8, Line.call "f",
        Line.mov "%rax" "8(%rsp)", Line.add_rsp 16, Line.label 100, Line.add_rsp 16] := by
    decide!
  cases hrun : block 40 (st_body "\x7b int a; f(); if (a) \x7b int b; b = f(); \x7d \x7d") with
  | error e => rw [hrun] at hout; cases hout
  | ok p =>
    obtain ⟨u, s1⟩ := p
    rw [hrun] at hout
    simp [final] at hout
    obtain ⟨h1, h2⟩ := (scope_restore 40).1 _ _ hrun
    exact ⟨s1, rfl, h1, h2, hout⟩

/-! ## C4: the stack depth at statement boundaries -/

/-- C5 fails on the code. In `int f(); int main(){ int a; if (f()) a = 1; return 0; }` the
condition `f()` needs 8 bytes of call padding. The `add $8, %rsp` that undoes it is printed
after `jz l100`, so it is skipped when the jump is taken: up to `l100:` the stack pointer has
moved by -24 on the taken path and by -16 on the fall-through path, while the code after
`l100:` is generated for a `stack_size` of 16. -/
theorem if_paths_disagree :
    compile 40 "int f(); int main()\x7b int a; if (f()) a = 1; return 0; \x7d" =
      Except.ok [Line.text, Line.global "main", Line.entry "main", Line.push_rbx,
        Line.sub_rsp 8, Line.sub_rsp 8, Line.call "f", Line.or "%rax" "%rax", Line.jz 100,
        Line.add_rsp 8, Line.mov "$1" "%rax", Line.mov "%rax" "0(%rsp)", Line.label 100,
        Line.mov "$0" "%rax", Line.add_rsp 8, Line.pop_rbx, Line.ret,
        Line.add_rsp 8, Line.pop_rbx, Line.ret, Line.data] ∧
    (compile 40 "int f(); int main()\x7b int a; if (f()) a = 1; return 0; \x7d").map
        (fun ls => (sp_adjust (path_taken ls 100), sp_adjust (path_through ls 100))) =
      Except.ok (-24, -16) := by
  refine ⟨by decide!, by decide!⟩

/-! ## C6: `push` -/

/-- C6 as stated fails: with `%rax` holding a local variable that also has its stack slot
(`copies = 2`), `push(RAX)` returns without printing any line. -/
theorem push_prints_nothing_when_copied :
    st_local_in_rax.registers RAX = some 0 ∧ copies st_local_in_rax 0 = 2 ∧
      (final (push RAX st_local_in_rax)).map (fun s => s.out) = some st_local_in_rax.out := by
  decide

/-- C6, amended. `push(reg)` on a register that holds `v` always returns. If `copies(v) = 1`
it prints exactly the line `push <reg>`, `stack_size` grows by 8 and `stack_pos` of `v` becomes the
new `stack_size` (no other field of the heap changes). Otherwise it prints nothing and neither
`stack_size` nor the heap changes. In both cases the slot `reg` is empty afterwards, no other
slot changes, and the locks are untouched. -/
theorem push_spec (s : State) (reg v : Nat) (h : s.registers reg = some v) :
    ∃ s1, push reg s = Except.ok ((), s1) ∧
      (copies s v = 1 →
        s1.out = s.out ++ [Line.push (reg_names reg)] ∧
        s1.stack_size = s.stack_size + 8 ∧
        s1.heap = Function.update s.heap v { s.heap v with stack_pos := s.stack_size + 8 }) ∧
      (copies s v ≠ 1 → s1.out = s.out ∧ s1.stack_size = s.stack_size ∧ s1.heap = s.heap) ∧
      s1.registers reg = none ∧ (∀ r, r ≠ reg → s1.registers r = s.registers r) ∧
      s1.reg_locked = s.reg_locked :=
  push_effect s reg v h

/-- C6, amended, at a concrete input: a temporary held only by `%rax` is pushed. -/
theorem push_spec_witness :
    ∃ s1, push RAX st_temp_in_rax = Except.ok ((), s1) ∧
      s1.out = [Line.push "%rax"] ∧ s1.stack_size = 16 ∧ (s1.heap 0).stack_pos = 16 ∧
      s1.registers RAX = none := by
  obtain ⟨s1, h1, h2, _, h4, _, _⟩ := push_spec st_temp_in_rax RAX 0 (by decide)
  obtain ⟨ho, hs, hh⟩ := h2 (by decide)
  refine ⟨s1, h1, ?_, ?_, ?_, h4⟩
  · rw [ho]; rfl
  · rw [hs]; rfl
  · rw [hh]; simp [st_temp_in_rax]

/-! ## C7: parameters in registers -/

/-- C7 fails on the code. In `int g(int x); int f(int a){ g(1); return a; }` the call
`g(1)` loads the constant into `%rdi`, which holds the parameter `a`. No `push` is printed for
the evicted parameter, and `return a` then reads the bare identifier `a`. At the level of
`push`: with the named parameter in `%rdi` (and nowhere else) `copies` is 999, `push(RDI)`
prints nothing and leaves `stack_size` and `stack_pos` alone, and `asm_operand` afterwards is
the identifier. -/
theorem parameter_not_spilled :
    compile 40 "int g(int x); int f(int a)\x7b g(1); return a; \x7d" =
      Except.ok [Line.text, Line.global "f", Line.entry "f", Line.push_rbx,
        Line.mov "$1" "%rdi", Line.call "g", Line.mov "a" "%rax",
        Line.pop_rbx, Line.ret, Line.pop_rbx, Line.ret, Line.data] ∧
    st_call.registers RDI = some 0 ∧ (st_call.heap 0).ident = some "a" ∧
    (st_call.heap 0).stack_pos = 0 ∧ copies st_call 0 = 999 ∧
    (final (push RDI st_call)).map
        (fun s => (s.out, s.stack_size, (s.heap 0).stack_pos, asm_operand s 0)) =
      some ([], 8, 0, Except.ok "a") := by
  refine ⟨by decide!, by decide, by decide, by decide, by decide, by decide!⟩

/-! ## C8: `alloc_register` -/

/-- C8. `alloc_register` from every register-file state: if some slot is empty it returns the
lowest-indexed empty slot and changes nothing; otherwise, if some slot is unlocked, it returns
the highest-indexed unlocked slot after `push` of that slot, which is then empty; and it ends
with an error exactly when all six slots are occupied and all six are locked (the error is
`unable to allocate a register`). -/
theorem alloc_register_spec (s : State) :
    ((∃ i, i < MAX_REG ∧ s.registers i = none) →
      ∃ i, alloc_register s = Except.ok (i, s) ∧ i < MAX_REG ∧ s.registers i = none ∧
        ∀ j, j < i → s.registers j ≠ none) ∧
    ((∀ i, i < MAX_REG → s.registers i ≠ none) → (∃ i, i < MAX_REG ∧ s.reg_locked i = false) →
      ∃ i s1, alloc_register s = Except.ok (i, s1) ∧ i < MAX_REG ∧ s.reg_locked i = false ∧
        (∀ j, i < j → j < MAX_REG → s.reg_locked j = true) ∧
        push i s = Except.ok ((), s1) ∧ s1.registers i = none) ∧
    ((∃ e, alloc_register s = Except.error e) ↔
      ∀ i, i < MAX_REG → s.registers i ≠ none ∧ s.reg_locked i = true) ∧
    (∀ e, alloc_register s = Except.error e → e = Err.error "unable to allocate a register") := by
  cases hf : (List.range MAX_REG).find? fun i => s.registers i == none with
  | some i =>
    obtain ⟨hi, hp, hlow⟩ := find_range_some _ _ _ hf
    have hi0 : s.registers i = none := by simpa using hp
    have hrun := alloc_register_free s i hf
    refine ⟨fun _ => ⟨i, hrun, hi, hi0, ?_⟩, ?_, ?_, ?_⟩
    · intro j hj; simpa using hlow j hj
    · intro hall; exact absurd hi0 (hall i hi)
    · constructor
      · rintro ⟨e, he⟩; rw [hrun] at he; cases he
      · intro hall; exact absurd hi0 (hall i hi).1
    · intro e he; rw [hrun] at he; cases he
  | none =>
    have hocc : ∀ j, j < MAX_REG → s.registers j ≠ none := by
      intro j hj; simpa using find_range_none _ _ hf j hj
    cases hl : (List.range MAX_REG).reverse.find? fun i => !s.reg_locked i with
    | some i =>
      obtain ⟨hi, hp, hhigh⟩ := find_range_rev_some _ _ _ hl
      have hunl : s.reg_locked i = false := by simpa using hp
      obtain ⟨v, hv⟩ := Option.ne_none_iff_exists'.mp (hocc i hi)
      obtain ⟨s1, hpush, _, _, hempty, _, _⟩ := push_effect s i v hv
      have hrun : alloc_register s = Except.ok (i, s1) := by
        rw [alloc_register_spill s i hf hl, bind_ok _ _ _ _ _ hpush]; rfl
      refine ⟨?_, fun _ _ => ⟨i, s1, hrun, hi, hunl, ?_, hpush, hempty⟩, ?_, ?_⟩
      · rintro ⟨j, hj, hj0⟩; exact absurd hj0 (hocc j hj)
      · intro j hij hj; simpa using hhigh j hij hj
      · constructor
        · rintro ⟨e, he⟩; rw [hrun] at he; cases he
        · intro hall; rw [(hall i hi).2] at hunl; cases hunl
      · intro e he; rw [hrun] at he; cases he
    | none =>
      have hlocked : ∀ j, j < MAX_REG → s.reg_locked j = true := by
        intro j hj; simpa using find_range_rev_none _ _ hl j hj
      have hrun := alloc_register_abort s hf hl
      refine ⟨?_, ?_, ?_, ?_⟩
      · rintro ⟨j, hj, hj0⟩; exact absurd hj0 (hocc j hj)
      · rintro _ ⟨j, hj, hj0⟩; rw [hlocked j hj] at hj0; cases hj0
      · exact ⟨fun _ j hj => ⟨hocc j hj, hlocked j hj⟩, fun _ => ⟨_, hrun⟩⟩
      · intro e he; rw [hrun] at he; cases he; rfl

/-- C8 at concrete inputs: with `%rax` occupied and the rest empty the result is `%rbx`;
with all six occupied and `%rdi`, `%rsi` locked the result is `%rdx`, pushed; with all six
occupied and locked the run ends with the error. -/
theorem alloc_register_examples :
    result (alloc_register st_temp_in_rax) = some RBX ∧
    result (alloc_register st_full) = some RDX ∧
    (final (alloc_register st_full)).map (fun s => (s.out, s.registers RDX, s.stack_size)) =
      some ([Line.push "%rdx"], none, 16) ∧
    alloc_register { st_full with reg_locked := fun _ => true } =
      Except.error (Err.error "unable to allocate a register") := by
  refine ⟨by decide, by decide, by decide, ?_⟩
  have hs := alloc_register_spec { st_full with reg_locked := fun _ => true }
  obtain ⟨e, he⟩ := hs.2.2.1.mpr (by
    intro i hi
    have hi6 : i < 6 := hi
    simp [st_full, hi6])
  rw [he, hs.2.2.2 e he]

/-! ## C9: `asm_operand` -/

/-- C9 as stated fails: for an `int` value that is in no register, is not constant, has no
stack slot and no identifier, `asm_operand` ends on its assertion `val->ident != NULL`,
although the type is neither `void` nor function. -/
theorem asm_operand_assert_on_int :
    (st_temp_nowhere.heap 0).type = Ty.int ∧
      asm_operand st_temp_nowhere 0 = Except.error Err.assert := by
  decide

/-- C9, amended. `asm_operand(v)` ends with an error exactly when `v` has type `void` or
function, or when `v` is in no register, is not constant, has `stack_pos = 0` and has no
identifier (the assertion). For a value of type pointer, `char` or `int` it returns, in this
order of priority: the name of the lowest-indexed register that holds `v`; else `$` and the
decimal constant if `v` is constant; else `<stack_size - stack_pos>(%rsp)` if `stack_pos > 0`
(the `size_t` difference, which is the plain difference when `stack_pos ≤ stack_size`); else
the identifier. -/
theorem asm_operand_spec (s : State) (v : Nat) :
    ((∃ e, asm_operand s v = Except.error e) ↔
      ((s.heap v).type = Ty.void ∨ (s.heap v).type = Ty.function) ∨
      ((∀ i, i < MAX_REG → s.registers i ≠ some v) ∧ (s.heap v).constant = false ∧
        (s.heap v).stack_pos = 0 ∧ (s.heap v).ident = none)) ∧
    ((s.heap v).type ≠ Ty.void → (s.heap v).type ≠ Ty.function →
      (∀ i, i < MAX_REG → s.registers i = some v → (∀ j, j < i → s.registers j ≠ some v) →
        asm_operand s v = Except.ok (reg_names i)) ∧
      ((∀ i, i < MAX_REG → s.registers i ≠ some v) →
        ((s.heap v).constant = true →
          asm_operand s v = Except.ok ("$" ++ toString (s.heap v).value)) ∧
        ((s.heap v).constant = false → (s.heap v).stack_pos > 0 →
          asm_operand s v =
            Except.ok (toString (size_sub s.stack_size (s.heap v).stack_pos) ++ "(%rsp)") ∧
          ((s.heap v).stack_pos ≤ s.stack_size →
            size_sub s.stack_size (s.heap v).stack_pos = s.stack_size - (s.heap v).stack_pos)) ∧
        ((s.heap v).constant = false → (s.heap v).stack_pos = 0 →
          ∀ id, (s.heap v).ident = some id → asm_operand s v = Except.ok id))) := by
  by_cases hty : (s.heap v).type = Ty.void ∨ (s.heap v).type = Ty.function
  · refine ⟨⟨fun _ => Or.inl hty, fun _ => ⟨_, by unfold asm_operand; rw [if_pos hty]⟩⟩, ?_⟩
    intro h1 h2
    rcases hty with h | h
    · exact absurd h h1
    · exact absurd h h2
  · have hrun : asm_operand s v =
        match search_reg s v with
        | some reg => Except.ok (reg_names reg)
        | none =>
          if (s.heap v).constant = true then Except.ok ("$" ++ toString (s.heap v).value)
          else if (s.heap v).stack_pos > 0 then
            Except.ok (toString (size_sub s.stack_size (s.heap v).stack_pos) ++ "(%rsp)")
          else
            match (s.heap v).ident with
            | none => Except.error Err.assert
            | some id => Except.ok id := by
      unfold asm_operand; rw [if_neg hty]
    cases hsr : search_reg s v with
    | some r =>
      obtain ⟨hr, hrv, hlow⟩ := search_reg_some s v r hsr
      rw [hsr] at hrun
      refine ⟨⟨?_, ?_⟩, ?_⟩
      · rintro ⟨e, he⟩; rw [hrun] at he; cases he
      · rintro (h | ⟨h, _⟩)
        · exact absurd h hty
        · exact absurd hrv (h r hr)
      · intro _ _
        refine ⟨?_, fun h => absurd hrv (h r hr)⟩
        intro i hi hiv hilow
        have : i = r := by
          rcases Nat.lt_trichotomy i r with hlt | heq | hgt
          · exact absurd hiv (hlow i hlt)
          · exact heq
          · exact absurd hrv (hilow r hgt)
        rw [this, hrun]
    | none =>
      have hnone := search_reg_none s v hsr
      rw [hsr] at hrun
      simp only at hrun
      refine ⟨⟨?_, ?_⟩, ?_⟩
      · rintro ⟨e, he⟩
        right
        rw [hrun] at he
        by_cases hc : (s.heap v).constant = true
        · rw [if_pos hc] at he; cases he
        · rw [if_neg hc] at he
          by_cases hp : (s.heap v).stack_pos > 0
          · rw [if_pos hp] at he; cases he
          · rw [if_neg hp] at he
            cases hid : (s.heap v).ident with
            | some id => rw [hid] at he; cases he
            | none => exact ⟨hnone, by simpa using hc, by omega, rfl⟩
      · rintro (h | ⟨_, hc, hp, hid⟩)
        · exact absurd h hty
        · refine ⟨Err.assert, ?_⟩
          rw [hrun, hid]; simp [hc, hp]
      · intro _ _
        refine ⟨fun i hi hiv _ => absurd hiv (hnone i hi), fun _ => ⟨?_, ?_, ?_⟩⟩
        · intro hc; rw [hrun, if_pos hc]
        · intro hc hp
          refine ⟨?_, ?_⟩
          · rw [hrun]; simp [hc, hp]
          · intro hle; simp [size_sub, hle]
        · intro hc hp id hid
          rw [hrun, hid]; simp [hc, hp]

/-- C9 at concrete inputs: a variable held in `%rax` is named by the register; once the
register is cleared it is named by its stack slot, 8 bytes above the stack pointer when the
stack has grown by 8 since its declaration; a constant is printed in decimal. -/
theorem asm_operand_examples :
    asm_operand st_local_in_rax 0 = Except.ok "%rax" ∧
    asm_operand { st_local_in_rax with registers := fun _ => none, stack_size := 24 } 0 =
      Except.ok "8(%rsp)" ∧
    asm_operand { st_temp_nowhere with
        heap := fun _ => { type := Ty.int, constant := true, value := 42 } } 0 =
      Except.ok "$42" := by
  refine ⟨?_, by decide, by decide⟩
  exact ((asm_operand_spec st_local_in_rax 0).2 (by decide) (by decide)).1 0 (by decide)
    (by decide) (by intro j hj; omega)

/-! ## C10: `load` -/

/-- C10. Whenever `load(v, r)` returns a register `g`: `v` has type pointer, `char` or `int`;
slot `g` holds `v` and is locked; `g = r` when a register `r` was requested. If `v` was already
in the requested register (or in some register when none was requested) nothing is printed and
only the lock changes. Otherwise the previous occupant of `g`, if there was one, is spilled by
`push(g)`, and then exactly one line `mov <asm_operand(v)>, <g>` is printed, with the operand
taken in the state after the spill. -/
theorem load_spec (s : State) (v : Nat) (r : Option Nat) (g : Nat) (s2 : State)
    (h : load v r s = Except.ok (g, s2)) :
    ((s.heap v).type = Ty.pointer ∨ (s.heap v).type = Ty.char ∨ (s.heap v).type = Ty.int) ∧
    s2.registers g = some v ∧ s2.reg_locked g = true ∧ (∀ r0, r = some r0 → g = r0) ∧
    (((∃ r0, r = some r0 ∧ s.registers r0 = some v) ∨
      (r = none ∧ ∃ i, i < MAX_REG ∧ s.registers i = some v)) →
        s2 = { s with reg_locked := Function.update s.reg_locked g true }) ∧
    (¬ ((∃ r0, r = some r0 ∧ s.registers r0 = some v) ∨
        (r = none ∧ ∃ i, i < MAX_REG ∧ s.registers i = some v)) →
      ∃ s1 op,
        ((s.registers g = none ∧ s1 = s) ∨
          (s.registers g ≠ none ∧ push g s = Except.ok ((), s1))) ∧
        asm_operand s1 v = Except.ok op ∧
        s2 = { s1 with out := s1.out ++ [Line.mov op (reg_names g)],
                       registers := Function.update s1.registers g (some v),
                       reg_locked := Function.update s1.reg_locked g true }) :=
  load_effect s v r g s2 h

/-- C10 at a concrete input: loading the constant 7 into `%rax`, which holds a temporary,
pushes the temporary and prints one `mov`. -/
theorem load_spec_witness :
    ∃ s2, load 1 (some RAX)
        { st_temp_in_rax with
          heap := Function.update st_temp_in_rax.heap 1
            { type := Ty.int, constant := true, value := 7 } } = Except.ok (RAX, s2) ∧
      s2.registers RAX = some 1 ∧ s2.reg_locked RAX = true ∧
      s2.out = [Line.push "%rax", Line.mov "$7" "%rax"] := by
  have hok : (result (load 1 (some RAX)
        { st_temp_in_rax with
          heap := Function.update st_temp_in_rax.heap 1
            { type := Ty.int, constant := true, value := 7 } })) = some RAX := by decide
  have hout : (final (load 1 (some RAX)
        { st_temp_in_rax with
          heap := Function.update st_temp_in_rax.heap 1
            { type := Ty.int, constant := true, value := 7 } })).map (fun s => s.out) =
      some [Line.push "%rax", Line.mov "$7" "%rax"] := by decide
  cases hrun : load 1 (some RAX)
        { st_temp_in_rax with
          heap := Function.update st_temp_in_rax.heap 1
            { type := Ty.int, constant := true, value := 7 } } with
  | error e => rw [hrun] at hok; cases hok
  | ok p =>
    obtain ⟨g, s2⟩ := p
    rw [hrun] at hok hout
    simp [result] at hok
    simp [final] at hout
    subst hok
    obtain ⟨_, h1, h2, _⟩ := load_spec _ _ _ _ _ hrun
    exact ⟨s2, rfl, h1, h2, hout⟩

/-! ## C11: scenario 4, a call of `printf` -/

/-- C11 fails on the code: the source text of scenario 4,
`int printf(char *, ...); int main(){ printf("hi\n"); return 0; }`, is not accepted. The run
ends with the error `expected`: `parse_declaration` reads `char` and then meets `*`, for which
it has no case, so the parameter list wants `,` or `)` there. -/
theorem scenario4_rejected :
    compile 40 "int printf(char *, ...); int main()\x7b printf(\"hi\\n\"); return 0; \x7d" =
      Except.error (Err.error "expected") := by
  decide!

/-- C11 as amended: with the prototype written in the language of `parse_declaration`, as
`int printf(char s);`, the program of scenario 4 runs to the end of input without an error;
the body of `main` has `call printf`, and there is one `.string "hi\n"` entry, after `.data`.
With the prototype `int printf(char *, ...);` the run ends with the error `expected`. -/
theorem scenario4_without_pointer :
    compile 40 "int printf(char s); int main()\x7b printf(\"hi\\n\"); return 0; \x7d" =
      Except.ok [Line.text, Line.global "main", Line.entry "main", Line.push_rbx,
        Line.mov_label 100 "%rax", Line.mov "%rax" "%rdi", Line.call "printf",
        Line.mov "$0" "%rax", Line.pop_rbx, Line.ret, Line.pop_rbx, Line.ret,
        Line.data, Line.string 100 "hi\\n"] ∧
    (Line.string 100 "hi\\n").render = "l100: .string \"hi\\n\"\n" ∧
    compile 40 "int printf(char *, ...); int main()\x7b printf(\"hi\\n\"); return 0; \x7d" =
      Except.error (Err.error "expected") := by
  refine ⟨by decide!, by decide, by decide!⟩

/-! ## C12: numeric literals -/

/-- C12. A numeric literal: a non-empty run `ds` of decimal digits that denotes `N < 2^63`,
after whitespace and before a byte that is no digit. `lex` yields `NUMBER` with payload `N` and
stops on the byte after the digits; `term` then returns a fresh Value that is constant, of type
`int`, with value `N`, bound to no register, and prints nothing; `asm_operand` of that Value is
`$` followed by the decimal text of `N`, which is the digit string itself when that has no
leading zero. -/
theorem literal_round_trip (s : State) (ws ds rest : List Nat) (fuel : Nat) (l2 : Lexer)
    (hlook : s.lx.look = (fgetc (ws ++ ds ++ rest)).1)
    (hsource : s.lx.source = (fgetc (ws ++ ds ++ rest)).2)
    (hws : ∀ b ∈ ws, isspace (b : Int) = true)
    (hne : ds ≠ [])
    (hds : ∀ b ∈ ds, isdigit (b : Int) = true)
    (hrest : ∀ d r, rest = d :: r → isdigit (d : Int) = false)
    (hN : Nat.ofDigits 10 ((ds.map (fun b => b - 48)).reverse) < 2 ^ 63)
    (hfresh : ∀ r, s.registers r ≠ some s.brk)
    (hnext : ({ s.lx with source := (fgetc rest).2, look := (fgetc rest).1,
                          token := TOK_NUMBER,
                          token_value := Nat.ofDigits 10 ((ds.map (fun b => b - 48)).reverse),
                          token_str := none } : Lexer).lex = Except.ok l2) :
    ∃ s1 s2, lex s = Except.ok ((), s1) ∧
      s1.lx.token = TOK_NUMBER ∧
      s1.lx.token_value = Nat.ofDigits 10 ((ds.map (fun b => b - 48)).reverse) ∧
      s1.lx.look = (fgetc rest).1 ∧ s1.lx.source = (fgetc rest).2 ∧
      term (fuel + 1) s1 = Except.ok (s.brk, s2) ∧
      (s2.heap s.brk).constant = true ∧ (s2.heap s.brk).type = Ty.int ∧
      (s2.heap s.brk).value = Nat.ofDigits 10 ((ds.map (fun b => b - 48)).reverse) ∧
      (∀ r, s2.registers r ≠ some s.brk) ∧ search_reg s2 s.brk = none ∧ s2.out = s.out ∧
      asm_operand s2 s.brk =
        Except.ok ("$" ++ toString (Nat.ofDigits 10 ((ds.map (fun b => b - 48)).reverse))) ∧
      ((ds.head? ≠ some 48 ∨ ds = [48]) →
        asm_operand s2 s.brk = Except.ok ("$" ++ word ds)) := by
  have hbefore : s.lx = s.lx.before (ws ++ ds ++ rest) := by
    unfold Lexer.before
    rw [← hlook, ← hsource]
  have hlex := lex_number_eq s.lx ws ds rest hws hne hds hrest
    (Nat.lt_trans hN (by decide))
  rw [← hbefore] at hlex
  have hterm := term_number fuel
    { s with lx := { s.lx with source := (fgetc rest).2, look := (fgetc rest).1,
                               token := TOK_NUMBER,
                               token_value := Nat.ofDigits 10 ((ds.map (fun b => b - 48)).reverse),
                               token_str := none } } l2 rfl hnext
  have hsr : search_reg
      { s with heap := Function.update s.heap s.brk
                 { type := Ty.int,
                   value := Nat.ofDigits 10 ((ds.map (fun b => b - 48)).reverse),
                   constant := true },
               brk := s.brk + 1, lx := l2 } s.brk = none := by
    unfold search_reg
    rw [List.find?_eq_none]
    intro r _
    simp [hfresh r]
  have hop : asm_operand
      { s with heap := Function.update s.heap s.brk
                 { type := Ty.int,
                   value := Nat.ofDigits 10 ((ds.map (fun b => b - 48)).reverse),
                   constant := true },
               brk := s.brk + 1, lx := l2 } s.brk =
        Except.ok ("$" ++ toString (Nat.ofDigits 10 ((ds.map (fun b => b - 48)).reverse))) := by
    unfold asm_operand
    rw [hsr]
    simp
  refine ⟨_, _, ?_, rfl, rfl, rfl, rfl, hterm, ?_, ?_, ?_, hfresh, hsr, rfl, hop, ?_⟩
  · unfold lex
    rw [hlex]
  · simp
  · simp
  · simp
  · intro hlead
    rw [hop, toString_digits ds hds hne hlead]

/-- C12 at a concrete input: the literal `42` before `;`. -/
theorem literal_round_trip_witness :
    ∃ s1 s2,
      lex { State.init [] with lx := ⟨bytes "2;", 52, 0, 0, none⟩ } = Except.ok ((), s1) ∧
      s1.lx.token = TOK_NUMBER ∧ s1.lx.token_value = 42 ∧
      term 1 s1 = Except.ok (0, s2) ∧ (s2.heap 0).constant = true ∧
      asm_operand s2 0 = Except.ok "$42" := by
  obtain ⟨s1, s2, h1, h2, h3, _, _, h4, h5, _, _, _, _, _, _, h6⟩ :=
    literal_round_trip { State.init [] with lx := ⟨bytes "2;", 52, 0, 0, none⟩ }
      [] (bytes "42") (bytes ";") 0 ⟨[], EOF, 59, 42, none⟩ (by decide) (by decide)
      (by decide) (by decide) (by decide) (by intro d r h; cases h; decide) (by decide)
      (by intro r h; cases h) (by decide)
  exact ⟨s1, s2, h1, h2, h3, h4, h5, h6 (by decide)⟩

/-! ## C13: label uniqueness -/

/-- C14. An expression `t0 op1 t1 ... opn tn` of numeric literals with `n ≥ 1`, compiled with
all six registers empty: `binop_expr` returns, and it prints `mov $t0, %rax` once, followed for
each `i` in order by the instruction of `op_i` with source `$t_i` and destination `%rax`
(`add`, `sub`, `imul`, or `cmp` with `setl`/`setg %al` and `movzx %al, %rax`), so the
operators are applied from left to right whatever they are. The result is a temporary of type
`int` bound to `%rax`; the other registers stay empty and the lock of `%rax` is released. -/
theorem binop_chain (s : State) (t0 : Nat) (ops : List (Int × Nat)) (l1 lf : Lexer)
    (fuel : Nat)
    (htok : s.lx.token = TOK_NUMBER) (hval : s.lx.token_value = t0)
    (hl1 : s.lx.lex = Except.ok l1) (hchain : lex_chain l1 ops = some lf) (hne : ops ≠ [])
    (hregs : ∀ i, i < MAX_REG → s.registers i = none)
    (hfuel : ops.length + 2 ≤ fuel) :
    ∃ r s1, binop_expr fuel s = Except.ok (r, s1) ∧
      s1.out = s.out ++ Line.mov ("$" ++ toString t0) "%rax" ::
        ops.flatMap (fun p => spec_binop_lines p.1 ("$" ++ toString p.2)) ∧
      s1.registers RAX = some r ∧ (∀ i, i < MAX_REG → i ≠ RAX → s1.registers i = none) ∧
      (s1.heap r).type = Ty.int ∧ (s1.heap r).constant = false ∧
      s1.lx = lf ∧ s1.stack_size = s.stack_size ∧ s1.reg_locked RAX = false := by
  obtain ⟨g, hg⟩ : ∃ g, fuel = g + 2 := ⟨fuel - 2, by omega⟩
  subst hg
  obtain ⟨r, s1, hrun, hout, hlx, hreg, hoth, hty, hcon, hss, _, hlk, _⟩ :=
    binop_loop_chain ops
      { s with heap := Function.update s.heap s.brk
                 { type := Ty.int, value := s.lx.token_value, constant := true },
               brk := s.brk + 1, lx := l1 }
      s.brk g lf [Line.mov ("$" ++ toString t0) "%rax"] hchain
      (Or.inr ⟨hregs RAX (by decide), by simp, hne, by simp [hval]⟩)
      (fun i hi _ => hregs i hi) (Nat.lt_succ_self _) (by simp) (by simp) (by simp)
      (by omega)
  refine ⟨r, s1, ?_, ?_, hreg hne, hoth, hty, hcon hne, hlx, hss, hlk hne⟩
  · rw [binop_expr, bind_ok _ _ _ _ _ (term_number g s l1 htok hl1)]
    exact hrun
  · rw [hout, if_neg hne]
    simp

/-- C14 at a concrete input: `1 - 2 * 3` is compiled as `(1 - 2) * 3`. -/
theorem binop_chain_witness :
    ∃ r s1, binop_expr 4 (st_body "1 - 2 * 3; \x7d") = Except.ok (r, s1) ∧
      s1.out = [Line.mov "$1" "%rax", Line.sub "$2" "%rax", Line.imul "$3" "%rax"] ∧
      s1.registers RAX = some r ∧ (s1.heap r).type = Ty.int := by
  obtain ⟨r, s1, h, hout, hreg, _, hty, _⟩ :=
    binop_chain (st_body "1 - 2 * 3; \x7d") 1 [(45, 2), (42, 3)]
      ⟨bytes "2 * 3; \x7d", 32, 45, 1, none⟩ ⟨bytes "\x7d", 32, 59, 3, none⟩ 4
      (by decide) (by decide) (by decide) (by decide) (by decide)
      (by intro i _; rfl) (by decide)
  refine ⟨r, s1, h, ?_, hreg, hty⟩
  rw [hout]
  decide

/-! ## C15: more arguments than the table of a call holds -/

/-- Once the table of a call is full, `call_args` returns only at the closing parenthesis:
any further argument is stored outside the table. -/
theorem call_args_full (fuel fn : Nat) (arg : Option Nat) (i : Nat) (values : Nat → Option Nat)
    (s s1 : State) (r : Nat → Option Nat) (hi : MAX_REG ≤ i)
    (h : call_args fuel fn arg i values s = Except.ok (r, s1)) :
    s.lx.token = 41 ∧ r = values := by
  cases fuel with
  | zero => unfold call_args at h; cases h
  | succ n =>
    unfold call_args at h
    obtain ⟨b, s2, h1, h⟩ := bind_inv h
    unfold check at h1
    rw [getS_bind] at h1
    by_cases ht : s.lx.token = 41
    · rw [if_pos ht] at h1
      obtain ⟨_, s3, _, h3⟩ := bind_inv h1
      obtain ⟨hb, _⟩ := pure_inv h3
      subst hb
      rw [if_pos rfl] at h
      obtain ⟨hr, _⟩ := pure_inv h
      exact ⟨ht, hr⟩
    · rw [if_neg ht] at h1
      obtain ⟨hb, _⟩ := pure_inv h1
      subst hb
      simp only [Bool.false_eq_true, if_false] at h
      rw [getS_bind] at h
      split at h
      · cases h
      · obtain ⟨val, s3, _, h3⟩ := bind_inv h
        first
          | cases h3
          | (rw [if_pos hi] at h3; cases h3)

/-- C15 fails on the code. For a callee that is not variadic an argument beyond the declared
parameters ends the run with `too many arguments`, and a variadic call with six arguments is
compiled. A seventh argument of a variadic call is stored with `values[i++] = val` at index 6
of the six-entry table: `function_call` has no bound on `i`, and the store is outside the
array. In every state, once six arguments are stored the argument loop returns only at the
closing parenthesis. -/
theorem seventh_argument_out_of_bounds :
    compile 40 "int f(int a, ..); int main()\x7b f(1, 2, 3, 4, 5, 6, 7); return 0; \x7d" =
      Except.error Err.fault ∧
    compile 40 "int f(int a); int main()\x7b f(1, 2); return 0; \x7d" =
      Except.error (Err.error "too many arguments") ∧
    compile 40 "int f(int a, ..); int main()\x7b f(1, 2, 3, 4, 5, 6); return 0; \x7d" =
      Except.ok [Line.text, Line.global "main", Line.entry "main", Line.push_rbx,
        Line.mov "$1" "%rdi", Line.mov "$2" "%rsi", Line.mov "$3" "%rdx", Line.mov "$4" "%rcx",
        Line.mov "$5" "%rbx", Line.mov "$6" "%rax", Line.call "f", Line.mov "$0" "%rax",
        Line.pop_rbx, Line.ret, Line.pop_rbx, Line.ret, Line.data] ∧
    (∀ fuel fn arg i values s s1 r, MAX_REG ≤ i →
      call_args fuel fn arg i values s = Except.ok (r, s1) → s.lx.token = 41 ∧ r = values) := by
  refine ⟨by decide!, by decide!, by decide!, ?_⟩
  intro fuel fn arg i values s s1 r hi h
  exact call_args_full fuel fn arg i values s s1 r hi h

/-! ## C16: `end_block` -/

/-- C16. On a symbol table that is a finite chain `l`, `end_block(old)` returns. If the depth
is above `old`, exactly one line `add $<depth - old>, %rsp` is printed and the depth becomes
`old`; otherwise nothing is printed and the depth is unchanged. Afterwards every Value of the
symbol table has `stack_pos` at most the depth: those that were above it have `stack_pos = 0`,
the others are unchanged; no other Value changes; all register slots are empty; the symbol
table itself and the locks are unchanged. -/
theorem end_block_spec (s : State) (old : Nat) (l : List Nat) (fuel : Nat)
    (hl : symbols s.heap s.symtab l = true) (hf : l.length ≤ fuel) :
    ∃ s1, end_block fuel old s = Except.ok ((), s1) ∧
      (s.stack_size > old →
        s1.out = s.out ++ [Line.add_rsp (s.stack_size - old)] ∧ s1.stack_size = old) ∧
      (¬ s.stack_size > old → s1.out = s.out ∧ s1.stack_size = s.stack_size) ∧
      (∀ v ∈ l, (s1.heap v).stack_pos ≤ s1.stack_size ∧
        ((s.heap v).stack_pos > s1.stack_size → s1.heap v = { s.heap v with stack_pos := 0 }) ∧
        ((s.heap v).stack_pos ≤ s1.stack_size → s1.heap v = s.heap v)) ∧
      (∀ v, v ∉ l → s1.heap v = s.heap v) ∧
      (∀ r, s1.registers r = none) ∧
      s1.symtab = s.symtab ∧ symbols s1.heap s1.symtab l = true ∧
      s1.reg_locked = s.reg_locked := by
  refine ⟨_, end_block_eq s old l fuel hl hf, ?_, ?_, ?_, ?_, fun _ => rfl, rfl, ?_, rfl⟩
  · intro hgt
    have hmin : min s.stack_size old = old := by omega
    simp [hgt, hmin]
  · intro hgt
    have hmin : min s.stack_size old = s.stack_size := by omega
    simp [hgt, hmin]
  · intro v hv
    dsimp only
    by_cases hp : (s.heap v).stack_pos > min s.stack_size old
    · rw [if_pos ⟨hv, hp⟩]
      exact ⟨Nat.zero_le _, fun _ => rfl, fun h => absurd hp (by omega)⟩
    · rw [if_neg (fun h => hp h.2)]
      exact ⟨by omega, fun h => absurd h hp, fun _ => rfl⟩
  · intro v hv
    simp [hv]
  · rw [← hl]
    apply symbols_congr
    intro v
    dsimp only
    split <;> rfl

/-- C16 at a concrete input: leaving the inner block of `st_two_locals` with `old = 16`. -/
theorem end_block_spec_witness :
    ∃ s1, end_block 2 16 st_two_locals = Except.ok ((), s1) ∧
      s1.out = [Line.add_rsp 8] ∧ s1.stack_size = 16 ∧
      (s1.heap 1).stack_pos = 0 ∧ (s1.heap 0).stack_pos = 16 ∧ s1.registers RAX = none := by
  obtain ⟨s1, h, h1, _, h2, _, h3, _⟩ :=
    end_block_spec st_two_locals 16 [1, 0] 2 (by decide) (by decide)
  obtain ⟨ho, hs⟩ := h1 (by decide)
  refine ⟨s1, h, ho, hs, ?_, ?_, h3 _⟩
  · rw [(h2 1 (by simp)).2.1 (by rw [hs]; decide)]
  · rw [(h2 0 (by simp)).2.2 (by rw [hs]; decide)]
    rfl

/-! ## C17: register locks -/

/-- A returning `return` statement leaves `%rax` locked. -/
theorem return_statement_locks (fuel : Nat) (s s1 : State)
    (h : return_statement fuel s = Except.ok ((), s1)) : s1.reg_locked RAX = true := by
  unfold return_statement at h
  obtain ⟨val, s2, _, h⟩ := bind_inv h
  obtain ⟨_, s3, _, h⟩ := bind_inv h
  obtain ⟨g, s4, h4, h⟩ := bind_inv h
  obtain ⟨_, _, hlock, hg, _⟩ := load_effect _ _ _ _ _ h4
  have hg0 := hg RAX rfl
  subst hg0
  rw [getS_bind] at h
  by_cases hgt : s4.stack_size > 8
  · rw [if_pos hgt] at h
    simp only [bind_assoc, emit_bind] at h
    cases h
    exact hlock
  · rw [if_neg hgt] at h
    simp only [bind_assoc, pure_bind_apply, emit_bind] at h
    cases h
    exact hlock

/-- C17 fails on the code. Started with no register locked, `statement()` returns with
`%rax` locked after `return 0;`, after `if (1) f();`, after `while (1) f();`, after
`for (1; 1; 1) f();` and after `int a = 1;`: the `load` of a condition, of a returned value
and of an initializer is never followed by `reg_locked[reg] = 0`. Only the unary minus, the
binary operators and the assignment release their lock (`1 + 2;`, `-1;`). A call with six
arguments leaves all six registers locked, and then an expression that needs a spill ends
the run with `unable to allocate a register`, while the same expression compiles when no
call precedes it. Every returning `return` statement leaves `%rax` locked, and so does
the whole run on `int main(){ return 0; }`. -/
theorem locks_stay_after_statement :
    locked (st_body "return 0; \x7d") = [] ∧
    (final (statement 40 (st_body "return 0; \x7d"))).map locked = some [RAX] ∧
    (final (statement 40 (st_body "if (1) f(); \x7d"))).map locked = some [RAX] ∧
    (final (statement 40 (st_body "while (1) f(); \x7d"))).map locked = some [RAX] ∧
    (final (statement 40 (st_body "for (1; 1; 1) f(); \x7d"))).map locked = some [RAX] ∧
    (final (statement 40 (st_body "int a = 1; \x7d"))).map locked = some [RAX] ∧
    (final (statement 40 (st_body "1 + 2; \x7d"))).map locked = some [] ∧
    (final (statement 40 (st_body "-1; \x7d"))).map locked = some [] ∧
    compile 40 ("int f(int a, int b, int c, int d, int e, int g); int main()\x7b " ++
        "f(1, 2, 3, 4, 5, 6); " ++
        "\"a\" + (\"b\" + (\"c\" + (\"d\" + (\"e\" + (\"f\" + \"g\"))))); return 0; \x7d") =
      Except.error (Err.error "unable to allocate a register") ∧
    (compile 40 ("int main()\x7b " ++
        "\"a\" + (\"b\" + (\"c\" + (\"d\" + (\"e\" + (\"f\" + \"g\"))))); return 0; \x7d")).toBool
      = true ∧
    locked (State.init (bytes "int main()\x7b return 0; \x7d")) = [] ∧
    (final (main 40 (State.init (bytes "int main()\x7b return 0; \x7d")))).map locked =
      some [RAX] ∧
    (∀ fuel s s1, return_statement fuel s = Except.ok ((), s1) → s1.reg_locked RAX = true) := by
  refine ⟨by decide, by decide!, by decide!, by decide!, by decide!, by decide!, by decide!,
    by decide!, by decide!, by decide!, by decide, by decide!, ?_⟩
  intro fuel s s1 h
  exact return_statement_locks fuel s s1 h

/-! ## C18: keywords and identifiers -/

/-- C18. When the first byte of the input that is not whitespace is a letter or an underscore,
`lex` returns; it consumes exactly the maximal run `w` of letters, digits and underscores and
leaves the lookahead on the first byte after `w` (or on `EOF`); the token is the keyword token
when `w` is one of `while`, `if`, `for`, `return`, `char`, `int`, `void`, and otherwise
`IDENTIFIER` with `w` as payload. -/
theorem lex_word (l : Lexer) (ws w rest : List Nat)
    (hws : ∀ b ∈ ws, isspace (b : Int) = true)
    (hfirst : ∃ c cs, w = c :: cs ∧ (isalpha (c : Int) || (c : Int) == 95) = true)
    (hw : ∀ b ∈ w, (isalnum (b : Int) || (b : Int) == 95) = true)
    (hrest : ∀ d ds, rest = d :: ds → (isalnum (d : Int) || (d : Int) == 95) = false) :
    ∃ l1, (l.before (ws ++ w ++ rest)).lex = Except.ok l1 ∧
      l1.look = (fgetc rest).1 ∧ l1.source = (fgetc rest).2 ∧
      l1.token_value = l.token_value ∧
      (word w = "while" → l1.token = TOK_WHILE) ∧
      (word w = "if" → l1.token = TOK_IF) ∧
      (word w = "for" → l1.token = TOK_FOR) ∧
      (word w = "return" → l1.token = TOK_RETURN) ∧
      (word w = "char" → l1.token = TOK_CHAR) ∧
      (word w = "int" → l1.token = TOK_INT) ∧
      (word w = "void" → l1.token = TOK_VOID) ∧
      (word w ∉ ["while", "if", "for", "return", "char", "int", "void"] →
        l1.token = TOK_IDENTIFIER ∧ l1.token_str = some (word w)) := by
  rw [lex_word_eq l ws w rest hws hfirst hw hrest]
  unfold keyword
  split_ifs with h1 h2 h3 h4 h5 h6 h7
  · refine ⟨_, rfl, rfl, rfl, ?_⟩
    simp [h1]
  · refine ⟨_, rfl, rfl, rfl, ?_⟩
    simp [h2]
  · refine ⟨_, rfl, rfl, rfl, ?_⟩
    simp [h3]
  · refine ⟨_, rfl, rfl, rfl, ?_⟩
    simp [h4]
  · refine ⟨_, rfl, rfl, rfl, ?_⟩
    simp [h5]
  · refine ⟨_, rfl, rfl, rfl, ?_⟩
    simp [h6]
  · refine ⟨_, rfl, rfl, rfl, ?_⟩
    simp [h7]
  · refine ⟨_, rfl, rfl, rfl, ?_⟩
    simp [h1, h2, h3, h4, h5, h6, h7]

/-- C18 at concrete inputs: in `  whilex(` the word is `whilex`, an identifier, and the
lookahead stops on `(`; in `int_` at the end of the input the word is the identifier `int_`;
in `while(` the word is the keyword. -/
theorem lex_word_witness :
    (Lexer.before ⟨[], 0, 0, 0, none⟩ (bytes "  whilex(")).lex =
      Except.ok ⟨[], 40, TOK_IDENTIFIER, 0, some "whilex"⟩ ∧
    (Lexer.before ⟨[], 0, 0, 0, none⟩ (bytes "int_")).lex =
      Except.ok ⟨[], EOF, TOK_IDENTIFIER, 0, some "int_"⟩ ∧
    (Lexer.before ⟨[], 0, 0, 0, none⟩ (bytes "while(")).lex =
      Except.ok ⟨[], 40, TOK_WHILE, 0, none⟩ := by
  obtain ⟨l1, h1, h2, h3, h4, _, _, _, _, _, _, _, h5⟩ :=
    lex_word ⟨[], 0, 0, 0, none⟩ (bytes "  ") (bytes "whilex") (bytes "(") (by decide)
      ⟨_, _, rfl, by decide⟩ (by decide) (by intro d ds h; cases h; decide)
  obtain ⟨h6, h7⟩ := h5 (by decide)
  refine ⟨?_, by decide, by decide⟩
  obtain ⟨a, b, c, d, e⟩ := l1
  cases h2; cases h3; cases h4; cases h6; cases h7
  exact h1

/-! ## C19: the layout of a `for` statement -/

/-- What `end_block` prints: nothing, or one `add` to `%rsp`. -/
theorem end_block_out (fuel old : Nat) (s s1 : State)
    (h : end_block fuel old s = Except.ok ((), s1)) :
    ∃ e, (e = [] ∨ ∃ n, e = [Line.add_rsp n]) ∧ s1.out = s.out ++ e := by
  obtain ⟨_, _, ho, _⟩ := end_block_inv fuel old s s1 h
  by_cases hgt : s.stack_size > old
  · rw [if_pos hgt] at ho
    exact ⟨_, Or.inr ⟨_, rfl⟩, ho⟩
  · rw [if_neg hgt] at ho
    exact ⟨[], Or.inl rfl, by rw [ho, List.append_nil]⟩

/-- C19. Every returning `for_statement` is the following chain of steps, each started in
the state that the step before it left. It takes four labels `test`, `end`, `begin`, `step`
from the counter in this order (so they are distinct), and what it prints is, in order: the
lines `I` of `expr` for the initial expression; the `add` of `end_block`, if any; `l<test>:`;
the lines `C` of `expr` for the condition and the lines `L` of its `load`, after which the
register `<r>` holds the value of the condition; `or <r>, <r>`; `jz l<end>`; `jmp l<begin>`;
the `add` of `end_block`, if any; `l<step>:`; the lines `S` of `expr` for the step expression;
`jmp l<test>`; the `add` of `end_block`, if any; `l<begin>:`; the lines `B` of `block` for the
body; `jmp l<step>`; `l<end>:`. -/
theorem for_layout (fuel : Nat) (s sf : State)
    (h : for_statement (fuel + 1) s = Except.ok ((), sf)) :
    ∃ (s1 s2 s3 s4 s5 s7 s8 sl s9 s11 s13 s14 s15 s17 s19 : State)
      (initial condition stepv reg test end_label begin step : Nat)
      (I E1 C L E2 S E3 B : List Line),
      expect 40 s = Except.ok ((), s1) ∧ s1.out = s.out ∧
      expr fuel s1 = Except.ok (initial, s2) ∧ s2.out = s1.out ++ I ∧
      drop initial s2 = Except.ok ((), s3) ∧ expect 59 s3 = Except.ok ((), s4) ∧
      s4.out = s2.out ∧
      end_block fuel s1.stack_size s4 = Except.ok ((), s5) ∧ s5.out = s4.out ++ E1 ∧
      test = s5.next_label ∧
      expr fuel { s5 with next_label := s5.next_label + 1,
                          out := s5.out ++ [Line.label test] } = Except.ok (condition, s7) ∧
      s7.out = s5.out ++ [Line.label test] ++ C ∧
      expect 59 s7 = Except.ok ((), s8) ∧ s8.out = s7.out ∧
      end_label = s8.next_label ∧
      load condition none { s8 with next_label := s8.next_label + 1 } = Except.ok (reg, sl) ∧
      sl.out = s8.out ++ L ∧ sl.registers reg = some condition ∧
      drop condition
          { sl with out := sl.out ++ [Line.or (reg_names reg) (reg_names reg)] ++
                             [Line.jz end_label] } = Except.ok ((), s9) ∧
      s9.out = sl.out ++ [Line.or (reg_names reg) (reg_names reg), Line.jz end_label] ∧
      begin = s9.next_label ∧
      end_block fuel s5.stack_size
          { s9 with next_label := s9.next_label + 1,
                    out := s9.out ++ [Line.jmp begin] } = Except.ok ((), s11) ∧
      s11.out = s9.out ++ [Line.jmp begin] ++ E2 ∧
      step = s11.next_label ∧
      expr fuel { s11 with next_label := s11.next_label + 1,
                           out := s11.out ++ [Line.label step] } = Except.ok (stepv, s13) ∧
      s13.out = s11.out ++ [Line.label step] ++ S ∧
      drop stepv s13 = Except.ok ((), s14) ∧ expect 41 s14 = Except.ok ((), s15) ∧
      s15.out = s13.out ∧
      end_block fuel s11.stack_size { s15 with out := s15.out ++ [Line.jmp test] } =
        Except.ok ((), s17) ∧
      s17.out = s15.out ++ [Line.jmp test] ++ E3 ∧
      block fuel { s17 with out := s17.out ++ [Line.label begin] } = Except.ok ((), s19) ∧
      s19.out = s17.out ++ [Line.label begin] ++ B ∧
      sf = { s19 with out := s19.out ++ [Line.jmp step] ++ [Line.label end_label] } ∧
      s.next_label ≤ test ∧ test < end_label ∧ end_label < begin ∧ begin < step ∧
      step < sf.next_label ∧
      (E1 = [] ∨ ∃ n, E1 = [Line.add_rsp n]) ∧ (E2 = [] ∨ ∃ n, E2 = [Line.add_rsp n]) ∧
      (E3 = [] ∨ ∃ n, E3 = [Line.add_rsp n]) ∧
      sf.out = s.out ++ I ++ E1 ++ [Line.label test] ++ C ++ L ++
        [Line.or (reg_names reg) (reg_names reg), Line.jz end_label, Line.jmp begin] ++ E2 ++
        [Line.label step] ++ S ++ [Line.jmp test] ++ E3 ++ [Line.label begin] ++ B ++
        [Line.jmp step, Line.label end_label] := by
  obtain ⟨s1, initial, s2, s3, s4, s5, condition, s7, s8, end_label, s9, s11, stepv, s13,
    s14, s15, s17, s19, h1, h2, h3, h4, h5, h7, h8, h9, h11, h13, h14, h15, h17, h19, hf⟩ :=
    for_statement_inv fuel s sf h
  obtain ⟨q1o, q1n, _⟩ := quiet_expect _ _ _ _ h1
  have a2 := pres_at h2 (lab_expr _)
  obtain ⟨I, hI⟩ := lab_out a2
  obtain ⟨q3o, q3n, _⟩ := quiet_drop _ _ _ _ h3
  obtain ⟨q4o, q4n, _⟩ := quiet_expect _ _ _ _ h4
  have a5 := pres_at h5 (lab_end_block _ _)
  obtain ⟨E1, hE1, o5⟩ := end_block_out _ _ _ _ h5
  have a7 := pres_at h7 (lab_expr _)
  obtain ⟨C, hC⟩ := lab_out a7
  obtain ⟨q8o, q8n, _⟩ := quiet_expect _ _ _ _ h8
  unfold test_condition at h9
  rw [getS_bind, modifyS_bind] at h9
  obtain ⟨g, sl, hload, h9⟩ := bind_inv h9
  rw [emit_bind, emit_bind] at h9
  obtain ⟨_, s9a, hdrop, h9⟩ := bind_inv h9
  obtain ⟨hl, hs9⟩ := pure_inv h9
  subst hs9
  subst hl
  obtain ⟨q9o, q9n, _⟩ := quiet_drop _ _ _ _ hdrop
  obtain ⟨_, hreg, _⟩ := load_effect _ _ _ _ _ hload
  have al := pres_at hload (lab_load _ _)
  obtain ⟨L, hL⟩ := lab_out al
  have a11 := pres_at h11 (lab_end_block _ _)
  obtain ⟨E2, hE2, o11⟩ := end_block_out _ _ _ _ h11
  have a13 := pres_at h13 (lab_expr _)
  obtain ⟨S, hS⟩ := lab_out a13
  obtain ⟨q14o, q14n, _⟩ := quiet_drop _ _ _ _ h14
  obtain ⟨q15o, q15n, _⟩ := quiet_expect _ _ _ _ h15
  have a17 := pres_at h17 (lab_end_block _ _)
  obtain ⟨E3, hE3, o17⟩ := end_block_out _ _ _ _ h17
  have a19 := pres_at h19 (lab_block _)
  obtain ⟨B, hB⟩ := lab_out a19
  have n2 := a2.1
  have n5 := a5.1
  have n7 : s5.next_label + 1 ≤ s7.next_label := a7.1
  have nl : s8.next_label + 1 ≤ sl.next_label := al.1
  have n9 : s9.next_label = sl.next_label := q9n
  have n11 : s9.next_label + 1 ≤ s11.next_label := a11.1
  have n13 : s11.next_label + 1 ≤ s13.next_label := a13.1
  have n17 : s15.next_label ≤ s17.next_label := a17.1
  have n19 : s17.next_label ≤ s19.next_label := a19.1
  have o9 : s9.out = sl.out ++ [Line.or (reg_names g) (reg_names g), Line.jz s8.next_label] := by
    rw [q9o]
    simp
  have o4 : s4.out = s2.out := by rw [q4o, q3o]
  have o15 : s15.out = s13.out := by rw [q15o, q14o]
  have hnf : sf.next_label = s19.next_label := by rw [hf]
  have hout : sf.out = s.out ++ I ++ E1 ++ [Line.label s5.next_label] ++ C ++ L ++
      [Line.or (reg_names g) (reg_names g), Line.jz s8.next_label, Line.jmp s9.next_label] ++
      E2 ++ [Line.label s11.next_label] ++ S ++ [Line.jmp s5.next_label] ++ E3 ++
      [Line.label s9.next_label] ++ B ++ [Line.jmp s11.next_label, Line.label s8.next_label] := by
    have e19 : s19.out = s17.out ++ [Line.label s9.next_label] ++ B := hB
    have e17 : s17.out = s15.out ++ [Line.jmp s5.next_label] ++ E3 := o17
    have e13 : s13.out = s11.out ++ [Line.label s11.next_label] ++ S := hS
    have e11 : s11.out = s9.out ++ [Line.jmp s9.next_label] ++ E2 := o11
    have e7 : s7.out = s5.out ++ [Line.label s5.next_label] ++ C := hC
    have eL : sl.out = s8.out ++ L := hL
    have e2 : s2.out = s1.out ++ I := hI
    have ef : sf.out = s19.out ++ [Line.jmp s11.next_label] ++ [Line.label s8.next_label] := by
      rw [hf]
    rw [ef, e19, e17, o15, e13, e11, o9, eL, q8o, e7, o5, o4, e2, q1o]
    simp only [List.append_assoc, List.cons_append, List.nil_append]
  have b1 : s.next_label ≤ s5.next_label := by omega
  have b2 : s5.next_label < s8.next_label := by omega
  have b3 : s8.next_label < s9.next_label := by omega
  have b4 : s9.next_label < s11.next_label := by omega
  have b5 : s11.next_label < sf.next_label := by omega
  refine ⟨s1, s2, s3, s4, s5, s7, s8, sl, s9, s11, s13, s14, s15, s17, s19, initial,
    condition, stepv, g, s5.next_label, s8.next_label, s9.next_label, s11.next_label,
    I, E1, C, L, E2, S, E3, B, ?_⟩
  exact ⟨h1, q1o, h2, hI, h3, h4, o4, h5, o5, rfl, h7, hC, h8, q8o, rfl,
    hload, hL, hreg, hdrop, o9, rfl, h11, o11, rfl, h13, hS, h14, h15, o15, h17, o17, h19, hB,
    hf, b1, b2, b3, b4, b5, hE1, hE2, hE3, hout⟩

/-- C19 at a concrete input: `for (1; 2; 3) f();` in the body of `main`. The labels are
`test = 100`, `end = 101`, `begin = 102`, `step = 103`. -/
theorem for_layout_witness :
    ∃ sf, for_statement 40 (st_body "(1; 2; 3) f(); \x7d") = Except.ok ((), sf) ∧
      sf.out = [Line.label 100, Line.mov "$2" "%rax", Line.or "%rax" "%rax", Line.jz 101,
        Line.jmp 102, Line.label 103, Line.jmp 100, Line.label 102, Line.call "f",
        Line.jmp 103, Line.label 101] ∧
      ∃ test end_label begin step, test < end_label ∧ end_label < begin ∧ begin < step ∧
        step < sf.next_label := by
  have hout : (final (for_statement 40 (st_body "(1; 2; 3) f(); \x7d"))).map (fun s => s.out) =
      some [Line.label 100, Line.mov "$2" "%rax", Line.or "%rax" "%rax", Line.jz 101,
        Line.jmp 102, Line.label 103, Line.jmp 100, Line.label 102, Line.call "f",
        Line.jmp 103, Line.label 101] := by decide!
  cases hrun : for_statement 40 (st_body "(1; 2; 3) f(); \x7d") with
  | error e => rw [hrun] at hout; cases hout
  | ok p =>
    obtain ⟨u, sf⟩ := p
    rw [hrun] at hout
    simp only [final, Option.map_some', Option.some.injEq] at hout
    obtain ⟨_, _, _, _, _, _, _, _, _, _, _, _, _, _, _, _, _, _, _, t, e, b, st, _, _, _, _,
      _, _, _, _, hrest⟩ := for_layout 39 _ _ hrun
    obtain ⟨_, _, _, _, _, _, _, _, _, _, _, _, _, _, _, _, _, _, _, _, _, _, _, _, _, _, _,
      _, _, _, _, _, _, _, _, h1, h2, h3, h4, _⟩ := hrest
    exact ⟨sf, rfl, hout, t, e, b, st, h1, h2, h3, h4⟩

/-! ## C20: the store of an assignment -/

/-- C20 fails on the code. In
`int f(int a); int main(){ int x; x = 5; x = f(x); if (1) return x; return 0; }` the call
`f(x)` loads the local `x` into `%rdi` and `drop` leaves it there (it has a stack slot), so
at the store of `x = f(x)` the operand of the target is the register: the line printed is
`mov %rax, %rdi`, not `mov %rax, 8(%rsp)`. The `end_block` of the `if` empties the
registers, and `return x` in its body reads `8(%rsp)`, the slot that still holds 5. -/
theorem assignment_stores_to_register :
    compile 40 ("int f(int a); int main()\x7b int x; x = 5; x = f(x); " ++
        "if (1) return x; return 0; \x7d") =
      Except.ok [Line.text, Line.global "main", Line.entry "main", Line.push_rbx,
        Line.sub_rsp 8, Line.mov "$5" "%rax", Line.mov "%rax" "0(%rsp)",
        Line.mov "0(%rsp)" "%rdi", Line.sub_rsp 8, Line.call "f", Line.mov "%rax" "%rdi",
        Line.mov "$1" "%rax", Line.or "%rax" "%rax", Line.jz 100,
        Line.mov "8(%rsp)" "%rax", Line.add_rsp 16, Line.pop_rbx, Line.ret, Line.label 100,
        Line.mov "$0" "%rax", Line.add_rsp 16, Line.pop_rbx, Line.ret,
        Line.add_rsp 16, Line.pop_rbx, Line.ret, Line.data] := by
  decide!

end Jcc
